import Mathlib

/-! # PDT tweet importer (`CPP_attempt/main.cpp`): shallow embedding and verified properties

The C++ program reads line-delimited JSON records, extracts seven relational
tables and deduplicates every entity against process-wide registries.

Modelling conventions.

* `std::string` is modelled by `String`.  Every string the program handles comes
  out of the JSON parser, `dump()` or `std::to_string`, hence is valid UTF-8; the
  byte-wise operations of the source (`csv_quote`, `::tolower` in the "C" locale,
  `std::stoll`) only look at ASCII bytes, so they act on characters one by one.
* `long long` / `int` values are mathematical integers (`Int`); the conversions
  that can wrap (`get<long long>()`, `get<int>()`) are explicit (`to_ll`,
  `to_int`).
* `std::unordered_set` / `std::unordered_map` are lists in insertion order; the
  source only uses `find`, `insert`, `emplace` and `erase` on them while parsing.
* The registries are global variables in the source; here they are the `g`
  component of an explicit `State`, threaded through `parse_tweet`.
* Locks are not modelled: the definitions describe one thread running alone.
* Exceptions: `merge_entities` returns in `Except`; `parse_tweet` is given twice,
  as the function of the values it computes and, with the suffix `_exn`, statement
  by statement with every throwing library call in `Except`.  The two are proved
  to agree, no exception being raised.
-/

namespace PDT

/-! ## JSON values (`nlohmann::json`) -/

/-- In-memory `nlohmann::json` value.  `num_int` covers both `number_integer` and
`number_unsigned` (the source never tells them apart: it always tests
`is_number_integer() || is_number_unsigned()`), so its payload ranges over
`-2^63 .. 2^64-1`.  `num_float` carries the bit pattern of the double, which the
source never inspects.  An object is its list of members; member access takes the
first entry with the key (a parsed object has each key once). -/
inductive Json where
  | null
  | bool (b : Bool)
  | num_int (n : Int)
  | num_float (bits : Nat)
  | str (s : String)
  | arr (xs : List Json)
  | obj (kvs : List (String × Json))

namespace Json

/-- Model of `j.is_null()`. -/
def is_null : Json → Bool
  | null => true
  | _ => false

/-- Model of `j.is_array()`. -/
def is_array : Json → Bool
  | arr _ => true
  | _ => false

/-- Model of `j.is_object()`. -/
def is_object : Json → Bool
  | obj _ => true
  | _ => false

/-- Model of `j.is_number_integer() || j.is_number_unsigned()`. -/
def is_int : Json → Bool
  | num_int _ => true
  | _ => false

/-- Member lookup in a list of object members: the value of the first member
named `key`. -/
def lookup (key : String) : List (String × Json) → Option Json
  | [] => none
  | (k, v) :: rest => if k = key then some v else lookup key rest

/-- The member `key` of `j` when `j` is an object that has it.  `j.contains(key)`
is `(j.get? key).isSome`, and `j[key]` on a `const json&` is read only after
`contains` answered true. -/
def get? : Json → String → Option Json
  | obj kvs, key => lookup key kvs
  | _, _ => none

/-- Model of `j.contains(key)`: false for every value that is not an object. -/
def contains (j : Json) (key : String) : Bool := (j.get? key).isSome

/-- The elements a range-`for` over an array visits. -/
def items : Json → List Json
  | arr xs => xs
  | _ => []

end Json

/-! ## Integer conversions -/

/-- Two's-complement wrap of an integer to `w` bits. -/
def wrap (w : Nat) (n : Int) : Int := (n + 2 ^ (w - 1)) % 2 ^ w - 2 ^ (w - 1)

/-- Model of `get<long long>()` on an integer JSON number (an unsigned value above
`LLONG_MAX` wraps). -/
def to_ll (n : Int) : Int := wrap 64 n

/-- Model of `get<int>()` on an integer JSON number. -/
def to_int (n : Int) : Int := wrap 32 n

/-- The decimal digit character of `d < 10`. -/
def digit_char (d : Nat) : Char := Char.ofNat (48 + d)

/-- Decimal digits of `n`, most significant first; `fuel` bounds the recursion
and `n + 1` is always enough. -/
def dec_digits : Nat → Nat → List Char
  | 0, _ => []
  | fuel + 1, n =>
    if n < 10 then [digit_char n] else dec_digits fuel (n / 10) ++ [digit_char (n % 10)]

/-- Model of `std::to_string(unsigned)` on a natural number. -/
def nat_to_chars (n : Nat) : List Char := dec_digits (n + 1) n

/-- Model of `std::to_string` on a `long long` / `int`: decimal, `-` for negatives. -/
def to_string (n : Int) : String :=
  match n with
  | Int.ofNat m => ⟨nat_to_chars m⟩
  | Int.negSucc m => ⟨'-' :: nat_to_chars (m + 1)⟩

/-- Model of `isspace` in the "C" locale. -/
def isspace (c : Char) : Bool :=
  c = ' ' || c = '\t' || c = '\n' || c = '\x0b' || c = '\x0c' || c = '\r'

/-- Model of `isdigit`. -/
def isdigit (c : Char) : Bool := decide ('0' ≤ c) && decide (c ≤ '9')

/-- Value of a run of decimal digits. -/
def digits_value (ds : List Char) : Nat :=
  ds.foldl (fun a c => 10 * a + (c.toNat - 48)) 0

/-- Model of `std::stoll(s)`: skip white space, read an optional sign and the
longest run of decimal digits; `none` stands for the exceptions
`std::invalid_argument` (no digit) and `std::out_of_range`. -/
def stoll (s : String) : Option Int :=
  let cs := s.data.dropWhile isspace
  let signed : Bool × List Char :=
    match cs with
    | '-' :: r => (true, r)
    | '+' :: r => (false, r)
    | r => (false, r)
  let digs := signed.2.takeWhile isdigit
  if digs = [] then none
  else
    let v : Int := digits_value digs
    let n : Int := if signed.1 then -v else v
    if -(2 : Int) ^ 63 ≤ n ∧ n < (2 : Int) ^ 63 then some n else none

/-! ## Library functions kept abstract -/

/-- Functions whose results the extraction copies into rows but whose bodies lie
in the C++ runtime: `dump` is `nlohmann::json::dump()` (compact serialisation),
`to_iso` is the timestamp reformatter of the source, built on
`std::istringstream`, `std::get_time` and `std::put_time`. -/
structure Lib where
  dump : Json → String
  to_iso : String → String

/-! ## Helpers to read JSON safely -/

/-- Model of `sget`: the string under `key`, the empty string when the key is absent or null,
the serialisation of any other value. -/
def sget (lib : Lib) (j : Json) (key : String) : String :=
  match j.get? key with
  | none => ""
  | some .null => ""
  | some (.str s) => s
  | some v => lib.dump v

/-- Model of `iget_ll`: `0` when the key is absent or null; an integer is read with
`get<long long>()`; otherwise `std::stoll(j[key].get<std::string>())`, where both
the `get` on a non-string and a failing `stoll` throw into `catch(...)`, giving `0`. -/
def iget_ll (j : Json) (key : String) : Int :=
  match j.get? key with
  | none => 0
  | some .null => 0
  | some (.num_int n) => to_ll n
  | some (.str s) => (stoll s).getD 0
  | some _ => 0

/-- Model of `bget`. -/
def bget (j : Json) (key : String) (dflt : Bool) : Bool :=
  match j.get? key with
  | none => dflt
  | some .null => dflt
  | some (.bool b) => b
  | some _ => dflt

/-- Model of `ivec`: the integer elements of the array under `key`, read with `get<int>()`. -/
def ivec (j : Json) (key : String) : List Int :=
  match j.get? key with
  | some (.arr xs) =>
    xs.filterMap (fun e => match e with
      | .num_int n => some (to_int n)
      | _ => none)
  | _ => []

/-! ## CSV helpers -/

/-- Characters that force quoting: the set given to `find_first_of(",\"\n\r")`. -/
def csv_special (c : Char) : Bool := c = ',' || c = '"' || c = '\n' || c = '\r'

/-- The loop body of `csv_quote`: every character is copied, a quote is written twice. -/
def csv_escape : List Char → List Char
  | [] => []
  | c :: cs => if c = '"' then '"' :: c :: csv_escape cs else c :: csv_escape cs

/-- Model of `csv_quote`. -/
def csv_quote (s : String) : String :=
  if s.data.any csv_special then ⟨'"' :: (csv_escape s.data ++ ['"'])⟩ else s

/-- Reading of the inside of a quoted CSV field: a doubled quote stands for one
quote, a single quote closes the field. -/
def csv_unescape : List Char → List Char
  | [] => []
  | '"' :: '"' :: cs => '"' :: csv_unescape cs
  | '"' :: _ => []
  | c :: cs => c :: csv_unescape cs

/-- CSV field decoder used to state the round trip of `csv_quote` (it is not part
of the source, which only writes CSV): a field that starts with a quote is
stripped of its enclosing quotes and its doubled quotes are undoubled, any other
field is taken literally. -/
def csv_decode (f : String) : String :=
  match f.data with
  | '"' :: cs => ⟨csv_unescape cs⟩
  | _ => f

/-! ## Merging `entities` with `extended_entities` -/

/-- Exceptions of the JSON library that `merge_entities` can raise. -/
inductive JsonError where
  | type_error_305
  | invalid_iterator_207
deriving DecidableEq, Repr

/-- Replace the value of the first member named `key`, or add the member when
there is none (`std::map::operator[]` followed by assignment). -/
def assoc_set (key : String) (v : Json) : List (String × Json) → List (String × Json)
  | [] => [(key, v)]
  | (k, w) :: rest => if k = key then (k, v) :: rest else (k, w) :: assoc_set key v rest

/-- Model of `entities[key] = v` on a non-const value: a null becomes an object, an
object gets the member, any other value throws `type_error` 305. -/
def Json.set (j : Json) (key : String) (v : Json) : Except JsonError Json :=
  match j with
  | .null => .ok (.obj [(key, v)])
  | .obj kvs => .ok (.obj (assoc_set key v kvs))
  | _ => .error .type_error_305

/-- The integer `"id"` of a list item, as the merge loop reads it:
`item.is_object() && item.contains("id") && (item["id"] is an integer)`, then
`item["id"].get<long long>()`. -/
def item_id (item : Json) : Option Int :=
  match item with
  | .obj kvs =>
    match Json.lookup "id" kvs with
    | some (.num_int n) => some (to_ll n)
    | _ => none
  | _ => none

/-- The integer `"id"` member of a list item as it stands in the JSON value, before
the conversion to `long long`; `none` when the item has no integer `"id"`. -/
def raw_id (item : Json) : Option Int :=
  match item with
  | .obj kvs =>
    match Json.lookup "id" kvs with
    | some (.num_int n) => some n
    | _ => none
  | _ => none

/-- One pass of the inner loop `for (const auto& item : *src)`: `acc.1` is
`seen_ids`, `acc.2` is `merged_list`. -/
def merge_items (acc : List Int × List Json) : List Json → List Int × List Json
  | [] => acc
  | item :: rest =>
    match item_id item with
    | some mid =>
      if mid ∈ acc.1 then merge_items acc rest
      else merge_items (acc.1 ++ [mid], acc.2 ++ [item]) rest
    | none => merge_items (acc.1, acc.2 ++ [item]) rest

/-- The list built for one array-valued key: `for (src : {&base, &ext_val})`, where
a source that is not an array is skipped. -/
def merged_list (base ext_val : Json) : List Json :=
  (merge_items (merge_items ([], []) base.items) ext_val.items).2

/-- Body of the loop over the members of `extended_entities`. -/
def merge_member (entities : Json) (key : String) (ext_val : Json) : Except JsonError Json :=
  if ext_val.is_array then
    let base : Json := (entities.get? key).getD (.arr [])
    entities.set key (.arr (merged_list base ext_val))
  else
    entities.set key ext_val

/-- The loop over the members of an object, in iteration order. -/
def merge_members (entities : Json) : List (String × Json) → Except JsonError Json
  | [] => .ok entities
  | (key, ext_val) :: rest =>
    match merge_member entities key ext_val with
    | .ok entities1 => merge_members entities1 rest
    | .error e => .error e

/-- Model of `merge_entities`.  Iterating a non-null `extended_entities` that is
not an object reaches `it.key()`, which throws `invalid_iterator` 207, unless it
is an empty array (no iteration at all). -/
def merge_entities (entities extended_entities : Json) : Except JsonError Json :=
  if extended_entities.is_null then
    .ok (if entities.is_null then .obj [] else entities)
  else
    let entities1 : Json := if entities.is_null then .obj [] else entities
    match extended_entities with
    | .obj kvs => merge_members entities1 kvs
    | .arr [] => .ok entities1
    | _ => .error .invalid_iterator_207

/-- The value one loop iteration of `merge_entities` stores under a key, given what
the key held before (`old`, `none` when absent) and the extended value. -/
def merged_value (old : Option Json) (ext_val : Json) : Json :=
  if ext_val.is_array then .arr (merged_list (old.getD (.arr [])) ext_val) else ext_val

/-- The merge rule in words, for a reading `idf` of the id of an item (`none` for an
item that has no id): walking a list from its head, an item is dropped when it has
an id that an item before it already has; every other item is kept, in order.
`earlier` holds the items walked so far. -/
def keep_first_by (idf : Json → Option Int) (earlier : List Json) : List Json → List Json
  | [] => []
  | x :: rest =>
    if (idf x).isSome ∧ idf x ∈ earlier.map idf then keep_first_by idf (earlier ++ [x]) rest
    else x :: keep_first_by idf (earlier ++ [x]) rest

/-- A list deduplicated by integer `"id"`, first occurrence kept, order preserved.
Two items have the same id when the integers standing under `"id"` in them are
equal (`raw_id`); no conversion of the source takes part in the comparison. -/
def dedup_by_id (l : List Json) : List Json := keep_first_by raw_id [] l

/-- The integer `"id"` of an item up to a multiple of `2^64`: its remainder in
`0 .. 2^64 - 1`. -/
def id_mod64 (item : Json) : Option Int := (raw_id item).map (fun n => n % 2 ^ 64)

/-- A list deduplicated by integer `"id"` taken modulo `2^64`: two items count as
the same when their ids differ by a multiple of `2^64`; first occurrence kept,
order preserved. -/
def dedup_mod64 (l : List Json) : List Json := keep_first_by id_mod64 [] l

/-! ## Global registries and per-thread tables -/

/-- A CSV row: `std::vector<std::string>`. -/
abbrev Row := List String

/-- Model of `struct ThreadTables`. -/
structure ThreadTables where
  users : List Row
  places : List Row
  tweets : List Row
  tweet_hashtags : List Row
  urls : List Row
  media : List Row
  user_mentions : List Row

/-- The global dedupe sets, the hashtag dictionary with its counter
`curr_hashtag_id` (an `int` in the source: the model does not wrap it, overflow
of a signed counter being undefined and needing `2^31` distinct hashtags), and
the ledger of mention-only users `missing_mentioned_users_set`. -/
structure Globals where
  users_set : List Int
  places_set : List String
  tweets_set : List Int
  hashtags_map : List (String × Int)
  curr_hashtag_id : Int
  tweet_hashtags_set : List (Int × Int)
  urls_set : List (Int × String)
  media_set : List (Int × Int)
  user_mentions_set : List (Int × Int)
  missing_mentioned_users_set : List Int

/-- What `parse_tweet` reads and writes: the globals and the caller's tables. -/
structure State where
  g : Globals
  tb : ThreadTables

/-- The globals at program start. -/
def Globals.init : Globals :=
  { users_set := [], places_set := [], tweets_set := [], hashtags_map := [],
    curr_hashtag_id := 1, tweet_hashtags_set := [], urls_set := [], media_set := [],
    user_mentions_set := [], missing_mentioned_users_set := [] }

/-- A fresh `ThreadTables tb;`. -/
def ThreadTables.empty : ThreadTables :=
  { users := [], places := [], tweets := [], tweet_hashtags := [], urls := [],
    media := [], user_mentions := [] }

/-- Empty registries and empty tables. -/
def State.init : State := { g := Globals.init, tb := ThreadTables.empty }

/-- Model of `set.insert(x)`: the new set and `.second` (true when `x` was added). -/
def set_insert {α : Type} [DecidableEq α] (x : α) (s : List α) : List α × Bool :=
  if x ∈ s then (s, false) else (s ++ [x], true)

/-- Model of `set.erase(x)`. -/
def set_erase {α : Type} [DecidableEq α] (x : α) (s : List α) : List α :=
  s.filter (fun y => decide (y ≠ x))

/-- Model of `hashtags_map.find(tag)`: the id stored for `tag`, if any. -/
def map_find (tag : String) : List (String × Int) → Option Int
  | [] => none
  | (k, v) :: rest => if k = tag then some v else map_find tag rest

/-- Model of `::tolower` in the "C" locale. -/
def tolower (c : Char) : Char :=
  if 'A' ≤ c ∧ c ≤ 'Z' then Char.ofNat (c.toNat + 32) else c

/-- Model of `std::transform(tag.begin(), tag.end(), tag.begin(), ::tolower)`. -/
def str_tolower (s : String) : String := ⟨s.data.map tolower⟩

/-- The check-then-insert sequence the source repeats for every registry: `find`
under the shared lock and, when the key is absent, `insert` under the unique lock;
the flag is the `.second` of that `insert` (false when the key was found). -/
def check_insert {α : Type} [DecidableEq α] (x : α) (s : List α) : List α × Bool :=
  if x ∈ s then (s, false) else set_insert x s

/-- The cell `mid ? std::to_string(mid) : ""`. -/
def id_cell (n : Int) : String := if n = 0 then "" else to_string n

/-- The cell `j.contains(key) ? (bget(j, key) ? "true" : "false") : ""`. -/
def bool_cell (j : Json) (key : String) : String :=
  if j.contains key then (if bget j key false then "true" else "false") else ""

/-- The cell `j.contains(key) ? std::to_string(iget_ll(j, key)) : ""`. -/
def count_cell (j : Json) (key : String) : String :=
  if j.contains key then to_string (iget_ll j key) else ""

/-! ## `parse_tweet`

Each block of `parse_tweet` is one function on the state; it gives the new value
of every variable the block writes.  `check_insert` returns the registry after the
block and the flag under which the block pushes its row. -/

/-- The `user` reference of `parse_tweet`: `_tweet["user"]` or an empty object. -/
def tweet_user (t : Json) : Json := (t.get? "user").getD (.obj [])

/-- The `entities` reference of `parse_tweet`: `_tweet["entities"]` or an empty object. -/
def tweet_entities (t : Json) : Json := (t.get? "entities").getD (.obj [])

/-- The row of a complete (author) user. -/
def user_row (lib : Lib) (user : Json) (user_id : Int) : Row :=
  [ to_string user_id,
    sget lib user "screen_name",
    sget lib user "name",
    sget lib user "description",
    bool_cell user "verified",
    bool_cell user "protected",
    count_cell user "followers_count",
    count_cell user "friends_count",
    count_cell user "statuses_count",
    lib.to_iso (sget lib user "created_at"),
    sget lib user "location",
    sget lib user "url" ]

/-- The minimal row of a user known from a mention only. -/
def stub_user_row (lib : Lib) (um : Json) (mid : Int) : Row :=
  [ id_cell mid, sget lib um "screen_name", sget lib um "name",
    "", "", "", "0", "0", "0", "", "", "" ]

/-- The row of a place. -/
def place_row (lib : Lib) (plc : Json) (pid : String) : Row :=
  [ pid, sget lib plc "full_name", sget lib plc "country",
    sget lib plc "country_code", sget lib plc "place_type" ]

/-- The row of a post. -/
def tweet_row (lib : Lib) (t : Json) (user_id tid : Int) : Row :=
  let dtr := ivec t "display_text_range"
  let d0 : String := match dtr with
    | x :: _ => to_string x
    | [] => ""
  let d1 : String := match dtr with
    | _ :: y :: _ => to_string y
    | _ => ""
  [ to_string tid,
    lib.to_iso (sget lib t "created_at"),
    sget lib t "full_text",
    d0, d1,
    sget lib t "lang",
    id_cell user_id,
    sget lib t "source",
    to_string (iget_ll t "in_reply_to_status_id"),
    to_string (iget_ll t "quoted_status_id"),
    (match t.get? "retweeted_status" with
      | some rt => if rt.contains "id" then to_string (iget_ll rt "id") else ""
      | none => ""),
    (match t.get? "place" with
      | some plc => sget lib plc "id"
      | none => ""),
    count_cell t "retweet_count",
    count_cell t "favorite_count",
    bool_cell t "possibly_sensitive" ]

/-- Model of `rows.push_back(row)` guarded by the `.second` of the insertion. -/
def push_if (b : Bool) (rows : List Row) (row : Row) : List Row :=
  if b then rows ++ [row] else rows

/-- The `users (sender)` block: the author leaves the ledger of mention-only users,
then is registered and gets a complete row if the id is new. -/
def parse_users (lib : Lib) (t : Json) (s : State) : State :=
  let user := tweet_user t
  let user_id := iget_ll user "id"
  let r := check_insert user_id s.g.users_set
  { g := { s.g with
      missing_mentioned_users_set := set_erase user_id s.g.missing_mentioned_users_set,
      users_set := r.1 },
    tb := { s.tb with users := push_if r.2 s.tb.users (user_row lib user user_id) } }

/-- The `place` block. -/
def parse_place (lib : Lib) (t : Json) (s : State) : State :=
  match t.get? "place" with
  | none => s
  | some .null => s
  | some plc =>
    let pid := sget lib plc "id"
    let r := check_insert pid s.g.places_set
    { g := { s.g with places_set := r.1 },
      tb := { s.tb with places := push_if r.2 s.tb.places (place_row lib plc pid) } }

/-- The `tweets` block. -/
def parse_tweets (lib : Lib) (t : Json) (user_id tid : Int) (s : State) : State :=
  let r := check_insert tid s.g.tweets_set
  { g := { s.g with tweets_set := r.1 },
    tb := { s.tb with tweets := push_if r.2 s.tb.tweets (tweet_row lib t user_id tid) } }

/-- Body of the loop over `entities["hashtags"]`: the lower-cased text is looked
up in the dictionary, a new text takes the current counter value (which is then
incremented), and the link `(tid, hid)` is registered. -/
def hashtag_step (lib : Lib) (tid : Int) (s : State) (h : Json) : State :=
  let tag := str_tolower (sget lib h "text")
  let found := map_find tag s.g.hashtags_map
  let hid : Int := found.getD s.g.curr_hashtag_id
  let r := check_insert (tid, hid) s.g.tweet_hashtags_set
  { g := { s.g with
      curr_hashtag_id := if found.isNone then s.g.curr_hashtag_id + 1 else s.g.curr_hashtag_id,
      hashtags_map :=
        if found.isNone then s.g.hashtags_map ++ [(tag, s.g.curr_hashtag_id)]
        else s.g.hashtags_map,
      tweet_hashtags_set := r.1 },
    tb := { s.tb with
      tweet_hashtags := push_if r.2 s.tb.tweet_hashtags [to_string tid, to_string hid] } }

/-- Body of the loop over `entities["urls"]`. -/
def url_step (lib : Lib) (tid : Int) (s : State) (u : Json) : State :=
  let url := sget lib u "url"
  let r := check_insert (tid, url) s.g.urls_set
  { g := { s.g with urls_set := r.1 },
    tb := { s.tb with
      urls := push_if r.2 s.tb.urls
        [to_string tid, sget lib u "url", sget lib u "expanded_url",
         sget lib u "display_url", sget lib u "unwound_url"] } }

/-- Body of the loop over `entities["media"]`. -/
def media_step (lib : Lib) (tid : Int) (s : State) (m : Json) : State :=
  let mid := iget_ll m "id"
  let r := check_insert (tid, mid) s.g.media_set
  { g := { s.g with media_set := r.1 },
    tb := { s.tb with
      media := push_if r.2 s.tb.media
        [to_string tid, id_cell mid, sget lib m "type", sget lib m "media_url",
         sget lib m "media_url_https", sget lib m "display_url",
         sget lib m "expanded_url"] } }

/-- Body of the loop over `entities["user_mentions"]`: the mention is registered
under `(mid, tid)`; then, when `mid` is not a registered user (`need_stub`), it is
registered with a stub row and entered in the ledger of mention-only users. -/
def mention_step (lib : Lib) (tid : Int) (s : State) (um : Json) : State :=
  let mid := iget_ll um "id"
  let r := check_insert (mid, tid) s.g.user_mentions_set
  let need_stub : Bool := decide (mid ∉ s.g.users_set)
  let u := check_insert mid s.g.users_set
  { g := { s.g with
      user_mentions_set := r.1,
      users_set := u.1,
      missing_mentioned_users_set :=
        if need_stub then (set_insert mid s.g.missing_mentioned_users_set).1
        else s.g.missing_mentioned_users_set },
    tb := { s.tb with
      user_mentions := push_if r.2 s.tb.user_mentions
        [to_string tid, id_cell mid, sget lib um "screen_name", sget lib um "name"],
      users := push_if u.2 s.tb.users (stub_user_row lib um mid) } }

/-- The loop `for (const auto& x : entities[key])`, entered when the key is there
and holds an array. -/
def for_entities (entities : Json) (key : String) (step : State → Json → State)
    (s : State) : State :=
  match entities.get? key with
  | some (.arr xs) => xs.foldl step s
  | _ => s

/-- Everything `parse_tweet` does for one record before it descends into the
nested records. -/
def parse_body (lib : Lib) (t : Json) (s : State) : State :=
  let user_id := iget_ll (tweet_user t) "id"
  let s1 := parse_users lib t s
  let s2 := parse_place lib t s1
  let tid := iget_ll t "id"
  let s3 := parse_tweets lib t user_id tid s2
  let entities := tweet_entities t
  let s4 := for_entities entities "hashtags" (hashtag_step lib tid) s3
  let s5 := for_entities entities "urls" (url_step lib tid) s4
  let s6 := for_entities entities "media" (media_step lib tid) s5
  for_entities entities "user_mentions" (mention_step lib tid) s6

mutual
/-- Model of `parse_tweet`: the record itself, then `quoted_status`, then
`retweeted_status`, each nested record only when it is an object. -/
def parse_tweet (lib : Lib) : Json → State → State
  | .obj kvs, s =>
    let s1 := parse_body lib (.obj kvs) s
    let s2 := parse_nested lib "quoted_status" kvs s1
    parse_nested lib "retweeted_status" kvs s2
  | t, s => parse_body lib t s
/-- The call `if (_tweet.contains(key) && _tweet[key].is_object()) parse_tweet(_tweet[key], tb)`:
walks the members up to the first one named `key`. -/
def parse_nested (lib : Lib) (key : String) : List (String × Json) → State → State
  | [], s => s
  | (k, v) :: rest, s =>
    if k = key then
      match v with
      | .obj kvs => parse_tweet lib (.obj kvs) s
      | _ => s
    else parse_nested lib key rest s
end

/-- Records handed to `parse_tweet` one after another (the lines of the files, in
the order in which they are processed). -/
def process_records (lib : Lib) (recs : List Json) (s : State) : State :=
  recs.foldl (fun acc t => parse_tweet lib t acc) s

mutual
/-- The records `parse_tweet` is run on when called on a value: the value itself,
then those of its quoted record, then those of its reposted record. -/
def visited : Json → List Json
  | .obj kvs =>
    .obj kvs :: (visited_nested "quoted_status" kvs ++ visited_nested "retweeted_status" kvs)
  | t => [t]
/-- The records visited through the member `key`, if it is an object. -/
def visited_nested (key : String) : List (String × Json) → List Json
  | [] => []
  | (k, v) :: rest =>
    if k = key then
      match v with
      | .obj kvs => visited (.obj kvs)
      | _ => []
    else visited_nested key rest
end

/-! ## Notions used to state the properties -/

/-- Author id of a record: `iget_ll(user, "id")`. -/
def author_id (t : Json) : Int := iget_ll (tweet_user t) "id"

/-- Post id of a record: `iget_ll(_tweet, "id")`. -/
def post_id (t : Json) : Int := iget_ll t "id"

/-- Cell `i` of a row (empty when the row is shorter). -/
def col (i : Nat) (r : Row) : String := r.getD i ""

/-- The records `parse_tweet` is run on while a list of records is processed. -/
def visited_all : List Json → List Json
  | [] => []
  | t :: rest => visited t ++ visited_all rest

/-- The key cells of a two-column key: cells 0 and 1 of a row. -/
def pair_key (r : Row) : String × String := (col 0 r, col 1 r)

/-- How a key `(tid, hid)` of `tweet_hashtags_set` is written in its row. -/
def hashtag_link_cells (k : Int × Int) : String × String := (to_string k.1, to_string k.2)

/-- How a key `(tid, url)` of `urls_set` is written in its row. -/
def url_cells (k : Int × String) : String × String := (to_string k.1, k.2)

/-- How a key `(tid, mid)` of `media_set` is written in its row. -/
def media_cells (k : Int × Int) : String × String := (to_string k.1, id_cell k.2)

/-- How a key `(mid, tid)` of `user_mentions_set` is written in its row (post id
first, then the mentioned user). -/
def mention_cells (k : Int × Int) : String × String := (to_string k.2, id_cell k.1)

/-- Rows and registry of one table agree: the key cells of the rows, in order, are
the registered keys as written by `cells`, and no key is registered twice. -/
def keys_agree {α β : Type} (key : Row → β) (cells : α → β) (rows : List Row)
    (set : List α) : Prop :=
  rows.map key = set.map cells ∧ set.Nodup

/-- The state after the records `recs` have been processed one after another,
starting from empty registries and empty tables. -/
def run (lib : Lib) (recs : List Json) : State := process_records lib recs State.init

/-- A users row is a row of user `u`: its first cell is `std::to_string(u)` (a
complete row) or `u ? std::to_string(u) : ""` (a stub row). -/
def carries_user (u : Int) (r : Row) : Prop := col 0 r = to_string u ∨ col 0 r = id_cell u

instance (u : Int) (r : Row) : Decidable (carries_user u r) := by
  unfold carries_user; exact inferInstance

/-- The users rows of user `u` among `rows`. -/
def rows_of_user (u : Int) (rows : List Row) : List Row :=
  rows.filter (fun r => decide (carries_user u r))

/-- The posts rows of post `p` among `rows`: first cell `std::to_string(p)`. -/
def rows_of_post (p : Int) (rows : List Row) : List Row :=
  rows.filter (fun r => decide (col 0 r = to_string p))

/-- The elements of `entities[key]` when it is there and is an array (what the
loops of `parse_tweet` iterate over), the empty list otherwise. -/
def entity_items (entities : Json) (key : String) : List Json :=
  match entities.get? key with
  | some (.arr xs) => xs
  | _ => []

/-- The hashtag texts of one record as `parse_tweet` reads them, before
lower-casing: `sget(h, "text")` for each element of `entities["hashtags"]`. -/
def hashtag_texts (lib : Lib) (t : Json) : List String :=
  (entity_items (tweet_entities t) "hashtags").map (fun h => sget lib h "text")

/-- The ids `1, 2, ..., n`. -/
def ids_upto (n : Nat) : List Int := (List.range n).map (fun (i : Nat) => (i : Int) + 1)

/-- The occurrence of hashtag text `x` (as read) in post `p` is linked in state
`s`: the dictionary has an id for the lower-cased text and the link from `p` to
that id is registered. -/
def linked (p : Int) (x : String) (s : State) : Prop :=
  ∃ hid, map_find (str_tolower x) s.g.hashtags_map = some hid ∧
    (p, hid) ∈ s.g.tweet_hashtags_set

/-- The value reached from `j` by following a path of member names (`none` when a
member on the way is missing or its holder is not an object). -/
def Json.at? (j : Json) : List String → Option Json
  | [] => some j
  | k :: rest =>
    match j.get? k with
    | some v => v.at? rest
    | none => none

/-- A source value that is missing or JSON null. -/
def absent_or_null (v : Option Json) : Prop := v = none ∨ v = some .null

/-- The member of the `user` object each cell of a users row is read from, cell by
cell. -/
def user_row_keys : List String :=
  [ "id", "screen_name", "name", "description", "verified", "protected",
    "followers_count", "friends_count", "statuses_count", "created_at", "location", "url" ]

/-- The place in the record each cell of a posts row is read from, cell by cell, as
a path of member names. -/
def tweet_row_paths : List (List String) :=
  [ ["id"], ["created_at"], ["full_text"], ["display_text_range"], ["display_text_range"],
    ["lang"], ["user", "id"], ["source"], ["in_reply_to_status_id"], ["quoted_status_id"],
    ["retweeted_status", "id"], ["place", "id"], ["retweet_count"], ["favorite_count"],
    ["possibly_sensitive"] ]

/-! ## Files, batches and `process_file` -/

/-- The files of the output directory: path to content, `none` for a path that does
not exist. -/
abbrev Store := String → Option String

/-- The store with `path` holding `content`. -/
def Store.write (st : Store) (path content : String) : Store :=
  fun p => if p = path then some content else st p

/-- The store after `fs::remove(path)`. -/
def Store.remove (st : Store) (path : String) : Store :=
  fun p => if p = path then none else st p

/-- A store without any file. -/
def Store.empty : Store := fun _ => none

/-- The inner loop of `csv_write_rows` from cell `i` of a row on: a comma before
every cell but the first, then the quoted cell. -/
def csv_cells (i : Nat) : List String → String
  | [] => ""
  | x :: rest => (if i = 0 then "" else ",") ++ csv_quote x ++ csv_cells (i + 1) rest

/-- One row as `csv_write_rows` writes it, with its newline. -/
def csv_line (r : Row) : String := csv_cells 0 r ++ "\n"

/-- The text `csv_write_rows` writes for a list of rows. -/
def csv_text : List Row → String
  | [] => ""
  | r :: rest => csv_line r ++ csv_text rest

/-- Model of `csv_write_rows`: nothing happens for an empty list of rows; otherwise
the file is opened in append mode (created when missing) and the rows are written
after what it holds. -/
def csv_write_rows (path : String) (rows : List Row) (st : Store) : Store :=
  if rows = [] then st else st.write path ((st path).getD "" ++ csv_text rows)

/-- The path of the partial output of one input file for one table:
`"output/" + base_file_name + "_" + name + ".csv"`. -/
def partial_path (base table : String) : String := "output/" ++ base ++ "_" ++ table ++ ".csv"

/-- The vector `tables` of `flush_batch`: each table name with its buffer. -/
def table_rows (tb : ThreadTables) : List (String × List Row) :=
  [ ("users", tb.users), ("places", tb.places), ("tweets", tb.tweets),
    ("tweet_hashtag", tb.tweet_hashtags), ("urls", tb.urls), ("media", tb.media),
    ("user_mentions", tb.user_mentions) ]

/-- The writes of `flush_batch` for the file with stem `base`: every buffer is
appended to its partial output, an empty buffer being skipped.  The caller then
goes on with empty tables (`tb.clear_all()`). -/
def flush_batch (base : String) (tb : ThreadTables) (st : Store) : Store :=
  (table_rows tb).foldl (fun acc nr => csv_write_rows (partial_path base nr.1) nr.2 acc) st

/-- The test `line.find_first_not_of(" \t\r\n") == npos`: such a line is skipped. -/
def is_blank (line : String) : Bool :=
  line.data.all (fun c => c = ' ' || c = '\t' || c = '\r' || c = '\n')

/-- The test `max_line_opt && *max_line_opt > 0 && line_count > *max_line_opt`. -/
def over_limit (max_line_opt : Option Int) (line_count : Int) : Bool :=
  match max_line_opt with
  | some m => decide (0 < m) && decide (m < line_count)
  | none => false

/-- The entity merge of `process_file`, run on the parsed line before `parse_tweet`:
when the record has `extended_entities`, its `entities` become
`merge_entities(tweet_json.value("entities", json::object()), tweet_json["extended_entities"])`.
An exception of `merge_entities` leaves through this step. -/
def merge_line (tweet_json : Json) : Except JsonError Json :=
  if tweet_json.contains "extended_entities" then
    match merge_entities ((tweet_json.get? "entities").getD (.obj []))
        ((tweet_json.get? "extended_entities").getD .null) with
    | .ok merged => tweet_json.set "entities" merged
    | .error e => .error e
  else .ok tweet_json

/-- The `while (std::getline(in, line))` loop of `process_file` with what follows it,
on the lines still to read.  `parse` is `json::parse` (`none` when it throws),
`batch_size` is `BATCH_SIZE` (the C++ `%` truncates; a zero `BATCH_SIZE` is
undefined in the source), `line_count` counts the non-blank lines read so far,
`s.tb` holds the rows buffered since the last flush.  The result is the globals and
the store when `process_file` returns.

* a blank line is skipped;
* past the line limit, or when `parse` fails, the loop is left by `break` and the
  remainder is flushed;
* an exception of the entity merge is caught by the outer `catch`, which returns
  at once: nothing is flushed;
* `parse_tweet` raises nothing in this model, so the `catch` around it is never
  entered;
* at the end of the lines the remainder is flushed. -/
def process_lines (lib : Lib) (parse : String → Option Json) (batch_size : Int)
    (max_line_opt : Option Int) (base : String) :
    List String → Int → State → Store → Globals × Store
  | [], _, s, st => (s.g, flush_batch base s.tb st)
  | line :: rest, line_count, s, st =>
    if is_blank line then
      process_lines lib parse batch_size max_line_opt base rest line_count s st
    else if over_limit max_line_opt (line_count + 1) then (s.g, flush_batch base s.tb st)
    else
      match parse line with
      | none => (s.g, flush_batch base s.tb st)
      | some tweet_json =>
        match merge_line tweet_json with
        | .error _ => (s.g, st)
        | .ok merged =>
          if Int.tmod (line_count + 1) batch_size = 0 then
            process_lines lib parse batch_size max_line_opt base rest (line_count + 1)
              { g := (parse_tweet lib merged s).g, tb := ThreadTables.empty }
              (flush_batch base (parse_tweet lib merged s).tb st)
          else
            process_lines lib parse batch_size max_line_opt base rest (line_count + 1)
              (parse_tweet lib merged s) st

/-- Model of `process_file` for the input file with stem `base`: `content` is `none`
when the file cannot be opened (nothing happens), otherwise its lines. -/
def process_file (lib : Lib) (parse : String → Option Json) (batch_size : Int)
    (max_line_opt : Option Int) (base : String) (content : Option (List String))
    (g : Globals) (st : Store) : Globals × Store :=
  match content with
  | none => (g, st)
  | some lines =>
    process_lines lib parse batch_size max_line_opt base lines 0
      { g := g, tb := ThreadTables.empty } st

/-- The rows accepted while the lines of a file are read, without any flush: the
same loop as `process_lines` with the tables never cleared.  The flag is true
when the loop is left by its end or by `break`, false when the entity merge
raised. -/
def accept_lines (lib : Lib) (parse : String → Option Json) (max_line_opt : Option Int) :
    List String → Int → State → State × Bool
  | [], _, s => (s, true)
  | line :: rest, line_count, s =>
    if is_blank line then accept_lines lib parse max_line_opt rest line_count s
    else if over_limit max_line_opt (line_count + 1) then (s, true)
    else
      match parse line with
      | none => (s, true)
      | some tweet_json =>
        match merge_line tweet_json with
        | .error _ => (s, false)
        | .ok merged =>
          accept_lines lib parse max_line_opt rest (line_count + 1) (parse_tweet lib merged s)

/-- Tables joined buffer by buffer. -/
def tb_append (a b : ThreadTables) : ThreadTables :=
  { users := a.users ++ b.users, places := a.places ++ b.places, tweets := a.tweets ++ b.tweets,
    tweet_hashtags := a.tweet_hashtags ++ b.tweet_hashtags, urls := a.urls ++ b.urls,
    media := a.media ++ b.media, user_mentions := a.user_mentions ++ b.user_mentions }

/-- The state `s` with the rows `pre` in front of its buffers. -/
def shift (pre : ThreadTables) (s : State) : State := { g := s.g, tb := tb_append pre s.tb }

/-- A `json::parse` given by the lines it accepts and their values; every other
line is rejected. -/
def parse_table (known : List (String × Json)) (line : String) : Option Json :=
  Json.lookup line known

/-- Some lines of JSON text with the values `json::parse` gives for them; used for
concrete evaluations (any other line used there, such as `oops`, is not JSON). -/
def sample_lines : List (String × Json) :=
  [ ("\x7b\"id\":1,\"user\":\x7b\"id\":5\x7d\x7d",
      .obj [("id", .num_int 1), ("user", .obj [("id", .num_int 5)])]),
    ("\x7b\"id\":2,\"extended_entities\":[1]\x7d",
      .obj [("extended_entities", .arr [.num_int 1]), ("id", .num_int 2)]),
    ("\x7b\"id\":2,\"extended_entities\":\x7b\"media\":[\x7b\"id\":7\x7d]\x7d\x7d",
      .obj [("extended_entities", .obj [("media", .arr [.obj [("id", .num_int 7)]])]),
        ("id", .num_int 2)]),
    ("\x7b\"id\":1,\"quoted_status\":\x7b\"id\":2,\"extended_entities\":\x7b\"media\":[\x7b\"id\":7\x7d]\x7d\x7d\x7d",
      .obj [("id", .num_int 1),
        ("quoted_status",
          .obj [("extended_entities", .obj [("media", .arr [.obj [("id", .num_int 7)]])]),
            ("id", .num_int 2)])]),
    ("\x7b\"id\":3\x7d", .obj [("id", .num_int 3)]) ]

/-- The `json::parse` of the sample lines. -/
def sample_parse : String → Option Json := parse_table sample_lines

/-! ## The merge stage of `main` -/

/-- The seven table names, in the order in which `main` merges them. -/
def table_names : List String :=
  ["users", "places", "tweets", "tweet_hashtag", "urls", "media", "user_mentions"]

/-- The path of the final output of a table: `"output/" + table + ".csv"`. -/
def final_path (table : String) : String := "output/" ++ table ++ ".csv"

/-- The stream `out` of the merge loop: the text written so far and whether the
stream is still good. -/
structure OutStream where
  text : String
  good : Bool

/-- Model of `out << in.rdbuf()` for a partial holding `content`: the content is
appended; when no character is inserted (a failed stream, or an empty partial)
the stream gets its failbit, as `operator<<(streambuf*)` does, and takes nothing
more afterwards. -/
def append_rdbuf (out : OutStream) (content : String) : OutStream :=
  if out.good then
    if content = "" then { out with good := false } else { out with text := out.text ++ content }
  else out

/-- The loop over `jsonl_files` for one table (the files given by their stems): a
missing partial is skipped, an existing one is appended to `out` and removed. -/
def merge_files (table : String) : List String → Store × OutStream → Store × OutStream
  | [], acc => acc
  | base :: rest, acc =>
    match acc.1 (partial_path base table) with
    | none => merge_files table rest acc
    | some content =>
      merge_files table rest
        (acc.1.remove (partial_path base table), append_rdbuf acc.2 content)

/-- One round of the merge loop: the final output of `table` is created empty, the
partials of the files are appended in file order and removed, and closing `out`
leaves the text in the final output. -/
def merge_table (files : List String) (st : Store) (table : String) : Store :=
  (merge_files table files
      (st.write (final_path table) "", { text := "", good := true })).1.write (final_path table)
    (merge_files table files
      (st.write (final_path table) "", { text := "", good := true })).2.text

/-- Model of the merge stage of `main` on the files of the output directory. -/
def merge_stage (files : List String) (st : Store) : Store :=
  table_names.foldl (merge_table files) st

/-- The contents of the partials of `table` that exist in `st`, joined in file
order. -/
def concat_partials (st : Store) (table : String) : List String → String
  | [] => ""
  | base :: rest => (st (partial_path base table)).getD "" ++ concat_partials st table rest

/-- A store for concrete evaluations of the merge stage: the partials of the files
`a` and `c` for the table users, one partial of `b` for the table media, and a file
that is neither a partial nor a final output. -/
def sample_store : Store :=
  (((Store.empty.write "output/a_users.csv" "1,x\n").write "output/c_users.csv" "3,z\n").write
    "output/b_media.csv" "9,8,photo\n").write "output/notes.txt" "keep"

/-- One record of `hashtags.csv`: `kv.second << "," << csv_quote(kv.first) << "\n"`. -/
def hashtag_line (kv : String × Int) : String :=
  to_string kv.2 ++ "," ++ csv_quote kv.1 ++ "\n"

/-- The records `main` writes to `hashtags.csv`, one per dictionary entry.  The loop
`for (const auto& kv : hashtags_map)` visits the entries of a `std::unordered_map`
in an order the language leaves open; `iter` is that order, a rearrangement of
the entries. -/
def hashtags_csv (iter : List (String × Int) → List (String × Int)) (g : Globals) :
    List String :=
  (iter g.hashtags_map).map hashtag_line

/-- Referential integrity of the registries: the post id of every link key
(post-hashtag, url, media, mention) is a registered post, the hashtag id of
every post-hashtag key is an id of the hashtag dictionary, and the user id of
every mention key is a registered user. -/
def refs_closed (g : Globals) : Prop :=
  (∀ k ∈ g.tweet_hashtags_set, k.1 ∈ g.tweets_set ∧ k.2 ∈ g.hashtags_map.map Prod.snd) ∧
  (∀ k ∈ g.urls_set, k.1 ∈ g.tweets_set) ∧
  (∀ k ∈ g.media_set, k.1 ∈ g.tweets_set) ∧
  (∀ k ∈ g.user_mentions_set, k.2 ∈ g.tweets_set ∧ k.1 ∈ g.users_set)

/-- The mention items met while `recs` is processed: the elements of
`entities["user_mentions"]` of every record `parse_tweet` is run on. -/
def seen_mentions (recs : List Json) : List Json :=
  (visited_all recs).flatMap (fun t => entity_items (tweet_entities t) "user_mentions")

/-- The users rows and the stub ledger fit together, for mention items taken from
`pool`: the users rows correspond in order to the registered ids, none registered
twice, and every id of the ledger is registered and has for its only users row
the stub row of a mention item of `pool` with that id. -/
def ledger_stubs (lib : Lib) (pool : List Json) (s : State) : Prop :=
  (List.Forall₂ (fun r u => carries_user u r) s.tb.users s.g.users_set ∧ s.g.users_set.Nodup) ∧
  ∀ x ∈ s.g.missing_mentioned_users_set,
    x ∈ s.g.users_set ∧
    ∃ um ∈ pool, iget_ll um "id" = x ∧ rows_of_user x s.tb.users = [stub_user_row lib um x]

/-- Everything `parse_tweet` registers for the record `t` itself (not its nested
records) is already registered in `s`: its author is a registered user outside
the stub ledger, its place and its post id are registered, every hashtag text has
a dictionary id linked to the post, every url, media and mention key is
registered, and every mentioned user is registered. -/
def absorbed (lib : Lib) (t : Json) (s : State) : Prop :=
  (author_id t ∈ s.g.users_set ∧ author_id t ∉ s.g.missing_mentioned_users_set) ∧
  (∀ plc, t.get? "place" = some plc → plc.is_null = false →
    sget lib plc "id" ∈ s.g.places_set) ∧
  post_id t ∈ s.g.tweets_set ∧
  (∀ x ∈ hashtag_texts lib t, linked (post_id t) x s) ∧
  (∀ u ∈ entity_items (tweet_entities t) "urls", (post_id t, sget lib u "url") ∈ s.g.urls_set) ∧
  (∀ m ∈ entity_items (tweet_entities t) "media", (post_id t, iget_ll m "id") ∈ s.g.media_set) ∧
  (∀ um ∈ entity_items (tweet_entities t) "user_mentions",
    (iget_ll um "id", post_id t) ∈ s.g.user_mentions_set ∧ iget_ll um "id" ∈ s.g.users_set)

/-! ## `parse_tweet` with the exceptions of the libraries made explicit

The definitions above give the values `parse_tweet` computes.  The ones below
follow the same source statement by statement with every library call that can
throw returning in `Except`: `j[key]` on a `const json&`, the conversions
`get<T>()`, and `std::stoll`.  `dump()` throws only on a string that is not
valid UTF-8, which no value made by `json::parse` holds (strings are `String`
here), and `to_iso` works on streams that do not throw; both stay total. -/

/-- What a library call can throw inside `parse_tweet`. -/
inductive Thrown where
  /-- Conversion `get<T>()` on a value of another type (`type_error` 302). -/
  | type_error_302
  /-- Access `j[key]` on a value that is not an object (`type_error` 305). -/
  | type_error_305
  /-- Access `j[key]` on a `const` object that lacks the key (an assertion of the
  library, undefined without it). -/
  | missing_key
  /-- Exceptions `std::invalid_argument` and `std::out_of_range` of `std::stoll`. -/
  | stoll_failed
deriving DecidableEq, Repr

/-- Model of `j.is_string()`. -/
def Json.is_string : Json → Bool
  | .str _ => true
  | _ => false

/-- Model of `j.is_boolean()`. -/
def Json.is_boolean : Json → Bool
  | .bool _ => true
  | _ => false

/-- Model of `j[key]` on a `const json&`. -/
def Json.index (j : Json) (key : String) : Except Thrown Json :=
  match j with
  | .obj kvs =>
    match Json.lookup key kvs with
    | some v => .ok v
    | none => .error .missing_key
  | _ => .error .type_error_305

/-- Model of `get<std::string>()`. -/
def Json.get_string : Json → Except Thrown String
  | .str s => .ok s
  | _ => .error .type_error_302

/-- Model of `get<bool>()`. -/
def Json.get_bool : Json → Except Thrown Bool
  | .bool b => .ok b
  | _ => .error .type_error_302

/-- Model of `get<long long>()`.  The source calls it on integers only; on a float
or a boolean the library converts and on the other types it throws, and this
model, which does not convert, counts every non-integer as a throw. -/
def Json.get_ll : Json → Except Thrown Int
  | .num_int n => .ok (to_ll n)
  | _ => .error .type_error_302

/-- Model of `get<int>()`, with the same convention as `Json.get_ll`. -/
def Json.get_int : Json → Except Thrown Int
  | .num_int n => .ok (to_int n)
  | _ => .error .type_error_302

/-- The call `std::stoll(s)` with its exceptions. -/
def stoll_exn (s : String) : Except Thrown Int :=
  match stoll s with
  | some n => .ok n
  | none => .error .stoll_failed

/-- The statement `try { return body; } catch(...) { return dflt; }`. -/
def catch_all {α : Type} (body : Except Thrown α) (dflt : α) : Except Thrown α :=
  match body with
  | .ok a => .ok a
  | .error _ => .ok dflt

/-- The function `sget`, statement by statement. -/
def sget_exn (lib : Lib) (j : Json) (key : String) : Except Thrown String :=
  if j.contains key then do
    let v ← j.index key
    if v.is_null then pure ""
    else do
      let w ← j.index key
      if w.is_string then do
        let x ← j.index key
        x.get_string
      else do
        let y ← j.index key
        pure (lib.dump y)
  else pure ""

/-- The function `iget_ll`, statement by statement. -/
def iget_ll_exn (j : Json) (key : String) : Except Thrown Int :=
  if j.contains key then do
    let v ← j.index key
    if v.is_null then pure 0
    else do
      let w ← j.index key
      if w.is_int then do
        let x ← j.index key
        x.get_ll
      else
        catch_all (do
          let y ← j.index key
          let str ← y.get_string
          stoll_exn str) 0
  else pure 0

/-- The function `bget`, statement by statement. -/
def bget_exn (j : Json) (key : String) (dflt : Bool) : Except Thrown Bool :=
  if j.contains key then do
    let v ← j.index key
    if v.is_null then pure dflt
    else do
      let w ← j.index key
      if w.is_boolean then do
        let x ← j.index key
        x.get_bool
      else pure dflt
  else pure dflt

/-- The loop of `ivec` over the elements still to visit, `v` being the vector
built so far. -/
def ivec_loop : List Json → List Int → Except Thrown (List Int)
  | [], v => pure v
  | e :: rest, v =>
    if e.is_int then do
      let n ← e.get_int
      ivec_loop rest (v ++ [n])
    else ivec_loop rest v

/-- The function `ivec`, statement by statement. -/
def ivec_exn (j : Json) (key : String) : Except Thrown (List Int) :=
  if j.contains key then do
    let a ← j.index key
    if a.is_array then do
      let b ← j.index key
      ivec_loop b.items []
    else pure []
  else pure []

/-- The cell `j.contains(key) ? (bget(j, key) ? "true" : "false") : ""`, with the
exceptions of `bget`. -/
def bool_cell_exn (j : Json) (key : String) : Except Thrown String :=
  if j.contains key then do
    let b ← bget_exn j key false
    pure (if b then "true" else "false")
  else pure ""

/-- The cell `j.contains(key) ? std::to_string(iget_ll(j, key)) : ""`, with the
exceptions of `iget_ll`. -/
def count_cell_exn (j : Json) (key : String) : Except Thrown String :=
  if j.contains key then do
    let n ← iget_ll_exn j key
    pure (to_string n)
  else pure ""

/-- The initialiser list of the complete users row, evaluated cell by cell. -/
def user_row_exn (lib : Lib) (user : Json) (user_id : Int) : Except Thrown Row := do
  let c1 ← sget_exn lib user "screen_name"
  let c2 ← sget_exn lib user "name"
  let c3 ← sget_exn lib user "description"
  let c4 ← bool_cell_exn user "verified"
  let c5 ← bool_cell_exn user "protected"
  let c6 ← count_cell_exn user "followers_count"
  let c7 ← count_cell_exn user "friends_count"
  let c8 ← count_cell_exn user "statuses_count"
  let c9 ← sget_exn lib user "created_at"
  let c10 ← sget_exn lib user "location"
  let c11 ← sget_exn lib user "url"
  pure [to_string user_id, c1, c2, c3, c4, c5, c6, c7, c8, lib.to_iso c9, c10, c11]

/-- The initialiser list of the stub users row. -/
def stub_user_row_exn (lib : Lib) (um : Json) (mid : Int) : Except Thrown Row := do
  let c1 ← sget_exn lib um "screen_name"
  let c2 ← sget_exn lib um "name"
  pure [id_cell mid, c1, c2, "", "", "", "0", "0", "0", "", "", ""]

/-- The initialiser list of the places row. -/
def place_row_exn (lib : Lib) (plc : Json) (pid : String) : Except Thrown Row := do
  let c1 ← sget_exn lib plc "full_name"
  let c2 ← sget_exn lib plc "country"
  let c3 ← sget_exn lib plc "country_code"
  let c4 ← sget_exn lib plc "place_type"
  pure [pid, c1, c2, c3, c4]

/-- The cell of a posts row read from `retweeted_status`. -/
def retweeted_cell_exn (t : Json) : Except Thrown String :=
  if t.contains "retweeted_status" then do
    let rt ← t.index "retweeted_status"
    if rt.contains "id" then do
      let rt1 ← t.index "retweeted_status"
      let n ← iget_ll_exn rt1 "id"
      pure (to_string n)
    else pure ""
  else pure ""

/-- The cell of a posts row read from `place`. -/
def place_cell_exn (lib : Lib) (t : Json) : Except Thrown String :=
  if t.contains "place" then do
    let plc ← t.index "place"
    sget_exn lib plc "id"
  else pure ""

/-- The posts row: `dtr`, `d0`, `d1`, then the initialiser list cell by cell. -/
def tweet_row_exn (lib : Lib) (t : Json) (user_id tid : Int) : Except Thrown Row := do
  let dtr ← ivec_exn t "display_text_range"
  let d0 : String := match dtr with
    | x :: _ => to_string x
    | [] => ""
  let d1 : String := match dtr with
    | _ :: y :: _ => to_string y
    | _ => ""
  let c1 ← sget_exn lib t "created_at"
  let c2 ← sget_exn lib t "full_text"
  let c5 ← sget_exn lib t "lang"
  let c7 ← sget_exn lib t "source"
  let c8 ← iget_ll_exn t "in_reply_to_status_id"
  let c9 ← iget_ll_exn t "quoted_status_id"
  let c10 ← retweeted_cell_exn t
  let c11 ← place_cell_exn lib t
  let c12 ← count_cell_exn t "retweet_count"
  let c13 ← count_cell_exn t "favorite_count"
  let c14 ← bool_cell_exn t "possibly_sensitive"
  pure [to_string tid, lib.to_iso c1, c2, d0, d1, c5, id_cell user_id, c7, to_string c8,
    to_string c9, c10, c11, c12, c13, c14]

/-- The reference `user`: `_tweet.contains("user") ? _tweet["user"] : json::object()`. -/
def tweet_user_exn (t : Json) : Except Thrown Json :=
  if t.contains "user" then t.index "user" else pure (.obj [])

/-- The reference `entities`:
`_tweet.contains("entities") ? _tweet["entities"] : json::object()`. -/
def tweet_entities_exn (t : Json) : Except Thrown Json :=
  if t.contains "entities" then t.index "entities" else pure (.obj [])

/-- The `users (sender)` block; the row is built after the id has been inserted. -/
def parse_users_exn (lib : Lib) (user : Json) (user_id : Int) (s : State) :
    Except Thrown State :=
  if (check_insert user_id s.g.users_set).2 then do
    let row ← user_row_exn lib user user_id
    pure
      { g := { s.g with
          missing_mentioned_users_set := set_erase user_id s.g.missing_mentioned_users_set,
          users_set := (check_insert user_id s.g.users_set).1 },
        tb := { s.tb with users := s.tb.users ++ [row] } }
  else
    pure
      { g := { s.g with
          missing_mentioned_users_set := set_erase user_id s.g.missing_mentioned_users_set,
          users_set := (check_insert user_id s.g.users_set).1 },
        tb := s.tb }

/-- The `place` block. -/
def parse_place_exn (lib : Lib) (t : Json) (s : State) : Except Thrown State :=
  if t.contains "place" then do
    let v ← t.index "place"
    if v.is_null then pure s
    else do
      let plc ← t.index "place"
      let pid ← sget_exn lib plc "id"
      if (check_insert pid s.g.places_set).2 then do
        let row ← place_row_exn lib plc pid
        pure
          { g := { s.g with places_set := (check_insert pid s.g.places_set).1 },
            tb := { s.tb with places := s.tb.places ++ [row] } }
      else
        pure
          { g := { s.g with places_set := (check_insert pid s.g.places_set).1 },
            tb := s.tb }
  else pure s

/-- The `tweets` block. -/
def parse_tweets_exn (lib : Lib) (t : Json) (user_id tid : Int) (s : State) :
    Except Thrown State :=
  if (check_insert tid s.g.tweets_set).2 then do
    let row ← tweet_row_exn lib t user_id tid
    pure
      { g := { s.g with tweets_set := (check_insert tid s.g.tweets_set).1 },
        tb := { s.tb with tweets := s.tb.tweets ++ [row] } }
  else
    pure
      { g := { s.g with tweets_set := (check_insert tid s.g.tweets_set).1 },
        tb := s.tb }

/-- Body of the loop over `entities["hashtags"]`, with the exceptions of `sget`. -/
def hashtag_step_exn (lib : Lib) (tid : Int) (s : State) (h : Json) : Except Thrown State := do
  let text ← sget_exn lib h "text"
  let tag := str_tolower text
  let found := map_find tag s.g.hashtags_map
  let hid : Int := found.getD s.g.curr_hashtag_id
  let r := check_insert (tid, hid) s.g.tweet_hashtags_set
  pure
    { g := { s.g with
        curr_hashtag_id :=
          if found.isNone then s.g.curr_hashtag_id + 1 else s.g.curr_hashtag_id,
        hashtags_map :=
          if found.isNone then s.g.hashtags_map ++ [(tag, s.g.curr_hashtag_id)]
          else s.g.hashtags_map,
        tweet_hashtags_set := r.1 },
      tb := { s.tb with
        tweet_hashtags := push_if r.2 s.tb.tweet_hashtags [to_string tid, to_string hid] } }

/-- Body of the loop over `entities["urls"]`; the row is built after the key has
been inserted. -/
def url_step_exn (lib : Lib) (tid : Int) (s : State) (u : Json) : Except Thrown State := do
  let url ← sget_exn lib u "url"
  if (check_insert (tid, url) s.g.urls_set).2 then do
    let c1 ← sget_exn lib u "url"
    let c2 ← sget_exn lib u "expanded_url"
    let c3 ← sget_exn lib u "display_url"
    let c4 ← sget_exn lib u "unwound_url"
    pure
      { g := { s.g with urls_set := (check_insert (tid, url) s.g.urls_set).1 },
        tb := { s.tb with urls := s.tb.urls ++ [[to_string tid, c1, c2, c3, c4]] } }
  else
    pure
      { g := { s.g with urls_set := (check_insert (tid, url) s.g.urls_set).1 },
        tb := s.tb }

/-- Body of the loop over `entities["media"]`. -/
def media_step_exn (lib : Lib) (tid : Int) (s : State) (m : Json) : Except Thrown State := do
  let mid ← iget_ll_exn m "id"
  if (check_insert (tid, mid) s.g.media_set).2 then do
    let c2 ← sget_exn lib m "type"
    let c3 ← sget_exn lib m "media_url"
    let c4 ← sget_exn lib m "media_url_https"
    let c5 ← sget_exn lib m "display_url"
    let c6 ← sget_exn lib m "expanded_url"
    pure
      { g := { s.g with media_set := (check_insert (tid, mid) s.g.media_set).1 },
        tb := { s.tb with
          media := s.tb.media ++ [[to_string tid, id_cell mid, c2, c3, c4, c5, c6]] } }
  else
    pure
      { g := { s.g with media_set := (check_insert (tid, mid) s.g.media_set).1 },
        tb := s.tb }

/-- The mention rows after the first half of the loop body over
`entities["user_mentions"]`. -/
def mention_rows_exn (lib : Lib) (tid mid : Int) (s : State) (um : Json) :
    Except Thrown (List Row) :=
  if (check_insert (mid, tid) s.g.user_mentions_set).2 then do
    let c2 ← sget_exn lib um "screen_name"
    let c3 ← sget_exn lib um "name"
    pure (s.tb.user_mentions ++ [[to_string tid, id_cell mid, c2, c3]])
  else pure s.tb.user_mentions

/-- The users rows after the second half of that loop body (`need_stub`). -/
def stub_rows_exn (lib : Lib) (mid : Int) (s : State) (um : Json) : Except Thrown (List Row) :=
  if (check_insert mid s.g.users_set).2 then do
    let row ← stub_user_row_exn lib um mid
    pure (s.tb.users ++ [row])
  else pure s.tb.users

/-- Body of the loop over `entities["user_mentions"]`. -/
def mention_step_exn (lib : Lib) (tid : Int) (s : State) (um : Json) : Except Thrown State := do
  let mid ← iget_ll_exn um "id"
  let mentions ← mention_rows_exn lib tid mid s um
  let need_stub : Bool := decide (mid ∉ s.g.users_set)
  let users ← stub_rows_exn lib mid s um
  pure
    { g := { s.g with
        user_mentions_set := (check_insert (mid, tid) s.g.user_mentions_set).1,
        users_set := (check_insert mid s.g.users_set).1,
        missing_mentioned_users_set :=
          if need_stub then (set_insert mid s.g.missing_mentioned_users_set).1
          else s.g.missing_mentioned_users_set },
      tb := { s.tb with user_mentions := mentions, users := users } }

/-- A range-`for` whose body can throw: the first exception ends the loop. -/
def loop_exn (step : State → Json → Except Thrown State) : List Json → State → Except Thrown State
  | [], s => pure s
  | x :: rest, s => do
    let s1 ← step s x
    loop_exn step rest s1

/-- The statement
`if (entities.contains(key) && entities[key].is_array()) for (x : entities[key]) ...`. -/
def for_entities_exn (entities : Json) (key : String)
    (step : State → Json → Except Thrown State) (s : State) : Except Thrown State :=
  if entities.contains key then do
    let v ← entities.index key
    if v.is_array then do
      let w ← entities.index key
      loop_exn step w.items s
    else pure s
  else pure s

/-- Everything `parse_tweet` does for one record before it descends into the
nested records, in the order of the source. -/
def parse_body_exn (lib : Lib) (t : Json) (s : State) : Except Thrown State := do
  let user ← tweet_user_exn t
  let user_id ← iget_ll_exn user "id"
  let s1 ← parse_users_exn lib user user_id s
  let s2 ← parse_place_exn lib t s1
  let tid ← iget_ll_exn t "id"
  let s3 ← parse_tweets_exn lib t user_id tid s2
  let entities ← tweet_entities_exn t
  let s4 ← for_entities_exn entities "hashtags" (hashtag_step_exn lib tid) s3
  let s5 ← for_entities_exn entities "urls" (url_step_exn lib tid) s4
  let s6 ← for_entities_exn entities "media" (media_step_exn lib tid) s5
  for_entities_exn entities "user_mentions" (mention_step_exn lib tid) s6

mutual
/-- The function `parse_tweet` with its exceptions: an exception of the record or
of a nested record leaves the call at once. -/
def parse_tweet_exn (lib : Lib) : Json → State → Except Thrown State
  | .obj kvs, s =>
    match parse_body_exn lib (.obj kvs) s with
    | .error e => .error e
    | .ok s1 =>
      match parse_nested_exn lib "quoted_status" kvs s1 with
      | .error e => .error e
      | .ok s2 => parse_nested_exn lib "retweeted_status" kvs s2
  | t, s => parse_body_exn lib t s
/-- The call on the nested record under `key`, made when the member is there and
is an object. -/
def parse_nested_exn (lib : Lib) (key : String) :
    List (String × Json) → State → Except Thrown State
  | [], s => .ok s
  | (k, v) :: rest, s =>
    if k = key then
      match v with
      | .obj kvs => parse_tweet_exn lib (.obj kvs) s
      | _ => .ok s
    else parse_nested_exn lib key rest s
end

mutual
/-- Number of JSON values a value is made of, itself included. -/
def Json.nodes : Json → Nat
  | .arr xs => 1 + Json.nodes_list xs
  | .obj kvs => 1 + Json.nodes_members kvs
  | _ => 1
/-- Number of values in the elements of an array. -/
def Json.nodes_list : List Json → Nat
  | [] => 0
  | x :: rest => Json.nodes x + Json.nodes_list rest
/-- Number of values in the members of an object. -/
def Json.nodes_members : List (String × Json) → Nat
  | [] => 0
  | (_, v) :: rest => Json.nodes v + Json.nodes_members rest
end

/-- A record for concrete evaluations: post 1 of user 3, which mentions user 9 under
the screen name `n`. -/
def sample_mention : Json :=
  .obj [("id", .num_int 1), ("user", .obj [("id", .num_int 3)]),
    ("entities", .obj [("user_mentions",
      .arr [.obj [("id", .num_int 9), ("screen_name", .str "n")]])])]

/-- A library instance for concrete evaluations. -/
def Lib.sample : Lib := { dump := fun _ => "?", to_iso := fun x => x }

end PDT

/-! # Properties -/

namespace PDT

/-! ## Decimal rendering is injective -/

theorem digit_char_toNat (d : Nat) (h : d < 10) : (digit_char d).toNat = 48 + d := by
  interval_cases d <;> rfl

theorem digit_char_inj (d e : Nat) (hd : d < 10) (he : e < 10)
    (h : digit_char d = digit_char e) : d = e := by
  have h1 := digit_char_toNat d hd
  have h2 := digit_char_toNat e he
  rw [h] at h1
  omega

theorem digit_char_ne_minus (d : Nat) (h : d < 10) : digit_char d ≠ '-' := by
  interval_cases d <;> decide

theorem dec_digits_fuel (f1 : Nat) : ∀ (f2 n : Nat), n < f1 → n < f2 →
    dec_digits f1 n = dec_digits f2 n := by
  induction f1 with
  | zero => intro f2 n h; omega
  | succ f1 ih =>
    intro f2 n h1 h2
    cases f2 with
    | zero => omega
    | succ f2 =>
      simp only [dec_digits]
      by_cases hn : n < 10
      · simp [hn]
      · simp only [hn, if_false]
        rw [ih f2 (n / 10) (by omega) (by omega)]

theorem nat_to_chars_eq (n : Nat) :
    nat_to_chars n =
      if n < 10 then [digit_char n] else nat_to_chars (n / 10) ++ [digit_char (n % 10)] := by
  have h : nat_to_chars n =
      if n < 10 then [digit_char n] else dec_digits n (n / 10) ++ [digit_char (n % 10)] := rfl
  rw [h]
  by_cases hn : n < 10
  · simp [hn]
  · simp only [hn, if_false]
    rw [dec_digits_fuel n (n / 10 + 1) (n / 10) (by omega) (by omega)]
    rfl

theorem nat_to_chars_ne_nil (n : Nat) : nat_to_chars n ≠ [] := by
  rw [nat_to_chars_eq]
  split <;> simp

theorem nat_to_chars_inj : ∀ (a b : Nat), nat_to_chars a = nat_to_chars b → a = b := by
  intro a
  induction a using Nat.strong_induction_on with
  | _ a ih =>
    intro b h
    rw [nat_to_chars_eq a, nat_to_chars_eq b] at h
    by_cases ha : a < 10 <;> by_cases hb : b < 10
    · simp only [ha, hb, if_true] at h
      exact digit_char_inj a b ha hb (by simpa using h)
    · simp only [ha, hb, if_true, if_false] at h
      have hl := congrArg List.length h
      have := nat_to_chars_ne_nil (b / 10)
      cases hx : nat_to_chars (b / 10) with
      | nil => exact absurd hx this
      | cons c cs => rw [hx] at hl; simp at hl
    · simp only [ha, hb, if_true, if_false] at h
      have hl := congrArg List.length h
      have := nat_to_chars_ne_nil (a / 10)
      cases hx : nat_to_chars (a / 10) with
      | nil => exact absurd hx this
      | cons c cs => rw [hx] at hl; simp at hl
    · simp only [ha, hb, if_false] at h
      have h' := List.append_inj' h (by simp)
      have h1 := ih (a / 10) (by omega) (b / 10) h'.1
      have h2 := digit_char_inj (a % 10) (b % 10) (by omega) (by omega) (by simpa using h'.2)
      omega

theorem nat_to_chars_head_ne_minus (n : Nat) (cs : List Char) : nat_to_chars n ≠ '-' :: cs := by
  induction n using Nat.strong_induction_on generalizing cs with
  | _ n ih =>
    rw [nat_to_chars_eq]
    by_cases hn : n < 10
    · simp only [hn, if_true]
      intro h
      injection h with h1 _
      exact digit_char_ne_minus n hn h1
    · simp only [hn, if_false]
      intro h
      cases hx : nat_to_chars (n / 10) with
      | nil => exact nat_to_chars_ne_nil _ hx
      | cons c cs' =>
        rw [hx] at h
        injection h with h1 _
        subst h1
        exact ih (n / 10) (by omega) cs' hx

theorem to_string_inj (a b : Int) (h : to_string a = to_string b) : a = b := by
  have hd := congrArg String.data h
  cases a with
  | ofNat m =>
    cases b with
    | ofNat k =>
      simp only [to_string] at hd
      rw [nat_to_chars_inj m k hd]
    | negSucc k =>
      simp only [to_string] at hd
      exact absurd hd (nat_to_chars_head_ne_minus m _)
  | negSucc m =>
    cases b with
    | ofNat k =>
      simp only [to_string] at hd
      exact absurd hd.symm (nat_to_chars_head_ne_minus k _)
    | negSucc k =>
      simp only [to_string, List.cons.injEq, true_and] at hd
      have := nat_to_chars_inj (m + 1) (k + 1) hd
      have hmk : m = k := by omega
      rw [hmk]

theorem to_string_ne_empty (a : Int) : to_string a ≠ "" := by
  cases a with
  | ofNat m =>
    intro h
    have h1 : nat_to_chars m = [] := by
      have := congrArg String.data h
      simpa [to_string] using this
    exact nat_to_chars_ne_nil m h1
  | negSucc m =>
    intro h
    have := congrArg String.data h
    simp [to_string] at this

theorem id_cell_inj (a b : Int) (h : id_cell a = id_cell b) : a = b := by
  unfold id_cell at h
  by_cases ha : a = 0 <;> by_cases hb : b = 0
  · rw [ha, hb]
  · simp only [ha, hb, if_true, if_false] at h
    exact absurd h.symm (to_string_ne_empty b)
  · simp only [ha, hb, if_true, if_false] at h
    exact absurd h (to_string_ne_empty a)
  · simp only [ha, hb, if_false] at h
    exact to_string_inj a b h

/-! ## CSV quoting -/

theorem csv_unescape_cons_ne (c : Char) (cs : List Char) (h : c ≠ '"') :
    csv_unescape (c :: cs) = c :: csv_unescape cs := by
  rw [csv_unescape]
  · intro cs' h1; exact absurd h1 h
  · intro h1; exact absurd h1 h

theorem csv_unescape_escape (l : List Char) : csv_unescape (csv_escape l ++ ['"']) = l := by
  induction l with
  | nil => simp [csv_escape, csv_unescape]
  | cons c cs ih =>
    by_cases h : c = '"'
    · subst h
      simp [csv_escape, csv_unescape, ih]
    · simp only [csv_escape, h, if_false, List.cons_append]
      rw [csv_unescape_cons_ne c _ h, ih]

theorem csv_decode_plain (s : String) (h : s.data.any csv_special = false) : csv_decode s = s := by
  unfold csv_decode
  split
  · rename_i cs hcs
    rw [hcs] at h
    simp [csv_special] at h
  · rfl

/-- C10. `csv_quote` round-trips: reading `csv_quote s` back as one CSV field (enclosing
quotes stripped, doubled quotes undoubled) gives `s` for every string `s`, and the
field `He said, "hi"` is written as the literal `"He said, ""hi"""`. -/
theorem csv_quote_roundtrip :
    (∀ s : String, csv_decode (csv_quote s) = s) ∧
    csv_quote "He said, \"hi\"" = "\"He said, \"\"hi\"\"\"" ∧
    csv_decode "\"He said, \"\"hi\"\"\"" = "He said, \"hi\"" := by
  refine ⟨?_, by decide, by decide⟩
  intro s
  unfold csv_quote
  by_cases h : s.data.any csv_special = true
  · rw [if_pos h]
    show (⟨csv_unescape (csv_escape s.data ++ ['"'])⟩ : String) = s
    rw [csv_unescape_escape]
  · rw [if_neg h]
    exact csv_decode_plain s (by simpa using h)

end PDT

namespace PDT

/-! ## `merge_entities` -/

theorem lookup_assoc_set (key k : String) (v : Json) (kvs : List (String × Json)) :
    Json.lookup k (assoc_set key v kvs) = if k = key then some v else Json.lookup k kvs := by
  induction kvs with
  | nil =>
    by_cases h : k = key
    · simp [assoc_set, Json.lookup, h]
    · have h' : ¬ key = k := fun e => h e.symm
      simp [assoc_set, Json.lookup, h, h']
  | cons p rest ih =>
    obtain ⟨k0, w⟩ := p
    by_cases h0 : k0 = key
    · by_cases h : k = key
      · simp [assoc_set, Json.lookup, h0, h]
      · have h' : ¬ key = k := fun e => h e.symm
        simp [assoc_set, Json.lookup, h0, h, h']
    · by_cases h : k = key
      · subst h
        simp only [assoc_set, h0, if_false, Json.lookup]
        rw [ih]; simp
      · simp only [assoc_set, h0, if_false, Json.lookup, ih, h]

theorem merge_member_obj (kvs : List (String × Json)) (key : String) (ext_val : Json) :
    merge_member (.obj kvs) key ext_val =
      .ok (.obj (assoc_set key (merged_value (Json.lookup key kvs) ext_val) kvs)) := by
  unfold merge_member merged_value
  by_cases h : ext_val.is_array = true
  · simp [h, Json.set, Json.get?]
  · simp [h, Json.set]

theorem lookup_none_of_not_mem (k : String) (kvs : List (String × Json))
    (h : k ∉ kvs.map Prod.fst) : Json.lookup k kvs = none := by
  induction kvs with
  | nil => rfl
  | cons p rest ih =>
    obtain ⟨k0, w⟩ := p
    simp only [List.map_cons, List.mem_cons, not_or] at h
    have h0 : ¬ k0 = k := fun e => h.1 e.symm
    simp only [Json.lookup, h0, if_false]
    exact ih h.2

theorem merge_members_obj (ekvs : List (String × Json)) :
    ∀ kvs : List (String × Json), (ekvs.map Prod.fst).Nodup →
      ∃ kvs', merge_members (.obj kvs) ekvs = .ok (.obj kvs') ∧
        ∀ k, Json.lookup k kvs' =
          match Json.lookup k ekvs with
          | none => Json.lookup k kvs
          | some v => some (merged_value (Json.lookup k kvs) v) := by
  induction ekvs with
  | nil =>
    intro kvs _
    exact ⟨kvs, rfl, fun k => rfl⟩
  | cons p rest ih =>
    intro kvs hnd
    obtain ⟨key, ext_val⟩ := p
    simp only [List.map_cons, List.nodup_cons] at hnd
    obtain ⟨kvs', h1, h2⟩ :=
      ih (assoc_set key (merged_value (Json.lookup key kvs) ext_val) kvs) hnd.2
    refine ⟨kvs', ?_, ?_⟩
    · simp only [merge_members, merge_member_obj]
      exact h1
    · intro k
      rw [h2 k, lookup_assoc_set]
      by_cases hk : k = key
      · subst hk
        have hn := lookup_none_of_not_mem k rest hnd.1
        simp [Json.lookup, hn]
      · have hk' : ¬ key = k := fun e => hk e.symm
        simp only [Json.lookup, hk, hk', if_false]

/-- What `merge_entities` returns on a base that is null or an object and an
extended object with distinct keys. -/
theorem merge_entities_obj (entities : Json) (ekvs : List (String × Json))
    (hent : entities = .null ∨ entities.is_object = true)
    (hnd : (ekvs.map Prod.fst).Nodup) :
    ∃ kvs', merge_entities entities (.obj ekvs) = .ok (.obj kvs') ∧
      ∀ k, Json.lookup k kvs' =
        match Json.lookup k ekvs with
        | none => entities.get? k
        | some v => some (merged_value (entities.get? k) v) := by
  rcases hent with h | h
  · subst h
    obtain ⟨kvs', h1, h2⟩ := merge_members_obj ekvs [] hnd
    exact ⟨kvs', by simpa [merge_entities, Json.is_null] using h1, h2⟩
  · cases entities with
    | obj kvs =>
      obtain ⟨kvs', h1, h2⟩ := merge_members_obj ekvs kvs hnd
      exact ⟨kvs', by simpa [merge_entities, Json.is_null] using h1, h2⟩
    | _ => simp [Json.is_object] at h

theorem keep_first_by_append (idf : Json → Option Int) (l1 : List Json) :
    ∀ (earlier l2 : List Json),
    keep_first_by idf earlier (l1 ++ l2) =
      keep_first_by idf earlier l1 ++ keep_first_by idf (earlier ++ l1) l2 := by
  induction l1 with
  | nil => intro earlier l2; simp [keep_first_by]
  | cons x rest ih =>
    intro earlier l2
    have e : keep_first_by idf earlier (x :: rest ++ l2) =
        if (idf x).isSome ∧ idf x ∈ earlier.map idf then
          keep_first_by idf (earlier ++ [x]) (rest ++ l2)
        else x :: keep_first_by idf (earlier ++ [x]) (rest ++ l2) := rfl
    rw [e, ih (earlier ++ [x]) l2]
    simp only [keep_first_by, List.append_assoc, List.singleton_append]
    split <;> simp

theorem merge_items_spec (l : List Json) : ∀ (seen : List Int) (merged earlier : List Json),
    (∀ i : Int, i ∈ seen ↔ some i ∈ earlier.map item_id) →
    (merge_items (seen, merged) l).2 = merged ++ keep_first_by item_id earlier l ∧
    (∀ i : Int, i ∈ (merge_items (seen, merged) l).1 ↔ some i ∈ (earlier ++ l).map item_id) := by
  induction l with
  | nil => intro seen merged earlier h; simpa [merge_items, keep_first_by] using h
  | cons x rest ih =>
    intro seen merged earlier h
    cases hx : item_id x with
    | none =>
      have hinv : ∀ i : Int, i ∈ seen ↔ some i ∈ (earlier ++ [x]).map item_id := by
        intro i; rw [h i]; simp [hx]
      have := ih seen (merged ++ [x]) (earlier ++ [x]) hinv
      simp only [merge_items, hx, keep_first_by]
      simpa using this
    | some mid =>
      by_cases hm : mid ∈ seen
      · have hinv : ∀ i : Int, i ∈ seen ↔ some i ∈ (earlier ++ [x]).map item_id := by
          intro i; rw [h i]
          simp only [List.map_append, List.map_cons, List.map_nil, List.mem_append,
            List.mem_singleton, hx, Option.some.injEq]
          constructor
          · intro a; exact Or.inl a
          · rintro (a | a)
            · exact a
            · rw [a]; exact (h mid).1 hm
        have := ih seen merged (earlier ++ [x]) hinv
        have hm' : some mid ∈ earlier.map item_id := (h mid).1 hm
        simp only [merge_items, hx, hm, if_true, keep_first_by, Option.isSome_some, hm',
          and_self]
        simpa using this
      · have hinv : ∀ i : Int, i ∈ seen ++ [mid] ↔ some i ∈ (earlier ++ [x]).map item_id := by
          intro i
          simp only [List.map_append, List.map_cons, List.map_nil, List.mem_append,
            List.mem_singleton, hx, Option.some.injEq, h i]
        have := ih (seen ++ [mid]) (merged ++ [x]) (earlier ++ [x]) hinv
        have hm' : ¬ some mid ∈ earlier.map item_id := fun a => hm ((h mid).2 a)
        simp only [merge_items, hx, hm, if_false, keep_first_by, Option.isSome_some, hm',
          and_false]
        simpa using this

/-- The list the code builds for a key is the concatenation deduplicated by the id
the code reads from an item (`item_id`, the integer converted by `get<long long>()`). -/
theorem merged_list_eq (base ext_val : Json) :
    merged_list base ext_val = keep_first_by item_id [] (base.items ++ ext_val.items) := by
  unfold merged_list
  have h1 := merge_items_spec base.items [] [] [] (by intro i; simp)
  have h2 := merge_items_spec ext_val.items (merge_items ([], []) base.items).1
    (merge_items ([], []) base.items).2 base.items (by simpa using h1.2)
  rw [h2.1, h1.1, keep_first_by_append]
  simp

theorem keep_first_by_congr (f g : Json → Option Int) : ∀ (l earlier : List Json),
    (∀ a ∈ earlier ++ l, (f a).isSome = (g a).isSome) →
    (∀ a ∈ earlier ++ l, ∀ b ∈ earlier ++ l, f a = f b ↔ g a = g b) →
    keep_first_by f earlier l = keep_first_by g earlier l := by
  intro l
  induction l with
  | nil => intro earlier _ _; rfl
  | cons x rest ih =>
    intro earlier h1 h2
    have hx : x ∈ earlier ++ x :: rest := by simp
    have hcond : ((f x).isSome ∧ f x ∈ earlier.map f) ↔
        ((g x).isSome ∧ g x ∈ earlier.map g) := by
      rw [h1 x hx]
      apply and_congr_right
      intro _
      simp only [List.mem_map]
      constructor
      · rintro ⟨y, hy, e⟩
        exact ⟨y, hy, (h2 y (by simp [hy]) x hx).mp e⟩
      · rintro ⟨y, hy, e⟩
        exact ⟨y, hy, (h2 y (by simp [hy]) x hx).mpr e⟩
    have ih' := ih (earlier ++ [x])
      (by intro a ha; exact h1 a (by simpa using ha))
      (by intro a ha b hb; exact h2 a (by simpa using ha) b (by simpa using hb))
    simp only [keep_first_by]
    by_cases hc : (f x).isSome ∧ f x ∈ earlier.map f
    · rw [if_pos hc, if_pos (hcond.mp hc), ih']
    · rw [if_neg hc, if_neg (fun h => hc (hcond.mpr h)), ih']

theorem to_ll_eq_iff (n m : Int) : to_ll n = to_ll m ↔ n % 2 ^ 64 = m % 2 ^ 64 := by
  unfold to_ll wrap
  norm_num
  omega

theorem to_ll_of_range (n : Int) (h1 : -(2 : Int) ^ 63 ≤ n) (h2 : n < (2 : Int) ^ 63) :
    to_ll n = n := by
  unfold to_ll wrap
  norm_num at h1 h2 ⊢
  omega

/-- The id the code reads from an item is the integer under `"id"` converted by
`get<long long>()`. -/
theorem item_id_eq (item : Json) : item_id item = (raw_id item).map to_ll := by
  cases item with
  | obj kvs =>
    simp only [item_id, raw_id]
    cases Json.lookup "id" kvs with
    | none => rfl
    | some v => cases v <;> rfl
  | _ => rfl

/-- The list the code builds for a key is the concatenation deduplicated by id
modulo `2^64`. -/
theorem merged_list_mod64 (base ext_val : Json) :
    merged_list base ext_val = dedup_mod64 (base.items ++ ext_val.items) := by
  rw [merged_list_eq]
  unfold dedup_mod64
  apply keep_first_by_congr
  · intro a _
    rw [item_id_eq]
    unfold id_mod64
    cases raw_id a <;> rfl
  · intro a _ b _
    rw [item_id_eq, item_id_eq]
    unfold id_mod64
    cases raw_id a <;> cases raw_id b <;>
      simp only [Option.map_none', Option.map_some', Option.some.injEq, to_ll_eq_iff,
        reduceCtorEq]

/-- When every integer id of the two lists fits a `long long`, the list the code
builds for a key is the concatenation deduplicated by integer id. -/
theorem merged_list_in_range (base ext_val : Json)
    (h : ∀ n ∈ (base.items ++ ext_val.items).filterMap raw_id,
      -(2 : Int) ^ 63 ≤ n ∧ n < (2 : Int) ^ 63) :
    merged_list base ext_val = dedup_by_id (base.items ++ ext_val.items) := by
  rw [merged_list_eq]
  unfold dedup_by_id
  have hsame : ∀ a ∈ base.items ++ ext_val.items, item_id a = raw_id a := by
    intro a ha
    rw [item_id_eq]
    cases hr : raw_id a with
    | none => rfl
    | some n =>
      have hn := h n (List.mem_filterMap.mpr ⟨a, ha, hr⟩)
      simp only [Option.map_some', to_ll_of_range n hn.1 hn.2]
  apply keep_first_by_congr
  · intro a ha
    rw [hsame a (by simpa using ha)]
  · intro a ha b hb
    rw [hsame a (by simpa using ha), hsame b (by simpa using hb)]


theorem merge_items_nodup (l : List Json) : ∀ (seen : List Int) (merged : List Json),
    seen = merged.filterMap item_id → seen.Nodup →
    (merge_items (seen, merged) l).1 = (merge_items (seen, merged) l).2.filterMap item_id ∧
    (merge_items (seen, merged) l).1.Nodup := by
  induction l with
  | nil => intro seen merged h1 h2; exact ⟨h1, h2⟩
  | cons x rest ih =>
    intro seen merged h1 h2
    cases hx : item_id x with
    | none =>
      simp only [merge_items, hx]
      exact ih seen (merged ++ [x]) (by simp [List.filterMap_append, hx, h1]) h2
    | some mid =>
      by_cases hm : mid ∈ seen
      · simp only [merge_items, hx, hm, if_true]
        exact ih seen merged h1 h2
      · simp only [merge_items, hx, hm, if_false]
        refine ih (seen ++ [mid]) (merged ++ [x]) (by simp [List.filterMap_append, hx, h1]) ?_
        rw [List.nodup_append]
        refine ⟨h2, List.nodup_singleton _, ?_⟩
        intro a ha hb
        simp only [List.mem_singleton] at hb
        exact hm (hb ▸ ha)

theorem filterMap_item_id (l : List Json) :
    l.filterMap item_id = (l.filterMap raw_id).map to_ll := by
  induction l with
  | nil => rfl
  | cons x rest ih =>
    simp only [List.filterMap_cons, item_id_eq x]
    cases raw_id x with
    | none => simpa using ih
    | some n => simpa using ih

/-- No integer id occurs twice in the list the code builds for a key. -/
theorem merged_list_nodup (base ext_val : Json) :
    ((merged_list base ext_val).filterMap item_id).Nodup := by
  unfold merged_list
  have h1 := merge_items_nodup base.items [] [] rfl List.nodup_nil
  have h2 := merge_items_nodup ext_val.items _ _ h1.1 h1.2
  rw [← h2.1]
  exact h2.2

/-- Counterexample to C7 as stated.  Base `{"media":[{"id":-1}]}` and extended
`{"media":[{"id":18446744073709551615}]}`: the two items carry different integer
ids, so the rule of the claim keeps both; `merge_entities` reads each id with
`get<long long>()`, which turns 18446744073709551615 into -1, and keeps only the
first item. -/
theorem merge_entities_wraps_ids :
    merge_entities (.obj [("media", .arr [.obj [("id", .num_int (-1))]])])
        (.obj [("media", .arr [.obj [("id", .num_int 18446744073709551615)]])]) =
      .ok (.obj [("media", .arr [.obj [("id", .num_int (-1))]])]) ∧
    dedup_by_id
        ([Json.obj [("id", .num_int (-1))]] ++
          [Json.obj [("id", .num_int 18446744073709551615)]]) =
      [.obj [("id", .num_int (-1))], .obj [("id", .num_int 18446744073709551615)]] ∧
    ([Json.obj [("id", .num_int (-1))]].length ≠
      [Json.obj [("id", .num_int (-1))],
        Json.obj [("id", .num_int 18446744073709551615)]].length) ∧
    raw_id (.obj [("id", .num_int (-1))]) ≠
      raw_id (.obj [("id", .num_int 18446744073709551615)]) ∧
    item_id (.obj [("id", .num_int (-1))]) =
      item_id (.obj [("id", .num_int 18446744073709551615)]) :=
  ⟨rfl, rfl, by decide, by decide, by decide⟩

/-- C7 (amended). For a base that is an object (or null) and an extended object (its
keys distinct, as in every JSON object held in memory), each key whose extended
value is a list ends up holding the base list followed by the extended list,
deduplicated by integer `"id"` taken modulo `2^64` (the id as a `long long`), with
the first occurrence kept and the order preserved; a base value that is absent or
not a list counts as the empty list.  When every integer id of the two lists lies
in `-2^63 .. 2^63 - 1`, this is the deduplication by integer `"id"` itself.  On
base `{"media":[{"id":1},{"id":2}]}` and extended `{"media":[{"id":2},{"id":3}]}`
the merged media list is `[{"id":1},{"id":2},{"id":3}]`. -/
theorem merge_entities_list_rule :
    (∀ (entities : Json) (ekvs : List (String × Json)) (key : String) (xs : List Json),
      (entities = .null ∨ entities.is_object = true) →
      (ekvs.map Prod.fst).Nodup →
      Json.lookup key ekvs = some (.arr xs) →
      ∃ r, merge_entities entities (.obj ekvs) = .ok r ∧
        r.get? key =
          some (.arr (dedup_mod64 (((entities.get? key).getD (.arr [])).items ++ xs))) ∧
        ((∀ n ∈ ((((entities.get? key).getD (.arr [])).items ++ xs)).filterMap raw_id,
            -(2 : Int) ^ 63 ≤ n ∧ n < (2 : Int) ^ 63) →
          r.get? key =
            some (.arr (dedup_by_id (((entities.get? key).getD (.arr [])).items ++ xs))))) ∧
    merge_entities
        (.obj [("media", .arr [.obj [("id", .num_int 1)], .obj [("id", .num_int 2)]])])
        (.obj [("media", .arr [.obj [("id", .num_int 2)], .obj [("id", .num_int 3)]])]) =
      .ok (.obj [("media", .arr [.obj [("id", .num_int 1)], .obj [("id", .num_int 2)],
        .obj [("id", .num_int 3)]])]) := by
  refine ⟨?_, rfl⟩
  intro entities ekvs key xs hent hnd hk
  obtain ⟨kvs', h1, h2⟩ := merge_entities_obj entities ekvs hent hnd
  have hval : Json.lookup key kvs' =
      some (.arr (merged_list ((entities.get? key).getD (.arr [])) (.arr xs))) := by
    rw [h2 key, hk]
    simp only [merged_value, Json.is_array, if_true]
  refine ⟨.obj kvs', h1, ?_, ?_⟩
  · show Json.lookup key kvs' = _
    rw [hval, merged_list_mod64]
    rfl
  · intro hrange
    show Json.lookup key kvs' = _
    rw [hval, merged_list_in_range _ _ hrange]
    rfl

/-- Witness for the amended C7: a base whose `"urls"` repeats id 5 and has an item
without id, merged with an extended list that brings ids 5 and 6; all ids fit a
`long long`, and the merged list is the one deduplicated by integer id. -/
theorem merge_entities_list_rule_witness :
    ((Json.obj [("urls", .arr [.obj [("id", .num_int 5)], .str "x", .obj [("id", .num_int 5)]])]
        = .null ∨
      (Json.obj [("urls", .arr [.obj [("id", .num_int 5)], .str "x", .obj [("id", .num_int 5)]])]
        ).is_object = true) ∧
    ([("urls", Json.arr [.obj [("id", .num_int 5)], .obj [("id", .num_int 6)]])].map
        Prod.fst).Nodup ∧
    Json.lookup "urls" [("urls", Json.arr [.obj [("id", .num_int 5)], .obj [("id", .num_int 6)]])]
      = some (.arr [.obj [("id", .num_int 5)], .obj [("id", .num_int 6)]])) ∧
    ∃ r, merge_entities
        (.obj [("urls", .arr [.obj [("id", .num_int 5)], .str "x", .obj [("id", .num_int 5)]])])
        (.obj [("urls", .arr [.obj [("id", .num_int 5)], .obj [("id", .num_int 6)]])]) = .ok r ∧
      r.get? "urls" = some (.arr (dedup_by_id
        ((((Json.obj [("urls", .arr [.obj [("id", .num_int 5)], .str "x",
            .obj [("id", .num_int 5)]])]).get? "urls").getD (.arr [])).items ++
          [.obj [("id", .num_int 5)], .obj [("id", .num_int 6)]]))) :=
  ⟨⟨Or.inr rfl, by decide, rfl⟩,
    (merge_entities_list_rule.1
      (.obj [("urls", .arr [.obj [("id", .num_int 5)], .str "x", .obj [("id", .num_int 5)]])])
      [("urls", Json.arr [.obj [("id", .num_int 5)], .obj [("id", .num_int 6)]])] "urls"
      [.obj [("id", .num_int 5)], .obj [("id", .num_int 6)]]
      (Or.inr rfl) (by decide) rfl).imp (fun _ h => ⟨h.1, h.2.2 (by decide)⟩)⟩

/-- Counterexample to C8 as stated, on two inputs.  With base
`{"media":[{"id":1},{"id":1}]}` and an empty extended object, `"media"` is a
list-valued key present only in the base; `merge_entities` returns the base as it
is, so the list under `"media"` still holds two items with id 1.  With an empty
base and extended `{"media":[{"id":"a"},{"id":"a"}]}` the two items have the same
`"id"` member, which is not an integer, and both are kept. -/
theorem merge_entities_base_only_key_duplicates :
    (merge_entities
        (.obj [("media", .arr [.obj [("id", .num_int 1)], .obj [("id", .num_int 1)]])])
        (.obj []) =
      .ok (.obj [("media", .arr [.obj [("id", .num_int 1)], .obj [("id", .num_int 1)]])]) ∧
    (Json.obj [("media", .arr [.obj [("id", .num_int 1)], .obj [("id", .num_int 1)]])]).get?
        "media" = some (.arr [.obj [("id", .num_int 1)], .obj [("id", .num_int 1)]]) ∧
    ¬ ([Json.obj [("id", .num_int 1)], Json.obj [("id", .num_int 1)]].filterMap
        raw_id).Nodup) ∧
    (merge_entities (.obj [])
        (.obj [("media", .arr [.obj [("id", .str "a")], .obj [("id", .str "a")]])]) =
      .ok (.obj [("media", .arr [.obj [("id", .str "a")], .obj [("id", .str "a")]])]) ∧
    (Json.obj [("id", .str "a")]).get? "id" = some (.str "a")) :=
  ⟨⟨rfl, rfl, by decide⟩, rfl, rfl⟩

/-- C8 (amended). For a base that is an object or null and an extended object (keys
distinct), in the result of `merge_entities` every key whose value in the extended
object is a list holds a list in which no integer `"id"` occurs twice (neither as
written in the items nor as read into a `long long`), and every key that does not
occur in the extended object holds what the base held under it: a list under a
key present only in the base is returned as it is. -/
theorem merge_entities_ext_lists_nodup (entities : Json) (ekvs : List (String × Json))
    (hent : entities = .null ∨ entities.is_object = true)
    (hnd : (ekvs.map Prod.fst).Nodup) :
    ∃ r, merge_entities entities (.obj ekvs) = .ok r ∧
      (∀ key xs, Json.lookup key ekvs = some (.arr xs) →
        ∃ ys, r.get? key = some (.arr ys) ∧
          (ys.filterMap raw_id).Nodup ∧ (ys.filterMap item_id).Nodup) ∧
      (∀ key, Json.lookup key ekvs = none → r.get? key = entities.get? key) := by
  obtain ⟨kvs', h1, h2⟩ := merge_entities_obj entities ekvs hent hnd
  refine ⟨.obj kvs', h1, ?_, ?_⟩
  · intro key xs hk
    refine ⟨merged_list ((entities.get? key).getD (.arr [])) (.arr xs), ?_, ?_,
      merged_list_nodup _ _⟩
    · show Json.lookup key kvs' = _
      rw [h2 key, hk]
      simp only [merged_value, Json.is_array, if_true]
    · have h := merged_list_nodup ((entities.get? key).getD (.arr [])) (.arr xs)
      rw [filterMap_item_id] at h
      exact List.Nodup.of_map _ h
  · intro key hk
    show Json.lookup key kvs' = _
    rw [h2 key, hk]

/-- Witness for the amended C8: base
`{"media":[{"id":1},{"id":1}],"urls":[{"id":4},{"id":4}]}`, extended
`{"media":[{"id":1}]}`. -/
theorem merge_entities_ext_lists_nodup_witness :
    ((Json.obj [("media", .arr [.obj [("id", .num_int 1)], .obj [("id", .num_int 1)]]),
        ("urls", .arr [.obj [("id", .num_int 4)], .obj [("id", .num_int 4)]])] = .null ∨
      (Json.obj [("media", .arr [.obj [("id", .num_int 1)], .obj [("id", .num_int 1)]]),
        ("urls", .arr [.obj [("id", .num_int 4)], .obj [("id", .num_int 4)]])]
        ).is_object = true) ∧
    ([("media", Json.arr [.obj [("id", .num_int 1)]])].map Prod.fst).Nodup) ∧
    ∃ r, merge_entities
        (.obj [("media", .arr [.obj [("id", .num_int 1)], .obj [("id", .num_int 1)]]),
          ("urls", .arr [.obj [("id", .num_int 4)], .obj [("id", .num_int 4)]])])
        (.obj [("media", .arr [.obj [("id", .num_int 1)]])]) = .ok r ∧
      (∀ key xs, Json.lookup key [("media", Json.arr [.obj [("id", .num_int 1)]])] =
          some (.arr xs) →
        ∃ ys, r.get? key = some (.arr ys) ∧
          (ys.filterMap raw_id).Nodup ∧ (ys.filterMap item_id).Nodup) ∧
      (∀ key, Json.lookup key [("media", Json.arr [.obj [("id", .num_int 1)]])] = none →
        r.get? key =
          (Json.obj [("media", .arr [.obj [("id", .num_int 1)], .obj [("id", .num_int 1)]]),
            ("urls", .arr [.obj [("id", .num_int 4)], .obj [("id", .num_int 4)]])]).get? key) :=
  ⟨⟨Or.inr rfl, by decide⟩,
    merge_entities_ext_lists_nodup _ _ (Or.inr rfl) (by decide)⟩

/-- C9. `merge_entities` with a null extended value returns the base unchanged, or an
empty object when the base is null.  With a base that is an object or null and an
extended object (keys distinct), the result maps every extended key whose value is
not a list to the extended value, and every key that does not occur in the
extended object to what the base held under it. -/
theorem merge_entities_frame :
    (∀ entities : Json,
      merge_entities entities .null = .ok (if entities.is_null then .obj [] else entities)) ∧
    (∀ (entities : Json) (ekvs : List (String × Json)),
      (entities = .null ∨ entities.is_object = true) →
      (ekvs.map Prod.fst).Nodup →
      ∃ r, merge_entities entities (.obj ekvs) = .ok r ∧
        (∀ key v, Json.lookup key ekvs = some v → v.is_array = false → r.get? key = some v) ∧
        (∀ key, Json.lookup key ekvs = none → r.get? key = entities.get? key)) := by
  refine ⟨fun entities => rfl, ?_⟩
  intro entities ekvs hent hnd
  obtain ⟨kvs', h1, h2⟩ := merge_entities_obj entities ekvs hent hnd
  refine ⟨.obj kvs', h1, ?_, ?_⟩
  · intro key v hk hv
    show Json.lookup key kvs' = _
    rw [h2 key, hk]
    simp [merged_value, hv]
  · intro key hk
    show Json.lookup key kvs' = _
    rw [h2 key, hk]

/-- Witness for C9: base `{"a":1,"b":[2]}`, extended `{"a":"x","c":null}`. -/
theorem merge_entities_frame_witness :
    ((Json.obj [("a", .num_int 1), ("b", .arr [.num_int 2])] = .null ∨
      (Json.obj [("a", .num_int 1), ("b", .arr [.num_int 2])]).is_object = true) ∧
    ([("a", Json.str "x"), ("c", Json.null)].map Prod.fst).Nodup) ∧
    ∃ r, merge_entities (.obj [("a", .num_int 1), ("b", .arr [.num_int 2])])
        (.obj [("a", .str "x"), ("c", .null)]) = .ok r ∧
      (∀ key v, Json.lookup key [("a", Json.str "x"), ("c", Json.null)] = some v →
        v.is_array = false → r.get? key = some v) ∧
      (∀ key, Json.lookup key [("a", Json.str "x"), ("c", Json.null)] = none →
        r.get? key = (Json.obj [("a", .num_int 1), ("b", .arr [.num_int 2])]).get? key) :=
  ⟨⟨Or.inr rfl, by decide⟩, merge_entities_frame.2 _ _ (Or.inr rfl) (by decide)⟩

/-! ## `parse_tweet` as a walk over the visited records -/

theorem parse_tweet_nested_eq_fold (lib : Lib) :
    (∀ (t : Json) (s : State),
      parse_tweet lib t s = (visited t).foldl (fun acc r => parse_body lib r acc) s) ∧
    (∀ (key : String) (kvs : List (String × Json)) (s : State),
      parse_nested lib key kvs s =
        (visited_nested key kvs).foldl (fun acc r => parse_body lib r acc) s) := by
  apply visited.mutual_induct
    (fun t => ∀ s, parse_tweet lib t s = (visited t).foldl (fun acc r => parse_body lib r acc) s)
    (fun key kvs => ∀ s, parse_nested lib key kvs s =
        (visited_nested key kvs).foldl (fun acc r => parse_body lib r acc) s)
  · intro kvs h1 h2 s
    simp only [parse_tweet, visited, List.foldl_cons, List.foldl_append, h1, h2]
  · intro t ht s
    cases t with
    | obj kvs => exact absurd rfl (ht kvs)
    | _ => simp [parse_tweet, visited]
  · intro key s
    simp [parse_nested, visited_nested]
  · intro k rest kvs h s
    simp only [parse_nested, visited_nested, if_true]
    exact h s
  · intro k v rest hv s
    cases v with
    | obj kvs => exact absurd rfl (hv kvs)
    | _ => simp [parse_nested, visited_nested]
  · intro key k v rest hk h s
    have e1 : parse_nested lib key ((k, v) :: rest) s = parse_nested lib key rest s := by
      cases v <;> simp only [parse_nested, hk, if_false]
    have e2 : visited_nested key ((k, v) :: rest) = visited_nested key rest := by
      cases v <;> simp only [visited_nested, hk, if_false]
    rw [e1, e2]
    exact h s

theorem parse_tweet_eq_fold (lib : Lib) (t : Json) (s : State) :
    parse_tweet lib t s = (visited t).foldl (fun acc r => parse_body lib r acc) s :=
  (parse_tweet_nested_eq_fold lib).1 t s

theorem process_records_eq_fold (lib : Lib) (recs : List Json) : ∀ s : State,
    process_records lib recs s =
      (visited_all recs).foldl (fun acc r => parse_body lib r acc) s := by
  induction recs with
  | nil => intro s; rfl
  | cons t rest ih =>
    intro s
    have e : process_records lib (t :: rest) s =
        process_records lib rest (parse_tweet lib t s) := rfl
    rw [e, ih, parse_tweet_eq_fold]
    simp only [visited_all, List.foldl_append]

/-! ## Invariants carried through the stages of `parse_tweet` -/

theorem for_entities_inv (Q : State → Prop) (entities : Json) (key : String)
    (step : State → Json → State) (h : ∀ s x, Q s → Q (step s x)) :
    ∀ s, Q s → Q (for_entities entities key step s) := by
  intro s hs
  unfold for_entities
  split
  · rename_i xs _
    clear * - h hs
    induction xs generalizing s with
    | nil => exact hs
    | cons x rest ih => exact ih (step s x) (h s x hs)
  · exact hs

theorem parse_body_stages (lib : Lib) (t : Json) (P0 P1 P2 Q : State → Prop)
    (hu : ∀ s, P0 s → P1 (parse_users lib t s))
    (hp : ∀ s, P1 s → P2 (parse_place lib t s))
    (ht : ∀ s, P2 s → Q (parse_tweets lib t (author_id t) (post_id t) s))
    (hh : ∀ s x, Q s → Q (hashtag_step lib (post_id t) s x))
    (hl : ∀ s x, Q s → Q (url_step lib (post_id t) s x))
    (hm : ∀ s x, Q s → Q (media_step lib (post_id t) s x))
    (hn : ∀ s x, Q s → Q (mention_step lib (post_id t) s x)) :
    ∀ s, P0 s → Q (parse_body lib t s) := by
  intro s hs
  unfold parse_body
  apply for_entities_inv Q _ _ _ hn
  apply for_entities_inv Q _ _ _ hm
  apply for_entities_inv Q _ _ _ hl
  apply for_entities_inv Q _ _ _ hh
  exact ht _ (hp _ (hu _ hs))

theorem fold_body_inv (lib : Lib) (P : State → Prop)
    (hbody : ∀ t s, P s → P (parse_body lib t s)) :
    ∀ (rs : List Json) (s : State), P s →
      P (rs.foldl (fun acc r => parse_body lib r acc) s) := by
  intro rs
  induction rs with
  | nil => intro s hs; exact hs
  | cons r rest ih => intro s hs; exact ih _ (hbody r s hs)

theorem process_records_inv (lib : Lib) (P : State → Prop)
    (hu : ∀ t s, P s → P (parse_users lib t s))
    (hp : ∀ t s, P s → P (parse_place lib t s))
    (ht : ∀ t u p s, P s → P (parse_tweets lib t u p s))
    (hh : ∀ p s x, P s → P (hashtag_step lib p s x))
    (hl : ∀ p s x, P s → P (url_step lib p s x))
    (hm : ∀ p s x, P s → P (media_step lib p s x))
    (hn : ∀ p s x, P s → P (mention_step lib p s x)) :
    ∀ (recs : List Json) (s : State), P s → P (process_records lib recs s) := by
  intro recs s hs
  rw [process_records_eq_fold]
  apply fold_body_inv lib P _ _ _ hs
  intro t s' hs'
  exact parse_body_stages lib t P P P P (hu t) (hp t) (ht t _ _) (hh _) (hl _) (hm _) (hn _) s' hs'

/-! ## Rows and registries agree (C1) -/

theorem check_insert_keys {α β : Type} [DecidableEq α] (key : Row → β) (cells : α → β)
    (x : α) (set : List α) (rows : List Row) (row : Row) (hrow : key row = cells x)
    (h : keys_agree key cells rows set) :
    keys_agree key cells (push_if (check_insert x set).2 rows row) (check_insert x set).1 := by
  obtain ⟨h1, h2⟩ := h
  unfold check_insert set_insert push_if keys_agree
  by_cases hx : x ∈ set
  · simp only [hx, if_true]
    exact ⟨h1, h2⟩
  · simp only [hx, if_false, if_true, List.map_append, List.map_cons, List.map_nil, h1, hrow,
      true_and]
    rw [List.nodup_append]
    refine ⟨h2, List.nodup_singleton _, ?_⟩
    intro a ha hb
    simp only [List.mem_singleton] at hb
    exact hx (hb ▸ ha)

theorem keys_agree_nodup {α β : Type} (key : Row → β) (cells : α → β)
    (hinj : Function.Injective cells) (rows : List Row) (set : List α)
    (h : keys_agree key cells rows set) : (rows.map key).Nodup := by
  rw [h.1]
  exact h.2.map hinj

theorem hashtag_link_cells_inj : Function.Injective hashtag_link_cells := by
  intro a b h
  simp only [hashtag_link_cells, Prod.mk.injEq] at h
  exact Prod.ext (to_string_inj _ _ h.1) (to_string_inj _ _ h.2)

theorem url_cells_inj : Function.Injective url_cells := by
  intro a b h
  simp only [url_cells, Prod.mk.injEq] at h
  exact Prod.ext (to_string_inj _ _ h.1) h.2

theorem media_cells_inj : Function.Injective media_cells := by
  intro a b h
  simp only [media_cells, Prod.mk.injEq] at h
  exact Prod.ext (to_string_inj _ _ h.1) (id_cell_inj _ _ h.2)

theorem mention_cells_inj : Function.Injective mention_cells := by
  intro a b h
  simp only [mention_cells, Prod.mk.injEq] at h
  exact Prod.ext (id_cell_inj _ _ h.2) (to_string_inj _ _ h.1)

theorem places_agree (lib : Lib) (recs : List Json) :
    keys_agree (col 0) id (process_records lib recs State.init).tb.places
      (process_records lib recs State.init).g.places_set := by
  apply process_records_inv lib (fun s => keys_agree (col 0) id s.tb.places s.g.places_set)
  · intro t s h; exact h
  · intro t s h
    unfold parse_place
    split
    · exact h
    · exact h
    · exact check_insert_keys (col 0) id _ _ _ _ rfl h
  · intro t u p s h; exact h
  · intro p s x h; exact h
  · intro p s x h; exact h
  · intro p s x h; exact h
  · intro p s x h; exact h
  · exact ⟨rfl, List.nodup_nil⟩

theorem tweet_hashtags_agree (lib : Lib) (recs : List Json) :
    keys_agree pair_key hashtag_link_cells
      (process_records lib recs State.init).tb.tweet_hashtags
      (process_records lib recs State.init).g.tweet_hashtags_set := by
  apply process_records_inv lib
    (fun s => keys_agree pair_key hashtag_link_cells s.tb.tweet_hashtags s.g.tweet_hashtags_set)
  · intro t s h; exact h
  · intro t s h
    unfold parse_place
    split <;> exact h
  · intro t u p s h; exact h
  · intro p s x h
    exact check_insert_keys pair_key hashtag_link_cells _ _ _ _ rfl h
  · intro p s x h; exact h
  · intro p s x h; exact h
  · intro p s x h; exact h
  · exact ⟨rfl, List.nodup_nil⟩

theorem urls_agree (lib : Lib) (recs : List Json) :
    keys_agree pair_key url_cells (process_records lib recs State.init).tb.urls
      (process_records lib recs State.init).g.urls_set := by
  apply process_records_inv lib (fun s => keys_agree pair_key url_cells s.tb.urls s.g.urls_set)
  · intro t s h; exact h
  · intro t s h
    unfold parse_place
    split <;> exact h
  · intro t u p s h; exact h
  · intro p s x h; exact h
  · intro p s x h
    exact check_insert_keys pair_key url_cells _ _ _ _ rfl h
  · intro p s x h; exact h
  · intro p s x h; exact h
  · exact ⟨rfl, List.nodup_nil⟩

theorem media_agree (lib : Lib) (recs : List Json) :
    keys_agree pair_key media_cells (process_records lib recs State.init).tb.media
      (process_records lib recs State.init).g.media_set := by
  apply process_records_inv lib (fun s => keys_agree pair_key media_cells s.tb.media s.g.media_set)
  · intro t s h; exact h
  · intro t s h
    unfold parse_place
    split <;> exact h
  · intro t u p s h; exact h
  · intro p s x h; exact h
  · intro p s x h; exact h
  · intro p s x h
    exact check_insert_keys pair_key media_cells _ _ _ _ rfl h
  · intro p s x h; exact h
  · exact ⟨rfl, List.nodup_nil⟩

theorem user_mentions_agree (lib : Lib) (recs : List Json) :
    keys_agree pair_key mention_cells (process_records lib recs State.init).tb.user_mentions
      (process_records lib recs State.init).g.user_mentions_set := by
  apply process_records_inv lib
    (fun s => keys_agree pair_key mention_cells s.tb.user_mentions s.g.user_mentions_set)
  · intro t s h; exact h
  · intro t s h
    unfold parse_place
    split <;> exact h
  · intro t u p s h; exact h
  · intro p s x h; exact h
  · intro p s x h; exact h
  · intro p s x h; exact h
  · intro p s x h
    exact check_insert_keys pair_key mention_cells _ _ _ _ rfl h
  · exact ⟨rfl, List.nodup_nil⟩

/-- C1. After any sequence of records processed from empty registries, in each of
the tables places, post-hashtag links, urls, media and mentions the key cells of
the emitted rows are, row by row, the keys held by that table's registry (places
by place id, links by (post id, hashtag id), urls by (post id, url), media by
(post id, media id), mentions by (mentioned user id, post id)), and these key
cells are pairwise distinct.  The way a key is written into its cells is
injective, so distinct keys never share cells. -/
theorem emitted_keys_match_registries (lib : Lib) (recs : List Json) :
    ((run lib recs).tb.places.map (col 0) = (run lib recs).g.places_set ∧
      ((run lib recs).tb.places.map (col 0)).Nodup) ∧
    ((run lib recs).tb.tweet_hashtags.map pair_key =
        (run lib recs).g.tweet_hashtags_set.map hashtag_link_cells ∧
      ((run lib recs).tb.tweet_hashtags.map pair_key).Nodup) ∧
    ((run lib recs).tb.urls.map pair_key = (run lib recs).g.urls_set.map url_cells ∧
      ((run lib recs).tb.urls.map pair_key).Nodup) ∧
    ((run lib recs).tb.media.map pair_key = (run lib recs).g.media_set.map media_cells ∧
      ((run lib recs).tb.media.map pair_key).Nodup) ∧
    ((run lib recs).tb.user_mentions.map pair_key =
        (run lib recs).g.user_mentions_set.map mention_cells ∧
      ((run lib recs).tb.user_mentions.map pair_key).Nodup) ∧
    (Function.Injective hashtag_link_cells ∧ Function.Injective url_cells ∧
      Function.Injective media_cells ∧ Function.Injective mention_cells) := by
  have h1 := places_agree lib recs
  have h2 := tweet_hashtags_agree lib recs
  have h3 := urls_agree lib recs
  have h4 := media_agree lib recs
  have h5 := user_mentions_agree lib recs
  refine ⟨⟨?_, ?_⟩, ⟨h2.1, ?_⟩, ⟨h3.1, ?_⟩, ⟨h4.1, ?_⟩, ⟨h5.1, ?_⟩,
    hashtag_link_cells_inj, url_cells_inj, media_cells_inj, mention_cells_inj⟩
  · simpa using h1.1
  · exact keys_agree_nodup (col 0) id (fun _ _ h => h) _ _ h1
  · exact keys_agree_nodup _ _ hashtag_link_cells_inj _ _ h2
  · exact keys_agree_nodup _ _ url_cells_inj _ _ h3
  · exact keys_agree_nodup _ _ media_cells_inj _ _ h4
  · exact keys_agree_nodup _ _ mention_cells_inj _ _ h5

/-! ## Users rows (C2) -/

theorem check_insert_mem {α : Type} [DecidableEq α] (x : α) (set : List α) :
    x ∈ (check_insert x set).1 := by
  unfold check_insert set_insert
  by_cases hx : x ∈ set <;> simp [hx]

theorem check_insert_mono {α : Type} [DecidableEq α] (x y : α) (set : List α) (h : y ∈ set) :
    y ∈ (check_insert x set).1 := by
  unfold check_insert set_insert
  by_cases hx : x ∈ set <;> simp [hx, h]

theorem check_insert_rows {α : Type} [DecidableEq α] (R : Row → α → Prop)
    (x : α) (set : List α) (rows : List Row) (row : Row) (hrow : R row x)
    (h : List.Forall₂ R rows set ∧ set.Nodup) :
    List.Forall₂ R (push_if (check_insert x set).2 rows row) (check_insert x set).1 ∧
      (check_insert x set).1.Nodup := by
  obtain ⟨h1, h2⟩ := h
  unfold check_insert set_insert push_if
  by_cases hx : x ∈ set
  · simp only [hx, if_true]
    exact ⟨h1, h2⟩
  · simp only [hx, if_false, if_true]
    refine ⟨List.rel_append h1 (List.Forall₂.cons hrow List.Forall₂.nil), ?_⟩
    rw [List.nodup_append]
    refine ⟨h2, List.nodup_singleton _, ?_⟩
    intro a ha hb
    simp only [List.mem_singleton] at hb
    exact hx (hb ▸ ha)

theorem users_agree (lib : Lib) (recs : List Json) :
    List.Forall₂ (fun r u => carries_user u r) (run lib recs).tb.users
        (run lib recs).g.users_set ∧
      (run lib recs).g.users_set.Nodup := by
  apply process_records_inv lib
    (fun s => List.Forall₂ (fun r u => carries_user u r) s.tb.users s.g.users_set ∧
      s.g.users_set.Nodup)
  · intro t s h
    exact check_insert_rows (fun r u => carries_user u r) _ _ _ _ (Or.inl rfl) h
  · intro t s h
    unfold parse_place
    split <;> exact h
  · intro t u p s h; exact h
  · intro p s x h; exact h
  · intro p s x h; exact h
  · intro p s x h; exact h
  · intro p s x h
    exact check_insert_rows (fun r u => carries_user u r) _ _ _ _ (Or.inr rfl) h
  · exact ⟨List.Forall₂.nil, List.nodup_nil⟩

theorem carries_user_unique (u v : Int) (r : Row) (hu : carries_user u r)
    (hv : carries_user v r) : u = v := by
  unfold carries_user at hu hv
  rcases hu with hu | hu <;> rcases hv with hv | hv
  · exact to_string_inj u v (hu.symm.trans hv)
  · have h := hu.symm.trans hv
    unfold id_cell at h
    by_cases h0 : v = 0
    · simp only [h0, if_true] at h
      exact absurd h (to_string_ne_empty u)
    · simp only [h0, if_false] at h
      exact to_string_inj u v h
  · have h := hv.symm.trans hu
    unfold id_cell at h
    by_cases h0 : u = 0
    · simp only [h0, if_true] at h
      exact absurd h (to_string_ne_empty v)
    · simp only [h0, if_false] at h
      exact (to_string_inj v u h).symm
  · exact id_cell_inj u v (hu.symm.trans hv)

theorem rows_of_user_length (u : Int) : ∀ (rows : List Row) (set : List Int),
    List.Forall₂ (fun r v => carries_user v r) rows set →
    (rows_of_user u rows).length = set.count u := by
  intro rows
  induction rows with
  | nil =>
    intro set h
    cases h
    rfl
  | cons r rows' ih =>
    intro set h
    cases h with
    | cons hr hrest =>
      rename_i v set'
      have ih' := ih set' hrest
      unfold rows_of_user at ih' ⊢
      by_cases hc : carries_user u r
      · have huv : u = v := carries_user_unique u v r hc hr
        subst huv
        simp [List.filter_cons, hc, ih']
      · have huv : ¬ v = u := fun e => hc (e ▸ hr)
        simp [List.filter_cons, hc, ih', List.count_cons, huv]

/-- C2. After any sequence of records processed from empty registries, every user
id has at most one users row (complete or stub): the users rows correspond one
to one, in order, to the registered user ids, none of which is registered
twice.  In particular a record whose author is already registered (for instance
through the stub row of an earlier mention) adds no users row, and a mention of
an already registered user (for instance one with a complete row) adds no stub
row. -/
theorem user_rows_at_most_one (lib : Lib) (recs : List Json) :
    (∀ u : Int, (rows_of_user u (run lib recs).tb.users).length ≤ 1) ∧
    List.Forall₂ (fun r u => carries_user u r) (run lib recs).tb.users
      (run lib recs).g.users_set ∧
    (run lib recs).g.users_set.Nodup ∧
    (∀ (s : State) (t : Json), author_id t ∈ s.g.users_set →
      (parse_users lib t s).tb.users = s.tb.users) ∧
    (∀ (s : State) (p : Int) (um : Json), iget_ll um "id" ∈ s.g.users_set →
      (mention_step lib p s um).tb.users = s.tb.users) := by
  have h := users_agree lib recs
  refine ⟨?_, h.1, h.2, ?_, ?_⟩
  · intro u
    rw [rows_of_user_length u _ _ h.1]
    exact List.nodup_iff_count_le_one.mp h.2 u
  · intro s t ht
    have e : check_insert (author_id t) s.g.users_set = (s.g.users_set, false) := by
      unfold check_insert
      rw [if_pos ht]
    show push_if (check_insert (author_id t) s.g.users_set).2 s.tb.users _ = s.tb.users
    rw [e]
    rfl
  · intro s p um hm
    have e : check_insert (iget_ll um "id") s.g.users_set = (s.g.users_set, false) := by
      unfold check_insert
      rw [if_pos hm]
    show push_if (check_insert (iget_ll um "id") s.g.users_set).2 s.tb.users _ = s.tb.users
    rw [e]
    rfl

/-! ## Facts established by a record and kept by all later ones -/

theorem fold_body_reach (lib : Lib) (Q : Json → State → Prop)
    (hest : ∀ t s, Q t (parse_body lib t s))
    (hmono : ∀ t t' s, Q t s → Q t (parse_body lib t' s)) :
    ∀ (rs : List Json) (s : State) (r : Json), r ∈ rs →
      Q r (rs.foldl (fun acc x => parse_body lib x acc) s) := by
  intro rs
  induction rs with
  | nil => intro s r hr; simp at hr
  | cons r0 rest ih =>
    intro s r hr
    rcases List.mem_cons.mp hr with h | h
    · subst h
      exact fold_body_inv lib (Q r) (fun t' s' hs' => hmono r t' s' hs') rest _ (hest r s)
    · exact ih _ r h

/-! ## The stub ledger (C3) -/

theorem set_erase_not_mem {α : Type} [DecidableEq α] (x : α) (s : List α) :
    x ∉ set_erase x s := by
  unfold set_erase
  simp

theorem set_erase_subset {α : Type} [DecidableEq α] (x y : α) (s : List α)
    (h : y ∈ set_erase x s) : y ∈ s := by
  unfold set_erase at h
  exact (List.mem_filter.mp h).1

theorem set_insert_mem_iff {α : Type} [DecidableEq α] (x y : α) (s : List α) :
    y ∈ (set_insert x s).1 ↔ y = x ∨ y ∈ s := by
  unfold set_insert
  by_cases hx : x ∈ s
  · simp only [hx, if_true]
    constructor
    · intro h; exact Or.inr h
    · rintro (h | h)
      · rw [h]; exact hx
      · exact h
  · simp only [hx, if_false, List.mem_append, List.mem_singleton]
    exact Or.comm

theorem parse_users_keeps_author (lib : Lib) (u : Int) (t : Json) (s : State)
    (h : u ∈ s.g.users_set ∧ u ∉ s.g.missing_mentioned_users_set) :
    u ∈ (parse_users lib t s).g.users_set ∧
      u ∉ (parse_users lib t s).g.missing_mentioned_users_set :=
  ⟨check_insert_mono _ _ _ h.1, fun hm => h.2 (set_erase_subset _ _ _ hm)⟩

theorem mention_step_keeps_author (lib : Lib) (u p : Int) (s : State) (x : Json)
    (h : u ∈ s.g.users_set ∧ u ∉ s.g.missing_mentioned_users_set) :
    u ∈ (mention_step lib p s x).g.users_set ∧
      u ∉ (mention_step lib p s x).g.missing_mentioned_users_set := by
  refine ⟨check_insert_mono _ _ _ h.1, ?_⟩
  show u ∉ (if decide (iget_ll x "id" ∉ s.g.users_set) = true then
      (set_insert (iget_ll x "id") s.g.missing_mentioned_users_set).1
    else s.g.missing_mentioned_users_set)
  by_cases hm : iget_ll x "id" ∈ s.g.users_set
  · simp only [hm, not_true_eq_false, decide_False, Bool.false_eq_true, if_false]
    exact h.2
  · simp only [hm, not_false_eq_true, decide_True, if_true]
    rw [set_insert_mem_iff]
    rintro (e | e)
    · exact hm (e ▸ h.1)
    · exact h.2 e

theorem parse_body_keeps_author (lib : Lib) (u : Int) (t : Json) (s : State)
    (h : u ∈ s.g.users_set ∧ u ∉ s.g.missing_mentioned_users_set) :
    u ∈ (parse_body lib t s).g.users_set ∧
      u ∉ (parse_body lib t s).g.missing_mentioned_users_set := by
  apply parse_body_stages lib t
    (fun s => u ∈ s.g.users_set ∧ u ∉ s.g.missing_mentioned_users_set)
    (fun s => u ∈ s.g.users_set ∧ u ∉ s.g.missing_mentioned_users_set)
    (fun s => u ∈ s.g.users_set ∧ u ∉ s.g.missing_mentioned_users_set)
    (fun s => u ∈ s.g.users_set ∧ u ∉ s.g.missing_mentioned_users_set) _ _ _ _ _ _ _ s h
  · intro s h; exact parse_users_keeps_author lib u t s h
  · intro s h
    unfold parse_place
    split <;> exact h
  · intro s h; exact h
  · intro s x h; exact h
  · intro s x h; exact h
  · intro s x h; exact h
  · intro s x h; exact mention_step_keeps_author lib u _ s x h

theorem parse_body_author (lib : Lib) (t : Json) (s : State) :
    author_id t ∈ (parse_body lib t s).g.users_set ∧
      author_id t ∉ (parse_body lib t s).g.missing_mentioned_users_set := by
  apply parse_body_stages lib t
    (fun _ => True)
    (fun s => author_id t ∈ s.g.users_set ∧ author_id t ∉ s.g.missing_mentioned_users_set)
    (fun s => author_id t ∈ s.g.users_set ∧ author_id t ∉ s.g.missing_mentioned_users_set)
    (fun s => author_id t ∈ s.g.users_set ∧ author_id t ∉ s.g.missing_mentioned_users_set)
    _ _ _ _ _ _ _ s trivial
  · intro s _
    exact ⟨check_insert_mem _ _, set_erase_not_mem _ _⟩
  · intro s h
    unfold parse_place
    split <;> exact h
  · intro s h; exact h
  · intro s x h; exact h
  · intro s x h; exact h
  · intro s x h; exact h
  · intro s x h; exact mention_step_keeps_author lib _ _ s x h

/-- C3. After any sequence of records processed from empty registries, the author id
of every record the sequence made `parse_tweet` run on (top-level, quoted or
reposted) is absent from the ledger of mention-only users, wherever in the
sequence that id was mentioned. -/
theorem author_not_in_stub_ledger (lib : Lib) (recs : List Json) (u : Int)
    (hu : u ∈ (visited_all recs).map author_id) :
    u ∉ (run lib recs).g.missing_mentioned_users_set := by
  obtain ⟨r, hr, rfl⟩ := List.mem_map.mp hu
  unfold run
  rw [process_records_eq_fold]
  exact (fold_body_reach lib
    (fun t s => author_id t ∈ s.g.users_set ∧ author_id t ∉ s.g.missing_mentioned_users_set)
    (parse_body_author lib)
    (fun t t' s h => parse_body_keeps_author lib (author_id t) t' s h)
    (visited_all recs) State.init r hr).2

/-- Witness for C3: user 9 is first mentioned by post 1 (which gives it a stub row
and a ledger entry), then appears as the author of the record quoted by post 2. -/
theorem author_not_in_stub_ledger_witness :
    (9 : Int) ∈ (visited_all
      [ .obj [("id", .num_int 1), ("user", .obj [("id", .num_int 3)]),
          ("entities", .obj [("user_mentions", .arr [.obj [("id", .num_int 9)]])])],
        .obj [("id", .num_int 2), ("user", .obj [("id", .num_int 3)]),
          ("quoted_status", .obj [("id", .num_int 4), ("user", .obj [("id", .num_int 9)])])]
      ]).map author_id ∧
    (9 : Int) ∉ (run Lib.sample
      [ .obj [("id", .num_int 1), ("user", .obj [("id", .num_int 3)]),
          ("entities", .obj [("user_mentions", .arr [.obj [("id", .num_int 9)]])])],
        .obj [("id", .num_int 2), ("user", .obj [("id", .num_int 3)]),
          ("quoted_status", .obj [("id", .num_int 4), ("user", .obj [("id", .num_int 9)])])]
      ]).g.missing_mentioned_users_set :=
  ⟨by decide, author_not_in_stub_ledger Lib.sample _ 9 (by decide)⟩

/-! ## Posts rows (C4) -/

theorem tweets_agree (lib : Lib) (recs : List Json) :
    keys_agree (col 0) to_string (run lib recs).tb.tweets (run lib recs).g.tweets_set := by
  apply process_records_inv lib (fun s => keys_agree (col 0) to_string s.tb.tweets s.g.tweets_set)
  · intro t s h; exact h
  · intro t s h
    unfold parse_place
    split <;> exact h
  · intro t u p s h
    exact check_insert_keys (col 0) to_string _ _ _ _ rfl h
  · intro p s x h; exact h
  · intro p s x h; exact h
  · intro p s x h; exact h
  · intro p s x h; exact h
  · exact ⟨rfl, List.nodup_nil⟩

theorem parse_body_keeps_post (lib : Lib) (p : Int) (t : Json) (s : State)
    (h : p ∈ s.g.tweets_set) : p ∈ (parse_body lib t s).g.tweets_set := by
  apply parse_body_stages lib t (fun s => p ∈ s.g.tweets_set) (fun s => p ∈ s.g.tweets_set)
    (fun s => p ∈ s.g.tweets_set) (fun s => p ∈ s.g.tweets_set) _ _ _ _ _ _ _ s h
  · intro s h; exact h
  · intro s h
    unfold parse_place
    split <;> exact h
  · intro s h; exact check_insert_mono _ _ _ h
  · intro s x h; exact h
  · intro s x h; exact h
  · intro s x h; exact h
  · intro s x h; exact h

theorem parse_body_post (lib : Lib) (t : Json) (s : State) :
    post_id t ∈ (parse_body lib t s).g.tweets_set := by
  apply parse_body_stages lib t (fun _ => True) (fun _ => True) (fun _ => True)
    (fun s => post_id t ∈ s.g.tweets_set) _ _ _ _ _ _ _ s trivial
  · intro s _; trivial
  · intro s _; trivial
  · intro s _; exact check_insert_mem _ _
  · intro s x h; exact h
  · intro s x h; exact h
  · intro s x h; exact h
  · intro s x h; exact h

theorem rows_of_post_length (p : Int) (rows : List Row) :
    (rows_of_post p rows).length = (rows.map (col 0)).count (to_string p) := by
  unfold rows_of_post
  induction rows with
  | nil => rfl
  | cons r rest ih =>
    by_cases h : col 0 r = to_string p
    · simp [List.filter_cons, h, ih]
    · simp [List.filter_cons, h, ih, List.count_cons]

/-- C4. In a run from empty registries, every post id `p` carried by a record the
run made `parse_tweet` work on (however often, top-level in any file or nested as
a quoted or reposted record at any depth) has exactly one posts row. -/
theorem post_row_exactly_once (lib : Lib) (recs : List Json) (p : Int)
    (hp : p ∈ (visited_all recs).map post_id) :
    (rows_of_post p (run lib recs).tb.tweets).length = 1 := by
  have hagree := tweets_agree lib recs
  have hmem : p ∈ (run lib recs).g.tweets_set := by
    obtain ⟨r, hr, rfl⟩ := List.mem_map.mp hp
    unfold run
    rw [process_records_eq_fold]
    exact fold_body_reach lib (fun t s => post_id t ∈ s.g.tweets_set) (parse_body_post lib)
      (fun t t' s h => parse_body_keeps_post lib (post_id t) t' s h)
      (visited_all recs) State.init r hr
  rw [rows_of_post_length, hagree.1,
    List.count_map_of_injective _ _ (fun a b h => to_string_inj a b h)]
  exact List.count_eq_one_of_mem hagree.2 hmem

/-- Witness for C4: the record with post id 1 is processed top-level (twice in a row, as
two lines would be) and once more nested two levels deep in another record. -/
theorem post_row_exactly_once_witness :
    (1 : Int) ∈ (visited_all
      [ .obj [("id", .num_int 1), ("user", .obj [("id", .num_int 3)])],
        .obj [("id", .num_int 1), ("user", .obj [("id", .num_int 3)])],
        .obj [("id", .num_int 2),
          ("quoted_status", .obj [("id", .num_int 5),
            ("retweeted_status",
              .obj [("id", .num_int 1), ("user", .obj [("id", .num_int 3)])])])]
      ]).map post_id ∧
    (rows_of_post 1 (run Lib.sample
      [ .obj [("id", .num_int 1), ("user", .obj [("id", .num_int 3)])],
        .obj [("id", .num_int 1), ("user", .obj [("id", .num_int 3)])],
        .obj [("id", .num_int 2),
          ("quoted_status", .obj [("id", .num_int 5),
            ("retweeted_status",
              .obj [("id", .num_int 1), ("user", .obj [("id", .num_int 3)])])])]
      ]).tb.tweets).length = 1 :=
  ⟨by decide, post_row_exactly_once Lib.sample _ 1 (by decide)⟩

/-! ## The hashtag dictionary (C5) -/

theorem map_find_none_iff (tag : String) (m : List (String × Int)) :
    map_find tag m = none ↔ tag ∉ m.map Prod.fst := by
  induction m with
  | nil => simp [map_find]
  | cons p rest ih =>
    obtain ⟨k, v⟩ := p
    by_cases h : k = tag
    · simp [map_find, h]
    · have h' : ¬ tag = k := fun e => h e.symm
      simp [map_find, h, h', ih]

theorem map_find_some_mem (tag : String) (m : List (String × Int)) (hid : Int)
    (h : map_find tag m = some hid) : (tag, hid) ∈ m := by
  induction m with
  | nil => simp [map_find] at h
  | cons p rest ih =>
    obtain ⟨k, v⟩ := p
    by_cases hk : k = tag
    · simp only [map_find, hk, if_true, Option.some.injEq] at h
      simp [hk, h]
    · simp only [map_find, hk, if_false] at h
      exact List.mem_cons_of_mem _ (ih h)

theorem map_find_append (tag : String) (m : List (String × Int)) (e : String × Int) :
    map_find tag (m ++ [e]) =
      match map_find tag m with
      | some hid => some hid
      | none => if e.1 = tag then some e.2 else none := by
  induction m with
  | nil => simp [map_find]
  | cons p rest ih =>
    obtain ⟨k, v⟩ := p
    by_cases hk : k = tag
    · simp [map_find, hk]
    · simp only [List.cons_append, map_find, hk, if_false]
      exact ih

theorem ids_upto_succ (n : Nat) : ids_upto (n + 1) = ids_upto n ++ [(n : Int) + 1] := by
  unfold ids_upto
  rw [List.range_succ]
  simp

theorem mem_ids_upto (n : Nat) (i : Int) : i ∈ ids_upto n ↔ 1 ≤ i ∧ i ≤ n := by
  unfold ids_upto
  simp only [List.mem_map, List.mem_range]
  constructor
  · rintro ⟨k, hk, rfl⟩
    omega
  · intro h
    refine ⟨(i - 1).toNat, ?_, ?_⟩ <;> omega

theorem ids_upto_nodup (n : Nat) : (ids_upto n).Nodup := by
  unfold ids_upto
  apply List.Nodup.map _ (List.nodup_range n)
  intro a b h
  simpa using h

theorem hashtag_step_dense (lib : Lib) (p : Int) (s : State) (x : Json)
    (h : s.g.hashtags_map.map Prod.snd = ids_upto s.g.hashtags_map.length ∧
      (s.g.hashtags_map.map Prod.fst).Nodup ∧
      s.g.curr_hashtag_id = (s.g.hashtags_map.length : Int) + 1) :
    (hashtag_step lib p s x).g.hashtags_map.map Prod.snd =
        ids_upto (hashtag_step lib p s x).g.hashtags_map.length ∧
      ((hashtag_step lib p s x).g.hashtags_map.map Prod.fst).Nodup ∧
      (hashtag_step lib p s x).g.curr_hashtag_id =
        ((hashtag_step lib p s x).g.hashtags_map.length : Int) + 1 := by
  obtain ⟨h1, h2, h3⟩ := h
  cases hf : map_find (str_tolower (sget lib x "text")) s.g.hashtags_map with
  | some hid =>
    simp only [hashtag_step, hf, Option.isNone_some, Bool.false_eq_true, if_false]
    exact ⟨h1, h2, h3⟩
  | none =>
    have hnot := (map_find_none_iff _ _).mp hf
    simp only [hashtag_step, hf, Option.isNone_none, if_true, List.map_append, List.map_cons,
      List.map_nil, List.length_append, List.length_singleton, ids_upto_succ, h1, h3]
    refine ⟨trivial, ?_, ?_⟩
    · rw [List.nodup_append]
      refine ⟨h2, List.nodup_singleton _, ?_⟩
      intro a ha hb
      simp only [List.mem_singleton] at hb
      exact hnot (hb ▸ ha)
    · push_cast
      ring

theorem hashtags_dense (lib : Lib) (recs : List Json) :
    (run lib recs).g.hashtags_map.map Prod.snd = ids_upto (run lib recs).g.hashtags_map.length ∧
      ((run lib recs).g.hashtags_map.map Prod.fst).Nodup ∧
      (run lib recs).g.curr_hashtag_id = ((run lib recs).g.hashtags_map.length : Int) + 1 := by
  apply process_records_inv lib
    (fun s => s.g.hashtags_map.map Prod.snd = ids_upto s.g.hashtags_map.length ∧
      (s.g.hashtags_map.map Prod.fst).Nodup ∧
      s.g.curr_hashtag_id = (s.g.hashtags_map.length : Int) + 1)
  · intro t s h; exact h
  · intro t s h
    unfold parse_place
    split <;> exact h
  · intro t u p s h; exact h
  · intro p s x h; exact hashtag_step_dense lib p s x h
  · intro p s x h; exact h
  · intro p s x h; exact h
  · intro p s x h; exact h
  · exact ⟨rfl, List.nodup_nil, rfl⟩

/-- C5. After any sequence of records processed from an empty hashtag dictionary with
the counter at 1, and `N` the number of dictionary entries: the stored ids, in
insertion order, are `1, 2, ..., N`; an integer is a stored id exactly when it
lies in `1..N`; no id is stored twice and no text is stored twice (the dictionary
is a bijection between its texts and `1..N`); and the next-id counter is `N+1`. -/
theorem hashtag_ids_dense (lib : Lib) (recs : List Json) :
    (run lib recs).g.hashtags_map.map Prod.snd = ids_upto (run lib recs).g.hashtags_map.length ∧
    (∀ i : Int, i ∈ (run lib recs).g.hashtags_map.map Prod.snd ↔
      1 ≤ i ∧ i ≤ ((run lib recs).g.hashtags_map.length : Int)) ∧
    ((run lib recs).g.hashtags_map.map Prod.snd).Nodup ∧
    ((run lib recs).g.hashtags_map.map Prod.fst).Nodup ∧
    (run lib recs).g.curr_hashtag_id = ((run lib recs).g.hashtags_map.length : Int) + 1 := by
  obtain ⟨h1, h2, h3⟩ := hashtags_dense lib recs
  refine ⟨h1, ?_, ?_, h2, h3⟩
  · intro i
    rw [h1]
    exact mem_ids_upto _ i
  · rw [h1]
    exact ids_upto_nodup _

/-! ## Lower-cased hashtag lookup (C6) -/

theorem foldl_inv_mem {σ ι : Type} (step : σ → ι → σ) (P : σ → Prop) :
    ∀ (xs : List ι), (∀ x ∈ xs, ∀ s, P s → P (step s x)) → ∀ s, P s → P (xs.foldl step s) := by
  intro xs
  induction xs with
  | nil => intro _ s hs; exact hs
  | cons x rest ih =>
    intro h s hs
    exact ih (fun y hy => h y (List.mem_cons_of_mem _ hy)) _ (h x (List.mem_cons_self _ _) s hs)

theorem foldl_reach {σ ι : Type} (step : σ → ι → σ) (Q : ι → σ → Prop)
    (hest : ∀ x s, Q x (step s x)) (hmono : ∀ x y s, Q x s → Q x (step s y)) :
    ∀ (xs : List ι) (s : σ) (x : ι), x ∈ xs → Q x (xs.foldl step s) := by
  intro xs
  induction xs with
  | nil => intro s x hx; simp at hx
  | cons x0 rest ih =>
    intro s x hx
    rcases List.mem_cons.mp hx with h | h
    · subst h
      exact foldl_inv_mem step (Q x) rest (fun y _ s' hs' => hmono x y s' hs') _ (hest x s)
    · exact ih _ x h

theorem for_entities_eq (entities : Json) (key : String) (step : State → Json → State)
    (s : State) :
    for_entities entities key step s = (entity_items entities key).foldl step s := by
  unfold for_entities entity_items
  cases entities.get? key with
  | none => rfl
  | some v => cases v <;> rfl

theorem parse_body_eq (lib : Lib) (t : Json) (s : State) :
    parse_body lib t s =
      for_entities (tweet_entities t) "user_mentions" (mention_step lib (post_id t))
        (for_entities (tweet_entities t) "media" (media_step lib (post_id t))
          (for_entities (tweet_entities t) "urls" (url_step lib (post_id t))
            (for_entities (tweet_entities t) "hashtags" (hashtag_step lib (post_id t))
              (parse_tweets lib t (author_id t) (post_id t)
                (parse_place lib t (parse_users lib t s)))))) := rfl

theorem hashtag_step_links (lib : Lib) (p : Int) (s : State) (h : Json) :
    linked p (sget lib h "text") (hashtag_step lib p s h) := by
  unfold linked
  cases hf : map_find (str_tolower (sget lib h "text")) s.g.hashtags_map with
  | some hid =>
    refine ⟨hid, ?_, ?_⟩
    · simp only [hashtag_step, hf, Option.isNone_some, Bool.false_eq_true, if_false]
    · simp only [hashtag_step, hf, Option.getD_some]
      exact check_insert_mem _ _
  | none =>
    refine ⟨s.g.curr_hashtag_id, ?_, ?_⟩
    · simp only [hashtag_step, hf, Option.isNone_none, if_true]
      rw [map_find_append, hf]
      simp
    · simp only [hashtag_step, hf, Option.getD_none]
      exact check_insert_mem _ _

theorem hashtag_step_keeps_linked (lib : Lib) (p : Int) (x : String) (p' : Int) (s : State)
    (h : Json) (hl : linked p x s) : linked p x (hashtag_step lib p' s h) := by
  obtain ⟨hid, h1, h2⟩ := hl
  refine ⟨hid, ?_, check_insert_mono _ _ _ h2⟩
  cases hf : map_find (str_tolower (sget lib h "text")) s.g.hashtags_map with
  | some hid' =>
    simp only [hashtag_step, hf, Option.isNone_some, Bool.false_eq_true, if_false]
    exact h1
  | none =>
    simp only [hashtag_step, hf, Option.isNone_none, if_true]
    rw [map_find_append, h1]

theorem parse_body_keeps_linked (lib : Lib) (p : Int) (x : String) (t : Json) (s : State)
    (h : linked p x s) : linked p x (parse_body lib t s) := by
  apply parse_body_stages lib t (linked p x) (linked p x) (linked p x) (linked p x)
    _ _ _ _ _ _ _ s h
  · intro s h; exact h
  · intro s h
    unfold parse_place
    split <;> exact h
  · intro s h; exact h
  · intro s y h; exact hashtag_step_keeps_linked lib p x _ s y h
  · intro s y h; exact h
  · intro s y h; exact h
  · intro s y h; exact h

theorem parse_body_links (lib : Lib) (t : Json) (s : State) :
    ∀ x ∈ hashtag_texts lib t, linked (post_id t) x (parse_body lib t s) := by
  intro x hx
  obtain ⟨h, hh, rfl⟩ := List.mem_map.mp hx
  rw [parse_body_eq]
  refine for_entities_inv (linked (post_id t) (sget lib h "text")) _ _
    (mention_step lib (post_id t)) (fun s y hs => hs) _ ?_
  refine for_entities_inv (linked (post_id t) (sget lib h "text")) _ _
    (media_step lib (post_id t)) (fun s y hs => hs) _ ?_
  refine for_entities_inv (linked (post_id t) (sget lib h "text")) _ _
    (url_step lib (post_id t)) (fun s y hs => hs) _ ?_
  rw [for_entities_eq]
  exact foldl_reach (hashtag_step lib (post_id t))
    (fun h s => linked (post_id t) (sget lib h "text") s)
    (fun y s => hashtag_step_links lib _ s y)
    (fun y z s hs => hashtag_step_keeps_linked lib _ _ _ s z hs) _ _ h hh

theorem csv_special_any (l : List Char) :
    l.any csv_special = true ↔ (',' ∈ l ∨ '"' ∈ l ∨ '\n' ∈ l ∨ '\r' ∈ l) := by
  rw [List.any_eq_true]
  constructor
  · rintro ⟨c, hc, hs⟩
    simp only [csv_special, Bool.or_eq_true, decide_eq_true_eq] at hs
    rcases hs with ((h | h) | h) | h
    · exact Or.inl (h ▸ hc)
    · exact Or.inr (Or.inl (h ▸ hc))
    · exact Or.inr (Or.inr (Or.inl (h ▸ hc)))
    · exact Or.inr (Or.inr (Or.inr (h ▸ hc)))
  · rintro (h | h | h | h)
    · exact ⟨',', h, by decide⟩
    · exact ⟨'"', h, by decide⟩
    · exact ⟨'\n', h, by decide⟩
    · exact ⟨'\r', h, by decide⟩

theorem csv_escape_doubles (l : List Char) :
    csv_escape l = l.flatMap (fun c => if c = '"' then ['"', '"'] else [c]) := by
  induction l with
  | nil => rfl
  | cons c cs ih =>
    by_cases h : c = '"'
    · subst h
      simp [csv_escape, ih]
    · simp [csv_escape, h, ih]

/-- Counterexample to C11 as stated: the field `a\rb` holds no comma, no double
quote and no newline, yet `csv_quote` wraps it in quotes, because a carriage
return is in the set given to `find_first_of`. -/
theorem csv_quote_wraps_carriage_return :
    ¬ (',' ∈ "a\rb".data ∨ '"' ∈ "a\rb".data ∨ '\n' ∈ "a\rb".data) ∧
    csv_quote "a\rb" = "\"a\rb\"" ∧ csv_quote "a\rb" ≠ "a\rb" := by
  decide

/-- C11 (amended). For every string `s`, `csv_quote` wraps `s` in double quotes, each
quote character of `s` written twice, exactly when `s` contains a comma, a double
quote, a newline or a carriage return; a field containing none of these four
characters is returned unchanged. -/
theorem csv_quote_wraps_iff (s : String) :
    ((',' ∈ s.data ∨ '"' ∈ s.data ∨ '\n' ∈ s.data ∨ '\r' ∈ s.data) →
      csv_quote s = ⟨'"' :: (csv_escape s.data ++ ['"'])⟩) ∧
    (¬ (',' ∈ s.data ∨ '"' ∈ s.data ∨ '\n' ∈ s.data ∨ '\r' ∈ s.data) → csv_quote s = s) ∧
    csv_escape s.data = s.data.flatMap (fun c => if c = '"' then ['"', '"'] else [c]) := by
  refine ⟨?_, ?_, csv_escape_doubles _⟩
  · intro h
    unfold csv_quote
    rw [if_pos ((csv_special_any _).mpr h)]
  · intro h
    unfold csv_quote
    rw [if_neg (fun h' => h ((csv_special_any _).mp h'))]

/-! ## Missing, null and boolean fields (C15, C16) -/

theorem sget_absent (lib : Lib) (j : Json) (key : String) (h : absent_or_null (j.get? key)) :
    sget lib j key = "" := by
  unfold sget
  rcases h with h | h <;> rw [h]

theorem iget_ll_absent (j : Json) (key : String) (h : absent_or_null (j.get? key)) :
    iget_ll j key = 0 := by
  unfold iget_ll
  rcases h with h | h <;> rw [h]

theorem ivec_absent (j : Json) (key : String) (h : absent_or_null (j.get? key)) :
    ivec j key = [] := by
  unfold ivec
  rcases h with h | h <;> rw [h]

theorem bool_cell_none (j : Json) (key : String) (h : j.get? key = none) :
    bool_cell j key = "" := by
  simp [bool_cell, Json.contains, h]

theorem bool_cell_null (j : Json) (key : String) (h : j.get? key = some .null) :
    bool_cell j key = "false" := by
  simp [bool_cell, Json.contains, bget, h]

theorem bool_cell_bool (j : Json) (key : String) (b : Bool) (h : j.get? key = some (.bool b)) :
    bool_cell j key = if b then "true" else "false" := by
  simp [bool_cell, Json.contains, bget, h]

theorem count_cell_absent (j : Json) (key : String) (h : absent_or_null (j.get? key)) :
    count_cell j key = "" ∨ count_cell j key = "0" := by
  rcases h with h | h
  · left
    simp [count_cell, Json.contains, h]
  · right
    have h0 : iget_ll j key = 0 := iget_ll_absent j key (Or.inr h)
    simp only [count_cell, Json.contains, h, Option.isSome_some, if_true, h0]
    rfl

theorem at_single (j : Json) (key : String) : j.at? [key] = j.get? key := by
  simp only [Json.at?]
  cases j.get? key <;> rfl

theorem at_user (t : Json) (key : String) (h : absent_or_null (t.at? ["user", key])) :
    absent_or_null ((tweet_user t).get? key) := by
  unfold tweet_user
  cases hu : t.get? "user" with
  | none => exact Or.inl rfl
  | some v =>
    have e : t.at? ["user", key] = v.get? key := by
      simp only [Json.at?, hu]
      cases v.get? key <;> rfl
    rw [e] at h
    exact h

theorem user_row_cell_absent (lib : Lib) (hiso : lib.to_iso "" = "") (u : Json) (i : Nat)
    (key : String) (hi : user_row_keys[i]? = some key) (habs : absent_or_null (u.get? key)) :
    ((key = "verified" ∨ key = "protected") → u.get? key = some .null →
      col i (user_row lib u (iget_ll u "id")) = "false") ∧
    (¬ ((key = "verified" ∨ key = "protected") ∧ u.get? key = some .null) →
      (col i (user_row lib u (iget_ll u "id")) = "" ∨
        col i (user_row lib u (iget_ll u "id")) = "0")) := by
  have hs : ∀ k : String, absent_or_null (u.get? k) → sget lib u k = "" :=
    fun k h => sget_absent lib u k h
  match i, hi with
  | 0, hi =>
    simp only [user_row_keys, List.getElem?_cons_zero, Option.some.injEq] at hi
    subst hi
    refine ⟨fun hk => absurd hk (by decide), fun _ => Or.inr ?_⟩
    show to_string (iget_ll u "id") = "0"
    rw [iget_ll_absent u "id" habs]
    rfl
  | 1, hi =>
    simp only [user_row_keys, List.getElem?_cons_succ, List.getElem?_cons_zero,
      Option.some.injEq] at hi
    subst hi
    exact ⟨fun hk => absurd hk (by decide), fun _ => Or.inl (hs _ habs)⟩
  | 2, hi =>
    simp only [user_row_keys, List.getElem?_cons_succ, List.getElem?_cons_zero,
      Option.some.injEq] at hi
    subst hi
    exact ⟨fun hk => absurd hk (by decide), fun _ => Or.inl (hs _ habs)⟩
  | 3, hi =>
    simp only [user_row_keys, List.getElem?_cons_succ, List.getElem?_cons_zero,
      Option.some.injEq] at hi
    subst hi
    exact ⟨fun hk => absurd hk (by decide), fun _ => Or.inl (hs _ habs)⟩
  | 4, hi =>
    simp only [user_row_keys, List.getElem?_cons_succ, List.getElem?_cons_zero,
      Option.some.injEq] at hi
    subst hi
    refine ⟨fun _ hn => bool_cell_null u _ hn, fun hneg => Or.inl ?_⟩
    rcases habs with h | h
    · exact bool_cell_none u _ h
    · exact absurd ⟨Or.inl rfl, h⟩ hneg
  | 5, hi =>
    simp only [user_row_keys, List.getElem?_cons_succ, List.getElem?_cons_zero,
      Option.some.injEq] at hi
    subst hi
    refine ⟨fun _ hn => bool_cell_null u _ hn, fun hneg => Or.inl ?_⟩
    rcases habs with h | h
    · exact bool_cell_none u _ h
    · exact absurd ⟨Or.inr rfl, h⟩ hneg
  | 6, hi =>
    simp only [user_row_keys, List.getElem?_cons_succ, List.getElem?_cons_zero,
      Option.some.injEq] at hi
    subst hi
    exact ⟨fun hk => absurd hk (by decide), fun _ => count_cell_absent u _ habs⟩
  | 7, hi =>
    simp only [user_row_keys, List.getElem?_cons_succ, List.getElem?_cons_zero,
      Option.some.injEq] at hi
    subst hi
    exact ⟨fun hk => absurd hk (by decide), fun _ => count_cell_absent u _ habs⟩
  | 8, hi =>
    simp only [user_row_keys, List.getElem?_cons_succ, List.getElem?_cons_zero,
      Option.some.injEq] at hi
    subst hi
    exact ⟨fun hk => absurd hk (by decide), fun _ => count_cell_absent u _ habs⟩
  | 9, hi =>
    simp only [user_row_keys, List.getElem?_cons_succ, List.getElem?_cons_zero,
      Option.some.injEq] at hi
    subst hi
    refine ⟨fun hk => absurd hk (by decide), fun _ => Or.inl ?_⟩
    show lib.to_iso (sget lib u "created_at") = ""
    rw [hs _ habs, hiso]
  | 10, hi =>
    simp only [user_row_keys, List.getElem?_cons_succ, List.getElem?_cons_zero,
      Option.some.injEq] at hi
    subst hi
    exact ⟨fun hk => absurd hk (by decide), fun _ => Or.inl (hs _ habs)⟩
  | 11, hi =>
    simp only [user_row_keys, List.getElem?_cons_succ, List.getElem?_cons_zero,
      Option.some.injEq] at hi
    subst hi
    exact ⟨fun hk => absurd hk (by decide), fun _ => Or.inl (hs _ habs)⟩
  | n + 12, hi =>
    simp [user_row_keys] at hi

theorem tweet_row_cell_absent (lib : Lib) (hiso : lib.to_iso "" = "") (t : Json) (i : Nat)
    (path : List String) (hi : tweet_row_paths[i]? = some path)
    (habs : absent_or_null (t.at? path)) :
    (path = ["possibly_sensitive"] → t.at? path = some .null →
      col i (tweet_row lib t (author_id t) (post_id t)) = "false") ∧
    (¬ (path = ["possibly_sensitive"] ∧ t.at? path = some .null) →
      (col i (tweet_row lib t (author_id t) (post_id t)) = "" ∨
        col i (tweet_row lib t (author_id t) (post_id t)) = "0")) := by
  match i, hi with
  | 0, hi =>
    simp only [tweet_row_paths, List.getElem?_cons_succ, List.getElem?_cons_zero,
      Option.some.injEq] at hi
    subst hi
    rw [at_single] at habs
    refine ⟨fun hk => absurd hk (by decide), fun _ => Or.inr ?_⟩
    show to_string (iget_ll t "id") = "0"
    rw [iget_ll_absent t "id" habs]
    rfl
  | 1, hi =>
    simp only [tweet_row_paths, List.getElem?_cons_succ, List.getElem?_cons_zero,
      Option.some.injEq] at hi
    subst hi
    rw [at_single] at habs
    refine ⟨fun hk => absurd hk (by decide), fun _ => Or.inl ?_⟩
    show lib.to_iso (sget lib t "created_at") = ""
    rw [sget_absent lib t "created_at" habs, hiso]
  | 2, hi =>
    simp only [tweet_row_paths, List.getElem?_cons_succ, List.getElem?_cons_zero,
      Option.some.injEq] at hi
    subst hi
    rw [at_single] at habs
    exact ⟨fun hk => absurd hk (by decide), fun _ => Or.inl (sget_absent lib t "full_text" habs)⟩
  | 3, hi =>
    simp only [tweet_row_paths, List.getElem?_cons_succ, List.getElem?_cons_zero,
      Option.some.injEq] at hi
    subst hi
    rw [at_single] at habs
    refine ⟨fun hk => absurd hk (by decide), fun _ => Or.inl ?_⟩
    simp only [col, tweet_row, ivec_absent t "display_text_range" habs]
    rfl
  | 4, hi =>
    simp only [tweet_row_paths, List.getElem?_cons_succ, List.getElem?_cons_zero,
      Option.some.injEq] at hi
    subst hi
    rw [at_single] at habs
    refine ⟨fun hk => absurd hk (by decide), fun _ => Or.inl ?_⟩
    simp only [col, tweet_row, ivec_absent t "display_text_range" habs]
    rfl
  | 5, hi =>
    simp only [tweet_row_paths, List.getElem?_cons_succ, List.getElem?_cons_zero,
      Option.some.injEq] at hi
    subst hi
    rw [at_single] at habs
    exact ⟨fun hk => absurd hk (by decide), fun _ => Or.inl (sget_absent lib t "lang" habs)⟩
  | 6, hi =>
    simp only [tweet_row_paths, List.getElem?_cons_succ, List.getElem?_cons_zero,
      Option.some.injEq] at hi
    subst hi
    refine ⟨fun hk => absurd hk (by decide), fun _ => Or.inl ?_⟩
    show id_cell (author_id t) = ""
    unfold author_id
    rw [iget_ll_absent (tweet_user t) "id" (at_user t "id" habs)]
    rfl
  | 7, hi =>
    simp only [tweet_row_paths, List.getElem?_cons_succ, List.getElem?_cons_zero,
      Option.some.injEq] at hi
    subst hi
    rw [at_single] at habs
    exact ⟨fun hk => absurd hk (by decide), fun _ => Or.inl (sget_absent lib t "source" habs)⟩
  | 8, hi =>
    simp only [tweet_row_paths, List.getElem?_cons_succ, List.getElem?_cons_zero,
      Option.some.injEq] at hi
    subst hi
    rw [at_single] at habs
    refine ⟨fun hk => absurd hk (by decide), fun _ => Or.inr ?_⟩
    show to_string (iget_ll t "in_reply_to_status_id") = "0"
    rw [iget_ll_absent t "in_reply_to_status_id" habs]
    rfl
  | 9, hi =>
    simp only [tweet_row_paths, List.getElem?_cons_succ, List.getElem?_cons_zero,
      Option.some.injEq] at hi
    subst hi
    rw [at_single] at habs
    refine ⟨fun hk => absurd hk (by decide), fun _ => Or.inr ?_⟩
    show to_string (iget_ll t "quoted_status_id") = "0"
    rw [iget_ll_absent t "quoted_status_id" habs]
    rfl
  | 10, hi =>
    simp only [tweet_row_paths, List.getElem?_cons_succ, List.getElem?_cons_zero,
      Option.some.injEq] at hi
    subst hi
    refine ⟨fun hk => absurd hk (by decide), fun _ => ?_⟩
    show (match t.get? "retweeted_status" with
        | some rt => if rt.contains "id" then to_string (iget_ll rt "id") else ""
        | none => "") = "" ∨
      (match t.get? "retweeted_status" with
        | some rt => if rt.contains "id" then to_string (iget_ll rt "id") else ""
        | none => "") = "0"
    cases hr : t.get? "retweeted_status" with
    | none => exact Or.inl rfl
    | some rt =>
      have e : t.at? ["retweeted_status", "id"] = rt.get? "id" := by
        simp only [Json.at?, hr]
        cases rt.get? "id" <;> rfl
      rw [e] at habs
      exact count_cell_absent rt "id" habs
  | 11, hi =>
    simp only [tweet_row_paths, List.getElem?_cons_succ, List.getElem?_cons_zero,
      Option.some.injEq] at hi
    subst hi
    refine ⟨fun hk => absurd hk (by decide), fun _ => Or.inl ?_⟩
    show (match t.get? "place" with
        | some plc => sget lib plc "id"
        | none => "") = ""
    cases hr : t.get? "place" with
    | none => rfl
    | some plc =>
      have e : t.at? ["place", "id"] = plc.get? "id" := by
        simp only [Json.at?, hr]
        cases plc.get? "id" <;> rfl
      rw [e] at habs
      exact sget_absent lib plc "id" habs
  | 12, hi =>
    simp only [tweet_row_paths, List.getElem?_cons_succ, List.getElem?_cons_zero,
      Option.some.injEq] at hi
    subst hi
    rw [at_single] at habs
    exact ⟨fun hk => absurd hk (by decide), fun _ => count_cell_absent t "retweet_count" habs⟩
  | 13, hi =>
    simp only [tweet_row_paths, List.getElem?_cons_succ, List.getElem?_cons_zero,
      Option.some.injEq] at hi
    subst hi
    rw [at_single] at habs
    exact ⟨fun hk => absurd hk (by decide), fun _ => count_cell_absent t "favorite_count" habs⟩
  | 14, hi =>
    simp only [tweet_row_paths, List.getElem?_cons_succ, List.getElem?_cons_zero,
      Option.some.injEq] at hi
    subst hi
    rw [at_single] at habs
    refine ⟨fun _ hn => ?_, fun hneg => Or.inl ?_⟩
    · rw [at_single] at hn
      exact bool_cell_null t _ hn
    · rcases habs with h | h
      · exact bool_cell_none t _ h
      · exact absurd ⟨rfl, by rw [at_single]; exact h⟩ hneg
  | n + 15, hi =>
    simp [tweet_row_paths] at hi

/-- Counterexample to C15 as stated: in the record
`{"id":1,"user":{"id":5,"verified":null},"possibly_sensitive":null}` the flags
`verified` and `possibly_sensitive` are JSON null, and the emitted users row and
posts row carry `false` in their cells, which is neither the empty string nor `0`. -/
theorem null_flag_emitted_as_false :
    (Json.obj [("id", .num_int 5), ("verified", .null)]).get? "verified" = some .null ∧
    (run Lib.sample
      [.obj [("id", .num_int 1), ("user", .obj [("id", .num_int 5), ("verified", .null)]),
        ("possibly_sensitive", .null)]]).tb.users =
      [["5", "", "", "", "false", "", "", "", "", "", "", ""]] ∧
    (run Lib.sample
      [.obj [("id", .num_int 1), ("user", .obj [("id", .num_int 5), ("verified", .null)]),
        ("possibly_sensitive", .null)]]).tb.tweets =
      [["1", "", "", "", "", "", "5", "", "0", "0", "", "", "", "", "false"]] ∧
    ("false" : String) ≠ "" ∧ ("false" : String) ≠ "0" :=
  ⟨rfl, by decide, by decide, by decide, by decide⟩

/-- C15 (amended). With a timestamp reformatter that maps the empty string to the
empty string (as `to_iso` does), every cell of the users row and of the posts row
that `parse_tweet` pushes for a record, whose source member is missing or JSON
null, is the empty string or `0`, except a boolean cell (`verified`, `protected`,
`possibly_sensitive`) whose member is present with value null: that cell is
`false`. -/
theorem missing_fields_blank_or_zero (lib : Lib) (hiso : lib.to_iso "" = "") (t : Json) :
    (∀ (i : Nat) (key : String), user_row_keys[i]? = some key →
      absent_or_null ((tweet_user t).get? key) →
      ((key = "verified" ∨ key = "protected") → (tweet_user t).get? key = some .null →
        col i (user_row lib (tweet_user t) (author_id t)) = "false") ∧
      (¬ ((key = "verified" ∨ key = "protected") ∧ (tweet_user t).get? key = some .null) →
        (col i (user_row lib (tweet_user t) (author_id t)) = "" ∨
          col i (user_row lib (tweet_user t) (author_id t)) = "0"))) ∧
    (∀ (i : Nat) (path : List String), tweet_row_paths[i]? = some path →
      absent_or_null (t.at? path) →
      (path = ["possibly_sensitive"] → t.at? path = some .null →
        col i (tweet_row lib t (author_id t) (post_id t)) = "false") ∧
      (¬ (path = ["possibly_sensitive"] ∧ t.at? path = some .null) →
        (col i (tweet_row lib t (author_id t) (post_id t)) = "" ∨
          col i (tweet_row lib t (author_id t) (post_id t)) = "0"))) ∧
    (∀ s : State,
      (parse_users lib t s).tb.users =
        push_if (check_insert (author_id t) s.g.users_set).2 s.tb.users
          (user_row lib (tweet_user t) (author_id t)) ∧
      (parse_tweets lib t (author_id t) (post_id t) s).tb.tweets =
        push_if (check_insert (post_id t) s.g.tweets_set).2 s.tb.tweets
          (tweet_row lib t (author_id t) (post_id t))) :=
  ⟨fun i key hi habs => user_row_cell_absent lib hiso (tweet_user t) i key hi habs,
    fun i path hi habs => tweet_row_cell_absent lib hiso t i path hi habs,
    fun _ => ⟨rfl, rfl⟩⟩

/-- Witness for the amended C15: the record `{"id":1,"user":{"id":5,"name":null}}`
read with a reformatter that returns its argument. -/
theorem missing_fields_blank_or_zero_witness :
    Lib.sample.to_iso "" = "" ∧
    col 2 (user_row Lib.sample
      (tweet_user (.obj [("id", .num_int 1), ("user", .obj [("id", .num_int 5), ("name", .null)])]))
      (author_id (.obj [("id", .num_int 1), ("user", .obj [("id", .num_int 5), ("name", .null)])])))
      = "" ∧
    col 8 (tweet_row Lib.sample
      (.obj [("id", .num_int 1), ("user", .obj [("id", .num_int 5), ("name", .null)])])
      (author_id (.obj [("id", .num_int 1), ("user", .obj [("id", .num_int 5), ("name", .null)])]))
      (post_id (.obj [("id", .num_int 1), ("user", .obj [("id", .num_int 5), ("name", .null)])])))
      = "0" := by
  have h := missing_fields_blank_or_zero Lib.sample rfl
    (.obj [("id", .num_int 1), ("user", .obj [("id", .num_int 5), ("name", .null)])])
  refine ⟨rfl, ?_, ?_⟩
  · have h2 := (h.1 2 "name" rfl (Or.inr rfl)).2 (fun hc => absurd hc.1 (by decide))
    rcases h2 with h2 | h2
    · exact h2
    · exact absurd h2 (by decide)
  · have h8 := (h.2.1 8 ["in_reply_to_status_id"] rfl (Or.inl rfl)).2
      (fun hc => absurd hc.1 (by decide))
    rcases h8 with h8 | h8
    · exact absurd h8 (by decide)
    · exact h8

/-- C16. Boolean cells are tri-state.  In the users row pushed for a record the cells
of `verified` and `protected`, and in the posts row the cell of
`possibly_sensitive`, are the empty string when the member is absent (from the
user object, which is empty when the record has none, respectively from the
record), `true` when its value is true and `false` when its value is false; the
empty string differs from `false`, so an absent flag is told apart from a false
one. -/
theorem boolean_cells_tristate (lib : Lib) (t : Json) :
    (∀ (key : String) (i : Nat), (key = "verified" ∧ i = 4) ∨ (key = "protected" ∧ i = 5) →
      ((tweet_user t).get? key = none →
        col i (user_row lib (tweet_user t) (author_id t)) = "") ∧
      ((tweet_user t).get? key = some (.bool true) →
        col i (user_row lib (tweet_user t) (author_id t)) = "true") ∧
      ((tweet_user t).get? key = some (.bool false) →
        col i (user_row lib (tweet_user t) (author_id t)) = "false")) ∧
    ((t.get? "possibly_sensitive" = none →
        col 14 (tweet_row lib t (author_id t) (post_id t)) = "") ∧
      (t.get? "possibly_sensitive" = some (.bool true) →
        col 14 (tweet_row lib t (author_id t) (post_id t)) = "true") ∧
      (t.get? "possibly_sensitive" = some (.bool false) →
        col 14 (tweet_row lib t (author_id t) (post_id t)) = "false")) ∧
    ("" : String) ≠ "false" := by
  refine ⟨?_, ⟨?_, ?_, ?_⟩, by decide⟩
  · intro key i h
    rcases h with ⟨rfl, rfl⟩ | ⟨rfl, rfl⟩
    · exact ⟨fun h => bool_cell_none _ _ h, fun h => bool_cell_bool _ _ true h,
        fun h => bool_cell_bool _ _ false h⟩
    · exact ⟨fun h => bool_cell_none _ _ h, fun h => bool_cell_bool _ _ true h,
        fun h => bool_cell_bool _ _ false h⟩
  · exact fun h => bool_cell_none _ _ h
  · exact fun h => bool_cell_bool _ _ true h
  · exact fun h => bool_cell_bool _ _ false h

/-! ## Rows already buffered do not change what `parse_tweet` does -/

theorem push_if_append (b : Bool) (pre rows : List Row) (row : Row) :
    push_if b (pre ++ rows) row = pre ++ push_if b rows row := by
  unfold push_if
  cases b <;> simp

theorem parse_users_shift (lib : Lib) (pre : ThreadTables) (t : Json) (s : State) :
    parse_users lib t (shift pre s) = shift pre (parse_users lib t s) := by
  simp only [parse_users, shift, tb_append, push_if_append]

theorem parse_place_shift (lib : Lib) (pre : ThreadTables) (t : Json) (s : State) :
    parse_place lib t (shift pre s) = shift pre (parse_place lib t s) := by
  unfold parse_place
  split
  · rfl
  · rfl
  · simp only [shift, tb_append, push_if_append]

theorem parse_tweets_shift (lib : Lib) (pre : ThreadTables) (t : Json) (u p : Int) (s : State) :
    parse_tweets lib t u p (shift pre s) = shift pre (parse_tweets lib t u p s) := by
  simp only [parse_tweets, shift, tb_append, push_if_append]

theorem hashtag_step_shift (lib : Lib) (pre : ThreadTables) (p : Int) (s : State) (x : Json) :
    hashtag_step lib p (shift pre s) x = shift pre (hashtag_step lib p s x) := by
  simp only [hashtag_step, shift, tb_append, push_if_append]

theorem url_step_shift (lib : Lib) (pre : ThreadTables) (p : Int) (s : State) (x : Json) :
    url_step lib p (shift pre s) x = shift pre (url_step lib p s x) := by
  simp only [url_step, shift, tb_append, push_if_append]

theorem media_step_shift (lib : Lib) (pre : ThreadTables) (p : Int) (s : State) (x : Json) :
    media_step lib p (shift pre s) x = shift pre (media_step lib p s x) := by
  simp only [media_step, shift, tb_append, push_if_append]

theorem mention_step_shift (lib : Lib) (pre : ThreadTables) (p : Int) (s : State) (x : Json) :
    mention_step lib p (shift pre s) x = shift pre (mention_step lib p s x) := by
  simp only [mention_step, shift, tb_append, push_if_append]

theorem foldl_shift {ι : Type} (pre : ThreadTables) (step : State → ι → State)
    (h : ∀ s x, step (shift pre s) x = shift pre (step s x)) :
    ∀ (xs : List ι) (s : State), xs.foldl step (shift pre s) = shift pre (xs.foldl step s) := by
  intro xs
  induction xs with
  | nil => intro s; rfl
  | cons x rest ih =>
    intro s
    simp only [List.foldl_cons, h, ih]

theorem for_entities_shift (pre : ThreadTables) (entities : Json) (key : String)
    (step : State → Json → State) (h : ∀ s x, step (shift pre s) x = shift pre (step s x))
    (s : State) :
    for_entities entities key step (shift pre s) = shift pre (for_entities entities key step s) := by
  rw [for_entities_eq, for_entities_eq]
  exact foldl_shift pre step h _ s

theorem parse_body_shift (lib : Lib) (pre : ThreadTables) (t : Json) (s : State) :
    parse_body lib t (shift pre s) = shift pre (parse_body lib t s) := by
  rw [parse_body_eq, parse_body_eq, parse_users_shift, parse_place_shift, parse_tweets_shift,
    for_entities_shift pre _ _ _ (fun s x => hashtag_step_shift lib pre _ s x),
    for_entities_shift pre _ _ _ (fun s x => url_step_shift lib pre _ s x),
    for_entities_shift pre _ _ _ (fun s x => media_step_shift lib pre _ s x),
    for_entities_shift pre _ _ _ (fun s x => mention_step_shift lib pre _ s x)]

theorem parse_tweet_shift (lib : Lib) (pre : ThreadTables) (t : Json) (s : State) :
    parse_tweet lib t (shift pre s) = shift pre (parse_tweet lib t s) := by
  rw [parse_tweet_eq_fold, parse_tweet_eq_fold]
  exact foldl_shift pre (fun acc r => parse_body lib r acc)
    (fun s x => parse_body_shift lib pre x s) _ s

/-! ## The cases of the line loop -/

theorem accept_lines_blank (lib : Lib) (parse : String → Option Json) (mx : Option Int)
    (line : String) (rest : List String) (n : Int) (s : State) (hb : is_blank line = true) :
    accept_lines lib parse mx (line :: rest) n s = accept_lines lib parse mx rest n s := by
  simp [accept_lines, hb]

theorem accept_lines_limit (lib : Lib) (parse : String → Option Json) (mx : Option Int)
    (line : String) (rest : List String) (n : Int) (s : State) (hb : is_blank line = false)
    (ho : over_limit mx (n + 1) = true) :
    accept_lines lib parse mx (line :: rest) n s = (s, true) := by
  simp [accept_lines, hb, ho]

theorem accept_lines_parse_fail (lib : Lib) (parse : String → Option Json) (mx : Option Int)
    (line : String) (rest : List String) (n : Int) (s : State) (hb : is_blank line = false)
    (ho : over_limit mx (n + 1) = false) (hp : parse line = none) :
    accept_lines lib parse mx (line :: rest) n s = (s, true) := by
  simp [accept_lines, hb, ho, hp]

theorem accept_lines_merge_fail (lib : Lib) (parse : String → Option Json) (mx : Option Int)
    (line : String) (rest : List String) (n : Int) (s : State) (tj : Json) (e : JsonError)
    (hb : is_blank line = false) (ho : over_limit mx (n + 1) = false)
    (hp : parse line = some tj) (hm : merge_line tj = .error e) :
    accept_lines lib parse mx (line :: rest) n s = (s, false) := by
  simp [accept_lines, hb, ho, hp, hm]

theorem accept_lines_ok (lib : Lib) (parse : String → Option Json) (mx : Option Int)
    (line : String) (rest : List String) (n : Int) (s : State) (tj merged : Json)
    (hb : is_blank line = false) (ho : over_limit mx (n + 1) = false)
    (hp : parse line = some tj) (hm : merge_line tj = .ok merged) :
    accept_lines lib parse mx (line :: rest) n s =
      accept_lines lib parse mx rest (n + 1) (parse_tweet lib merged s) := by
  simp [accept_lines, hb, ho, hp, hm]

theorem process_lines_blank (lib : Lib) (parse : String → Option Json) (bs : Int)
    (mx : Option Int) (base line : String) (rest : List String) (n : Int) (s : State)
    (st : Store) (hb : is_blank line = true) :
    process_lines lib parse bs mx base (line :: rest) n s st =
      process_lines lib parse bs mx base rest n s st := by
  simp [process_lines, hb]

theorem process_lines_limit (lib : Lib) (parse : String → Option Json) (bs : Int)
    (mx : Option Int) (base line : String) (rest : List String) (n : Int) (s : State)
    (st : Store) (hb : is_blank line = false) (ho : over_limit mx (n + 1) = true) :
    process_lines lib parse bs mx base (line :: rest) n s st =
      (s.g, flush_batch base s.tb st) := by
  simp [process_lines, hb, ho]

theorem process_lines_parse_fail (lib : Lib) (parse : String → Option Json) (bs : Int)
    (mx : Option Int) (base line : String) (rest : List String) (n : Int) (s : State)
    (st : Store) (hb : is_blank line = false) (ho : over_limit mx (n + 1) = false)
    (hp : parse line = none) :
    process_lines lib parse bs mx base (line :: rest) n s st =
      (s.g, flush_batch base s.tb st) := by
  simp [process_lines, hb, ho, hp]

theorem process_lines_merge_fail (lib : Lib) (parse : String → Option Json) (bs : Int)
    (mx : Option Int) (base line : String) (rest : List String) (n : Int) (s : State)
    (st : Store) (tj : Json) (e : JsonError) (hb : is_blank line = false)
    (ho : over_limit mx (n + 1) = false) (hp : parse line = some tj)
    (hm : merge_line tj = .error e) :
    process_lines lib parse bs mx base (line :: rest) n s st = (s.g, st) := by
  simp [process_lines, hb, ho, hp, hm]

theorem process_lines_flush (lib : Lib) (parse : String → Option Json) (bs : Int)
    (mx : Option Int) (base line : String) (rest : List String) (n : Int) (s : State)
    (st : Store) (tj merged : Json) (hb : is_blank line = false)
    (ho : over_limit mx (n + 1) = false) (hp : parse line = some tj)
    (hm : merge_line tj = .ok merged) (hf : Int.tmod (n + 1) bs = 0) :
    process_lines lib parse bs mx base (line :: rest) n s st =
      process_lines lib parse bs mx base rest (n + 1)
        { g := (parse_tweet lib merged s).g, tb := ThreadTables.empty }
        (flush_batch base (parse_tweet lib merged s).tb st) := by
  simp [process_lines, hb, ho, hp, hm, hf]

theorem process_lines_keep (lib : Lib) (parse : String → Option Json) (bs : Int)
    (mx : Option Int) (base line : String) (rest : List String) (n : Int) (s : State)
    (st : Store) (tj merged : Json) (hb : is_blank line = false)
    (ho : over_limit mx (n + 1) = false) (hp : parse line = some tj)
    (hm : merge_line tj = .ok merged) (hf : ¬ Int.tmod (n + 1) bs = 0) :
    process_lines lib parse bs mx base (line :: rest) n s st =
      process_lines lib parse bs mx base rest (n + 1) (parse_tweet lib merged s) st := by
  simp [process_lines, hb, ho, hp, hm, hf]

theorem accept_lines_shift (lib : Lib) (parse : String → Option Json) (max_line_opt : Option Int)
    (pre : ThreadTables) :
    ∀ (lines : List String) (n : Int) (s : State),
      accept_lines lib parse max_line_opt lines n (shift pre s) =
        (shift pre (accept_lines lib parse max_line_opt lines n s).1,
          (accept_lines lib parse max_line_opt lines n s).2) := by
  intro lines
  induction lines with
  | nil => intro n s; rfl
  | cons line rest ih =>
    intro n s
    cases hb : is_blank line with
    | true =>
      rw [accept_lines_blank _ _ _ _ _ _ _ hb, accept_lines_blank _ _ _ _ _ _ _ hb]
      exact ih n s
    | false =>
      cases ho : over_limit max_line_opt (n + 1) with
      | true =>
        rw [accept_lines_limit _ _ _ _ _ _ _ hb ho, accept_lines_limit _ _ _ _ _ _ _ hb ho]
      | false =>
        cases hp : parse line with
        | none =>
          rw [accept_lines_parse_fail _ _ _ _ _ _ _ hb ho hp,
            accept_lines_parse_fail _ _ _ _ _ _ _ hb ho hp]
        | some tj =>
          cases hm : merge_line tj with
          | error e =>
            rw [accept_lines_merge_fail _ _ _ _ _ _ _ tj e hb ho hp hm,
              accept_lines_merge_fail _ _ _ _ _ _ _ tj e hb ho hp hm]
          | ok merged =>
            rw [accept_lines_ok _ _ _ _ _ _ _ tj merged hb ho hp hm,
              accept_lines_ok _ _ _ _ _ _ _ tj merged hb ho hp hm, parse_tweet_shift]
            exact ih (n + 1) _

/-! ## Writing rows in one go or in batches -/

theorem flush_batch_empty (base : String) (st : Store) :
    flush_batch base ThreadTables.empty st = st := by
  simp [flush_batch, table_rows, ThreadTables.empty, csv_write_rows]

theorem shift_empty (s : State) : shift ThreadTables.empty s = s := by
  simp [shift, tb_append, ThreadTables.empty]

theorem shift_g (pre : ThreadTables) (s : State) : (shift pre s).g = s.g := rfl

/-! ## `process_file` against the rows accepted (C12, C13, C17) -/

theorem shift_of_empty (s : State) :
    shift s.tb { g := s.g, tb := ThreadTables.empty } = s := by
  simp [shift, tb_append, ThreadTables.empty]

/-- The registries `process_file` leaves do not depend on the batch size, nor on
whether the rows reached the store. -/
theorem process_lines_globals (lib : Lib) (parse : String → Option Json) (bs : Int)
    (mx : Option Int) (base : String) :
    ∀ (lines : List String) (n : Int) (s : State) (st : Store),
      (process_lines lib parse bs mx base lines n s st).1 =
        (accept_lines lib parse mx lines n s).1.g := by
  intro lines
  induction lines with
  | nil => intro n s st; rfl
  | cons line rest ih =>
    intro n s st
    cases hb : is_blank line with
    | true =>
      rw [accept_lines_blank _ _ _ _ _ _ _ hb, process_lines_blank _ _ _ _ _ _ _ _ _ _ hb]
      exact ih n s st
    | false =>
      cases ho : over_limit mx (n + 1) with
      | true =>
        rw [accept_lines_limit _ _ _ _ _ _ _ hb ho, process_lines_limit _ _ _ _ _ _ _ _ _ _ hb ho]
      | false =>
        cases hp : parse line with
        | none =>
          rw [accept_lines_parse_fail _ _ _ _ _ _ _ hb ho hp,
            process_lines_parse_fail _ _ _ _ _ _ _ _ _ _ hb ho hp]
        | some tj =>
          cases hm : merge_line tj with
          | error e =>
            rw [accept_lines_merge_fail _ _ _ _ _ _ _ tj e hb ho hp hm,
              process_lines_merge_fail _ _ _ _ _ _ _ _ _ _ tj e hb ho hp hm]
          | ok merged =>
            rw [accept_lines_ok _ _ _ _ _ _ _ tj merged hb ho hp hm]
            by_cases hf : Int.tmod (n + 1) bs = 0
            · rw [process_lines_flush _ _ _ _ _ _ _ _ _ _ tj merged hb ho hp hm hf, ih]
              have hs := accept_lines_shift lib parse mx (parse_tweet lib merged s).tb rest
                (n + 1) { g := (parse_tweet lib merged s).g, tb := ThreadTables.empty }
              rw [shift_of_empty] at hs
              rw [hs, shift_g]
            · rw [process_lines_keep _ _ _ _ _ _ _ _ _ _ tj merged hb ho hp hm hf]
              exact ih _ _ _

/-- C13, the code at a failing input.  The file has two lines and the batch size is
10.  Alone, the first line `{"id":1,"user":{"id":5}}` gives one users row and one
posts row in the partial outputs.  The second line
`{"id":2,"extended_entities":[1]}` parses, and its entity merge raises
(`invalid_iterator` 207).  With both lines `process_file` writes no partial output
at all: the rows of the first line, buffered since the last flush, are dropped,
while the registries keep user 5 and post 1. -/
theorem merge_failure_drops_buffered_rows :
    ((process_file Lib.sample sample_parse 10 none "f"
        (some ["\x7b\"id\":1,\"user\":\x7b\"id\":5\x7d\x7d"]) Globals.init Store.empty).2
          "output/f_users.csv" = some "5,,,,,,,,,,,\n" ∧
      (process_file Lib.sample sample_parse 10 none "f"
        (some ["\x7b\"id\":1,\"user\":\x7b\"id\":5\x7d\x7d"]) Globals.init Store.empty).2
          "output/f_tweets.csv" = some "1,,,,,,5,,0,0,,,,,\n") ∧
    (sample_parse "\x7b\"id\":2,\"extended_entities\":[1]\x7d" =
        some (.obj [("extended_entities", .arr [.num_int 1]), ("id", .num_int 2)]) ∧
      merge_line (.obj [("extended_entities", .arr [.num_int 1]), ("id", .num_int 2)]) =
        .error .invalid_iterator_207) ∧
    ((process_file Lib.sample sample_parse 10 none "f"
        (some ["\x7b\"id\":1,\"user\":\x7b\"id\":5\x7d\x7d", "\x7b\"id\":2,\"extended_entities\":[1]\x7d"])
        Globals.init Store.empty).2 "output/f_users.csv" = none ∧
      (process_file Lib.sample sample_parse 10 none "f"
        (some ["\x7b\"id\":1,\"user\":\x7b\"id\":5\x7d\x7d", "\x7b\"id\":2,\"extended_entities\":[1]\x7d"])
        Globals.init Store.empty).2 "output/f_tweets.csv" = none) ∧
    ((process_file Lib.sample sample_parse 10 none "f"
        (some ["\x7b\"id\":1,\"user\":\x7b\"id\":5\x7d\x7d", "\x7b\"id\":2,\"extended_entities\":[1]\x7d"])
        Globals.init Store.empty).1.users_set = [5] ∧
      (process_file Lib.sample sample_parse 10 none "f"
        (some ["\x7b\"id\":1,\"user\":\x7b\"id\":5\x7d\x7d", "\x7b\"id\":2,\"extended_entities\":[1]\x7d"])
        Globals.init Store.empty).1.tweets_set = [1]) :=
  ⟨⟨by decide, by decide⟩, ⟨rfl, rfl⟩, ⟨by decide, by decide⟩, ⟨by decide, by decide⟩⟩

/-- C17, the code at a failing input.  The file `{"id":1,"user":{"id":5}}`,
`{"id":2,"extended_entities":[1]}` leaves the users row of its first line in the
partial output when the batch size is 1 and leaves no users partial when the
batch size is 2: the output depends on the batch size, because the entity merge
of the second line raises and the rows buffered since the last flush are
dropped. -/
theorem batch_size_changes_output :
    (process_file Lib.sample sample_parse 1 none "f"
        (some ["\x7b\"id\":1,\"user\":\x7b\"id\":5\x7d\x7d", "\x7b\"id\":2,\"extended_entities\":[1]\x7d"])
        Globals.init Store.empty).2 "output/f_users.csv" = some "5,,,,,,,,,,,\n" ∧
    (process_file Lib.sample sample_parse 2 none "f"
        (some ["\x7b\"id\":1,\"user\":\x7b\"id\":5\x7d\x7d", "\x7b\"id\":2,\"extended_entities\":[1]\x7d"])
        Globals.init Store.empty).2 "output/f_users.csv" = none :=
  ⟨by decide, by decide⟩

/-- A nested record is handed to the same `parse_tweet` as a top-level one. -/
theorem parse_nested_lookup (lib : Lib) (key : String) (r : List (String × Json)) :
    ∀ (kvs : List (String × Json)) (s : State), Json.lookup key kvs = some (.obj r) →
      parse_nested lib key kvs s = parse_tweet lib (.obj r) s := by
  intro kvs
  induction kvs with
  | nil => intro s h; simp [Json.lookup] at h
  | cons p rest ih =>
    intro s h
    obtain ⟨k, v⟩ := p
    by_cases hk : k = key
    · simp only [Json.lookup, hk, if_true, Option.some.injEq] at h
      subst h
      simp only [parse_nested, hk, if_true]
    · simp only [Json.lookup, hk, if_false] at h
      have e : parse_nested lib key ((k, v) :: rest) s = parse_nested lib key rest s := by
        cases v <;> simp only [parse_nested, hk, if_false]
      rw [e]
      exact ih s h

/-- C14, the code at a failing input.  The record
`R = {"id":2,"extended_entities":{"media":[{"id":7}]}}` read as a top-level line
gives the media row of post 2 and media 7, which comes from its extended
entities through the entity merge.  Read as the quoted record of the line
`{"id":1,"quoted_status":R}` it gives its posts row but no media row: the entity
merge is run on the top-level record only. -/
theorem nested_record_not_merged :
    (process_file Lib.sample sample_parse 10 none "f"
        (some ["\x7b\"id\":2,\"extended_entities\":\x7b\"media\":[\x7b\"id\":7\x7d]\x7d\x7d"])
        Globals.init Store.empty).2 "output/f_media.csv" = some "2,7,,,,,\n" ∧
    (process_file Lib.sample sample_parse 10 none "f"
        (some ["\x7b\"id\":1,\"quoted_status\":\x7b\"id\":2,\"extended_entities\":\x7b\"media\":[\x7b\"id\":7\x7d]\x7d\x7d\x7d"])
        Globals.init Store.empty).2 "output/f_media.csv" = none ∧
    (process_file Lib.sample sample_parse 10 none "f"
        (some ["\x7b\"id\":1,\"quoted_status\":\x7b\"id\":2,\"extended_entities\":\x7b\"media\":[\x7b\"id\":7\x7d]\x7d\x7d\x7d"])
        Globals.init Store.empty).2 "output/f_tweets.csv" =
      some "1,,,,,,,,0,0,,,,,\n2,,,,,,,,0,0,,,,,\n" :=
  ⟨by decide, by decide, by decide⟩

/-! ## Partial and final outputs have different paths -/

theorem partial_path_rev (b t : String) :
    (partial_path b t).data.reverse =
      (t ++ ".csv").data.reverse ++ ('_' :: ("output/" ++ b).data.reverse) := by
  simp [partial_path, String.data_append]

theorem final_path_rev (t : String) :
    (final_path t).data.reverse = (t ++ ".csv").data.reverse ++ "output/".data.reverse := by
  simp [final_path, String.data_append]

theorem partial_path_base_inj (t b1 b2 : String)
    (h : partial_path b1 t = partial_path b2 t) : b1 = b2 := by
  unfold partial_path at h
  have hd := congrArg String.data h
  simp only [String.data_append] at hd
  have h1 := List.append_cancel_right (List.append_cancel_right (List.append_cancel_right hd))
  exact String.ext (List.append_cancel_left h1)

theorem partial_path_inj (b1 b2 t1 t2 : String) (h1 : t1 ∈ table_names) (h2 : t2 ∈ table_names)
    (h : partial_path b1 t1 = partial_path b2 t2) : t1 = t2 := by
  have hr := congrArg List.reverse (congrArg String.data h)
  rw [partial_path_rev, partial_path_rev] at hr
  simp only [table_names, List.mem_cons, List.mem_singleton, List.not_mem_nil, or_false] at h1 h2
  rcases h1 with rfl | rfl | rfl | rfl | rfl | rfl | rfl <;>
    rcases h2 with rfl | rfl | rfl | rfl | rfl | rfl | rfl <;>
    first
    | rfl
    | (exfalso; revert hr; simp [String.data_append])

theorem partial_ne_final (b t1 t2 : String) (h1 : t1 ∈ table_names) (h2 : t2 ∈ table_names) :
    partial_path b t1 ≠ final_path t2 := by
  intro h
  have hr := congrArg List.reverse (congrArg String.data h)
  rw [partial_path_rev, final_path_rev] at hr
  simp only [table_names, List.mem_cons, List.mem_singleton, List.not_mem_nil, or_false] at h1 h2
  rcases h1 with rfl | rfl | rfl | rfl | rfl | rfl | rfl <;>
    rcases h2 with rfl | rfl | rfl | rfl | rfl | rfl | rfl <;>
    (revert hr; simp [String.data_append])

theorem final_path_inj (t1 t2 : String) (h : final_path t1 = final_path t2) : t1 = t2 := by
  unfold final_path at h
  have hd := congrArg String.data h
  simp only [String.data_append] at hd
  exact String.ext (List.append_cancel_left (List.append_cancel_right hd))

/-! ## The merge stage (C18) -/

theorem merge_files_store (t : String) : ∀ (files : List String) (acc : Store × OutStream)
    (p : String),
    (merge_files t files acc).1 p =
      if p ∈ files.map (fun b => partial_path b t) then none else acc.1 p := by
  intro files
  induction files with
  | nil => intro acc p; simp [merge_files]
  | cons b rest ih =>
    intro acc p
    cases hb : acc.1 (partial_path b t) with
    | none =>
      simp only [merge_files, hb, ih, List.map_cons, List.mem_cons]
      by_cases hp : p = partial_path b t
      · subst hp
        simp [hb]
      · simp [hp]
    | some c =>
      simp only [merge_files, hb, ih, List.map_cons, List.mem_cons, Store.remove]
      by_cases hp : p = partial_path b t
      · simp [hp]
      · simp [hp]

theorem concat_partials_congr (t : String) (st1 st2 : Store) :
    ∀ files : List String, (∀ b ∈ files, st1 (partial_path b t) = st2 (partial_path b t)) →
      concat_partials st1 t files = concat_partials st2 t files := by
  intro files
  induction files with
  | nil => intro _; rfl
  | cons b rest ih =>
    intro h
    simp only [concat_partials]
    rw [h b (List.mem_cons_self _ _), ih (fun b' hb' => h b' (List.mem_cons_of_mem _ hb'))]

theorem merge_files_text (t : String) : ∀ (files : List String) (st : Store) (out : OutStream),
    files.Nodup → (∀ b ∈ files, st (partial_path b t) ≠ some "") → out.good = true →
    (merge_files t files (st, out)).2.good = true ∧
      (merge_files t files (st, out)).2.text = out.text ++ concat_partials st t files := by
  intro files
  induction files with
  | nil =>
    intro st out _ _ hg
    exact ⟨hg, by simp [merge_files, concat_partials]⟩
  | cons b rest ih =>
    intro st out hnd hne hg
    simp only [List.nodup_cons] at hnd
    cases hb : st (partial_path b t) with
    | none =>
      have e : merge_files t (b :: rest) (st, out) = merge_files t rest (st, out) := by
        simp [merge_files, hb]
      rw [e]
      have := ih st out hnd.2 (fun b' hb' => hne b' (List.mem_cons_of_mem _ hb')) hg
      refine ⟨this.1, ?_⟩
      rw [this.2]
      simp [concat_partials, hb]
    | some c =>
      have hc : c ≠ "" := fun e => hne b (List.mem_cons_self _ _) (by rw [hb, e])
      have e : merge_files t (b :: rest) (st, out) =
          merge_files t rest (st.remove (partial_path b t),
            { text := out.text ++ c, good := true }) := by
        have ha : append_rdbuf out c = { text := out.text ++ c, good := true } := by
          cases out with
          | mk text good =>
            simp only at hg
            subst hg
            simp [append_rdbuf, hc]
        simp [merge_files, hb, ha]
      rw [e]
      have hsame : ∀ b' ∈ rest, (st.remove (partial_path b t)) (partial_path b' t) =
          st (partial_path b' t) := by
        intro b' hb'
        have hne' : partial_path b' t ≠ partial_path b t := by
          intro hp
          have := partial_path_base_inj t b' b hp
          exact hnd.1 (this ▸ hb')
        simp [Store.remove, hne']
      have := ih (st.remove (partial_path b t)) { text := out.text ++ c, good := true } hnd.2
        (fun b' hb' => by
          rw [hsame b' hb']
          exact hne b' (List.mem_cons_of_mem _ hb')) rfl
      refine ⟨this.1, ?_⟩
      rw [this.2, concat_partials_congr t _ st rest hsame]
      simp [concat_partials, hb, String.append_assoc]

theorem merge_table_other (files : List String) (st : Store) (t p : String)
    (hp : p ≠ final_path t) :
    merge_table files st t p =
      if p ∈ files.map (fun b => partial_path b t) then none else st p := by
  simp only [merge_table, Store.write, hp, if_false, merge_files_store]

theorem merge_table_final (files : List String) (st : Store) (t : String)
    (ht : t ∈ table_names) (hnd : files.Nodup)
    (hne : ∀ b ∈ files, st (partial_path b t) ≠ some "") :
    merge_table files st t (final_path t) = some (concat_partials st t files) := by
  have hsame : ∀ b ∈ files, (st.write (final_path t) "") (partial_path b t) =
      st (partial_path b t) := by
    intro b _
    simp [Store.write, partial_ne_final b t t ht ht]
  have h := merge_files_text t files (st.write (final_path t) "") { text := "", good := true }
    hnd (fun b hb => by rw [hsame b hb]; exact hne b hb) rfl
  simp only [merge_table, Store.write, if_true]
  rw [h.2, concat_partials_congr t _ st files hsame]
  simp

theorem merge_tables_frame (files : List String) (p : String) :
    ∀ (ts : List String) (st : Store),
      (∀ t ∈ ts, p ≠ final_path t ∧ ∀ b ∈ files, p ≠ partial_path b t) →
      ts.foldl (merge_table files) st p = st p := by
  intro ts
  induction ts with
  | nil => intro st _; rfl
  | cons t rest ih =>
    intro st h
    simp only [List.foldl_cons]
    rw [ih _ (fun t' ht' => h t' (List.mem_cons_of_mem _ ht'))]
    have ht := h t (List.mem_cons_self _ _)
    rw [merge_table_other files st t p ht.1]
    have : p ∉ files.map (fun b => partial_path b t) := by
      intro hm
      obtain ⟨b, hb, e⟩ := List.mem_map.mp hm
      exact ht.2 b hb e.symm
    simp [this]

theorem merge_tables_result (files : List String) (hnd : files.Nodup) :
    ∀ (ts : List String) (st : Store), ts.Nodup → (∀ t ∈ ts, t ∈ table_names) →
      (∀ t ∈ ts, ∀ b ∈ files, st (partial_path b t) ≠ some "") →
      ∀ t ∈ ts,
        ts.foldl (merge_table files) st (final_path t) = some (concat_partials st t files) ∧
        ∀ b ∈ files, ts.foldl (merge_table files) st (partial_path b t) = none := by
  intro ts
  induction ts with
  | nil => intro st _ _ _ t ht; simp at ht
  | cons t0 rest ih =>
    intro st hts hsub hne t ht
    simp only [List.nodup_cons] at hts
    simp only [List.foldl_cons]
    have ht0 : t0 ∈ table_names := hsub t0 (List.mem_cons_self _ _)
    rcases List.mem_cons.mp ht with rfl | htr
    · have hfinal : ∀ t' ∈ rest, final_path t ≠ final_path t' ∧
          ∀ b ∈ files, final_path t ≠ partial_path b t' := by
        intro t' ht'
        refine ⟨fun e => hts.1 (final_path_inj _ _ e ▸ ht'), fun b _ e => ?_⟩
        exact partial_ne_final b t' t (hsub t' (List.mem_cons_of_mem _ ht')) ht0 e.symm
      refine ⟨?_, fun b hb => ?_⟩
      · rw [merge_tables_frame files _ rest _ hfinal]
        exact merge_table_final files st t ht0 hnd (hne t (List.mem_cons_self _ _))
      · have hpart : ∀ t' ∈ rest, partial_path b t ≠ final_path t' ∧
            ∀ b' ∈ files, partial_path b t ≠ partial_path b' t' := by
          intro t' ht'
          have ht'n := hsub t' (List.mem_cons_of_mem _ ht')
          refine ⟨partial_ne_final b t t' ht0 ht'n, fun b' _ e => ?_⟩
          exact hts.1 (partial_path_inj b b' t t' ht0 ht'n e ▸ ht')
        rw [merge_tables_frame files _ rest _ hpart,
          merge_table_other files st t _ (partial_ne_final b t t ht0 ht0)]
        simp [List.mem_map_of_mem _ hb]
    · have htn : t ∈ table_names := hsub t ht
      have hne0 : t ≠ t0 := fun e => hts.1 (e ▸ htr)
      have hsame : ∀ b ∈ files, merge_table files st t0 (partial_path b t) =
          st (partial_path b t) := by
        intro b _
        rw [merge_table_other files st t0 _ (partial_ne_final b t t0 htn ht0)]
        have : partial_path b t ∉ files.map (fun b' => partial_path b' t0) := by
          intro hm
          obtain ⟨b', _, e⟩ := List.mem_map.mp hm
          exact hne0 (partial_path_inj b b' t t0 htn ht0 e.symm)
        simp [this]
      have hne1 : ∀ t' ∈ rest, ∀ b ∈ files,
          merge_table files st t0 (partial_path b t') ≠ some "" := by
        intro t' ht' b hb
        have ht'n := hsub t' (List.mem_cons_of_mem _ ht')
        rw [merge_table_other files st t0 _ (partial_ne_final b t' t0 ht'n ht0)]
        split
        · simp
        · exact hne t' (List.mem_cons_of_mem _ ht') b hb
      have := ih (merge_table files st t0) hts.2
        (fun t' ht' => hsub t' (List.mem_cons_of_mem _ ht')) hne1 t htr
      refine ⟨?_, this.2⟩
      rw [this.1, concat_partials_congr t _ st files hsame]

/-- C18. The merge stage on a store of files.  The file list names each input file
once, and no existing partial of a listed file is empty (a partial written by
`csv_write_rows` never is).  Then, for each of the seven tables, the final output
holds the contents of the existing partials of that table joined in file-list
order, a missing partial contributing nothing; no partial of a listed file
exists afterwards; and every path that is neither a final output nor such a
partial is left as it was. -/
theorem merge_stage_concatenates (files : List String) (st : Store) (hnd : files.Nodup)
    (hne : ∀ t ∈ table_names, ∀ b ∈ files, st (partial_path b t) ≠ some "") :
    (∀ t ∈ table_names,
      merge_stage files st (final_path t) = some (concat_partials st t files) ∧
      ∀ b ∈ files, merge_stage files st (partial_path b t) = none) ∧
    (∀ p : String, (∀ t ∈ table_names, p ≠ final_path t ∧ ∀ b ∈ files, p ≠ partial_path b t) →
      merge_stage files st p = st p) :=
  ⟨fun t ht => merge_tables_result files hnd table_names st (by decide) (fun _ h => h) hne t ht,
    fun p hp => merge_tables_frame files p table_names st hp⟩

/-- Witness for C18: the files `a`, `b`, `c` over the sample store, in which `b` has
no users partial. -/
theorem merge_stage_concatenates_witness :
    (["a", "b", "c"].Nodup ∧
      ∀ t ∈ table_names, ∀ b ∈ ["a", "b", "c"], sample_store (partial_path b t) ≠ some "") ∧
    merge_stage ["a", "b", "c"] sample_store (final_path "users") = some "1,x\n3,z\n" ∧
    merge_stage ["a", "b", "c"] sample_store (partial_path "a" "users") = none ∧
    merge_stage ["a", "b", "c"] sample_store (final_path "places") = some "" ∧
    merge_stage ["a", "b", "c"] sample_store "output/notes.txt" = some "keep" := by
  have hnd : ["a", "b", "c"].Nodup := by decide
  have hne : ∀ t ∈ table_names, ∀ b ∈ ["a", "b", "c"],
      sample_store (partial_path b t) ≠ some "" := by decide
  have h := merge_stage_concatenates ["a", "b", "c"] sample_store hnd hne
  refine ⟨⟨hnd, hne⟩, ?_, ?_, ?_, ?_⟩
  · exact (h.1 "users" (by decide)).1
  · exact (h.1 "users" (by decide)).2 "a" (by decide)
  · exact (h.1 "places" (by decide)).1
  · have hf : ∀ t ∈ table_names, "output/notes.txt" ≠ final_path t ∧
        ∀ b ∈ ["a", "b", "c"], "output/notes.txt" ≠ partial_path b t := by decide
    exact h.2 "output/notes.txt" hf

/-! ## Partial outputs are never empty -/

theorem csv_text_ne_empty (rows : List Row) (h : rows ≠ []) : csv_text rows ≠ "" := by
  cases rows with
  | nil => exact absurd rfl h
  | cons r rest =>
    intro e
    have hd := congrArg String.data e
    simp [csv_text, csv_line, String.data_append] at hd

theorem csv_write_rows_no_empty (path : String) (rows : List Row) (st : Store)
    (h : ∀ p, st p ≠ some "") : ∀ p, csv_write_rows path rows st p ≠ some "" := by
  intro p
  unfold csv_write_rows
  by_cases hr : rows = []
  · simp only [hr, if_true]
    exact h p
  · simp only [hr, if_false, Store.write]
    by_cases hp : p = path
    · simp only [hp, if_true]
      intro e
      have hd := congrArg String.data (Option.some.inj e)
      have hne := csv_text_ne_empty rows hr
      simp only [String.data_append] at hd
      have : (csv_text rows).data = [] := (List.append_eq_nil.mp hd).2
      exact hne (String.ext this)
    · simp only [hp, if_false]
      exact h p

theorem flush_batch_no_empty (base : String) (tb : ThreadTables) (st : Store)
    (h : ∀ p, st p ≠ some "") : ∀ p, flush_batch base tb st p ≠ some "" := by
  unfold flush_batch
  exact foldl_inv_mem (fun acc nr => csv_write_rows (partial_path base nr.1) nr.2 acc)
    (fun st => ∀ p, st p ≠ some "") (table_rows tb)
    (fun nr _ st' h' => csv_write_rows_no_empty _ _ st' h') st h

/-- Starting from a store without empty files, `process_file` leaves none: every
partial it creates holds at least one row. -/
theorem process_lines_no_empty (lib : Lib) (parse : String → Option Json) (bs : Int)
    (mx : Option Int) (base : String) :
    ∀ (lines : List String) (n : Int) (s : State) (st : Store), (∀ p, st p ≠ some "") →
      ∀ p, (process_lines lib parse bs mx base lines n s st).2 p ≠ some "" := by
  intro lines
  induction lines with
  | nil => intro n s st h; exact flush_batch_no_empty base s.tb st h
  | cons line rest ih =>
    intro n s st h
    cases hb : is_blank line with
    | true =>
      rw [process_lines_blank _ _ _ _ _ _ _ _ _ _ hb]
      exact ih n s st h
    | false =>
      cases ho : over_limit mx (n + 1) with
      | true =>
        rw [process_lines_limit _ _ _ _ _ _ _ _ _ _ hb ho]
        exact flush_batch_no_empty base s.tb st h
      | false =>
        cases hp : parse line with
        | none =>
          rw [process_lines_parse_fail _ _ _ _ _ _ _ _ _ _ hb ho hp]
          exact flush_batch_no_empty base s.tb st h
        | some tj =>
          cases hm : merge_line tj with
          | error e =>
            rw [process_lines_merge_fail _ _ _ _ _ _ _ _ _ _ tj e hb ho hp hm]
            exact h
          | ok merged =>
            by_cases hf : Int.tmod (n + 1) bs = 0
            · rw [process_lines_flush _ _ _ _ _ _ _ _ _ _ tj merged hb ho hp hm hf]
              exact ih _ _ _ (flush_batch_no_empty base _ st h)
            · rw [process_lines_keep _ _ _ _ _ _ _ _ _ _ tj merged hb ho hp hm hf]
              exact ih _ _ _ h

/-! ## The records of `hashtags.csv` (C19) -/

/-- Counterexample to C19 as stated.  Reversal is one of the orders in which an
unordered map may hand out its entries.  After the single record
`{"id":1,"entities":{"hashtags":[{"text":"a"},{"text":"b"}]}}` the texts `a` and `b`
have ids 1 and 2, and with that order the first record of `hashtags.csv` is
`2,b`, not `1,a`. -/
theorem hashtags_csv_not_in_assignment_order :
    (∀ m : List (String × Int), (List.reverse m).Perm m) ∧
    (run Lib.sample
      [.obj [("id", .num_int 1),
        ("entities", .obj [("hashtags", .arr [.obj [("text", .str "a")],
          .obj [("text", .str "b")]])])]]).g.hashtags_map = [("a", 1), ("b", 2)] ∧
    hashtags_csv List.reverse (run Lib.sample
      [.obj [("id", .num_int 1),
        ("entities", .obj [("hashtags", .arr [.obj [("text", .str "a")],
          .obj [("text", .str "b")]])])]]).g = ["2,b\n", "1,a\n"] ∧
    ("2,b\n" : String) ≠ "1,a\n" :=
  ⟨fun m => List.reverse_perm m, by decide, by decide, by decide⟩

/-- C19 (amended). Whatever the order `iter` in which the unordered map hands out its
entries, `hashtags.csv` holds one record `id,<quoted text>` for each dictionary
entry and nothing else: its records are a rearrangement of the records of the
entries taken in assignment order, the k-th of which carries id k, for k from 1 to
N.  The records need not stand in that order. -/
theorem hashtags_csv_lists_dictionary (iter : List (String × Int) → List (String × Int))
    (hiter : ∀ m, (iter m).Perm m) (lib : Lib) (recs : List Json) :
    (hashtags_csv iter (run lib recs).g).Perm
      ((run lib recs).g.hashtags_map.map hashtag_line) ∧
    (run lib recs).g.hashtags_map.map Prod.snd =
      ids_upto (run lib recs).g.hashtags_map.length ∧
    (hashtags_csv iter (run lib recs).g).length = (run lib recs).g.hashtags_map.length := by
  refine ⟨(hiter _).map hashtag_line, (hashtags_dense lib recs).1, ?_⟩
  unfold hashtags_csv
  rw [List.length_map]
  exact (hiter _).length_eq

/-- Witness for the amended C19: the order that reverses the entries, after a record
with the hashtags `a` and `b`. -/
theorem hashtags_csv_lists_dictionary_witness :
    (∀ m : List (String × Int), (List.reverse m).Perm m) ∧
    (hashtags_csv List.reverse (run Lib.sample
      [.obj [("id", .num_int 1),
        ("entities", .obj [("hashtags", .arr [.obj [("text", .str "a")],
          .obj [("text", .str "b")]])])]]).g).Perm
      ((run Lib.sample
        [.obj [("id", .num_int 1),
          ("entities", .obj [("hashtags", .arr [.obj [("text", .str "a")],
            .obj [("text", .str "b")]])])]]).g.hashtags_map.map hashtag_line) :=
  ⟨fun m => List.reverse_perm m,
    (hashtags_csv_lists_dictionary List.reverse (fun m => List.reverse_perm m) Lib.sample _).1⟩

/-! ## Referential integrity of the registries (C23) -/

theorem check_insert_mem_iff {α : Type} [DecidableEq α] (x y : α) (set : List α) :
    y ∈ (check_insert x set).1 ↔ y = x ∨ y ∈ set := by
  unfold check_insert
  by_cases hx : x ∈ set
  · rw [if_pos hx]
    constructor
    · intro h; exact Or.inr h
    · rintro (h | h)
      · rw [h]; exact hx
      · exact h
  · rw [if_neg hx]
    exact set_insert_mem_iff x y set

theorem hashtag_step_refs (lib : Lib) (p : Int) (s : State) (x : Json)
    (h : refs_closed s.g ∧ p ∈ s.g.tweets_set) :
    refs_closed (hashtag_step lib p s x).g ∧ p ∈ (hashtag_step lib p s x).g.tweets_set := by
  obtain ⟨⟨h1, h2, h3, h4⟩, hp⟩ := h
  refine ⟨⟨?_, h2, h3, h4⟩, hp⟩
  intro k hk
  cases hf : map_find (str_tolower (sget lib x "text")) s.g.hashtags_map with
  | some hid =>
    simp only [hashtag_step, hf, Option.isNone_some, Bool.false_eq_true, if_false,
      Option.getD_some] at hk ⊢
    rcases (check_insert_mem_iff _ _ _).mp hk with e | e
    · rw [e]
      exact ⟨hp, List.mem_map.mpr ⟨_, map_find_some_mem _ _ _ hf, rfl⟩⟩
    · exact h1 k e
  | none =>
    simp only [hashtag_step, hf, Option.isNone_none, if_true, Option.getD_none,
      List.map_append, List.map_cons, List.map_nil, List.mem_append, List.mem_singleton] at hk ⊢
    rcases (check_insert_mem_iff _ _ _).mp hk with e | e
    · rw [e]
      exact ⟨hp, Or.inr rfl⟩
    · exact ⟨(h1 k e).1, Or.inl (h1 k e).2⟩

theorem mention_step_refs (lib : Lib) (p : Int) (s : State) (x : Json)
    (h : refs_closed s.g ∧ p ∈ s.g.tweets_set) :
    refs_closed (mention_step lib p s x).g ∧ p ∈ (mention_step lib p s x).g.tweets_set := by
  obtain ⟨⟨h1, h2, h3, h4⟩, hp⟩ := h
  refine ⟨⟨h1, h2, h3, ?_⟩, hp⟩
  intro k hk
  have hk' : k ∈ (check_insert (iget_ll x "id", p) s.g.user_mentions_set).1 := hk
  show k.2 ∈ s.g.tweets_set ∧ k.1 ∈ (check_insert (iget_ll x "id") s.g.users_set).1
  rcases (check_insert_mem_iff _ _ _).mp hk' with e | e
  · rw [e]
    exact ⟨hp, check_insert_mem _ _⟩
  · exact ⟨(h4 k e).1, check_insert_mono _ _ _ (h4 k e).2⟩

theorem parse_body_refs (lib : Lib) (t : Json) (s : State) (h : refs_closed s.g) :
    refs_closed (parse_body lib t s).g := by
  refine (parse_body_stages lib t (fun s => refs_closed s.g) (fun s => refs_closed s.g)
    (fun s => refs_closed s.g) (fun s => refs_closed s.g ∧ post_id t ∈ s.g.tweets_set)
    ?_ ?_ ?_ ?_ ?_ ?_ ?_ s h).1
  · intro s h
    obtain ⟨h1, h2, h3, h4⟩ := h
    exact ⟨h1, h2, h3, fun k hk => ⟨(h4 k hk).1, check_insert_mono _ _ _ (h4 k hk).2⟩⟩
  · intro s h
    unfold parse_place
    split <;> exact h
  · intro s h
    obtain ⟨h1, h2, h3, h4⟩ := h
    exact ⟨⟨fun k hk => ⟨check_insert_mono _ _ _ (h1 k hk).1, (h1 k hk).2⟩,
      fun k hk => check_insert_mono _ _ _ (h2 k hk),
      fun k hk => check_insert_mono _ _ _ (h3 k hk),
      fun k hk => ⟨check_insert_mono _ _ _ (h4 k hk).1, (h4 k hk).2⟩⟩, check_insert_mem _ _⟩
  · intro s x h; exact hashtag_step_refs lib _ s x h
  · intro s x h
    obtain ⟨⟨h1, h2, h3, h4⟩, hp⟩ := h
    refine ⟨⟨h1, ?_, h3, h4⟩, hp⟩
    intro k hk
    rcases (check_insert_mem_iff _ _ _).mp hk with e | e
    · rw [e]; exact hp
    · exact h2 k e
  · intro s x h
    obtain ⟨⟨h1, h2, h3, h4⟩, hp⟩ := h
    refine ⟨⟨h1, h2, ?_, h4⟩, hp⟩
    intro k hk
    rcases (check_insert_mem_iff _ _ _).mp hk with e | e
    · rw [e]; exact hp
    · exact h3 k e
  · intro s x h; exact mention_step_refs lib _ s x h

/-- C23. After any sequence of records processed from empty registries the
registries are referentially closed: the post id of every post-hashtag, url, media
and mention key is in the posts registry, the hashtag id of every post-hashtag
key is an id of the hashtag dictionary, and the user id of every mention key is
in the users registry. -/
theorem registries_referentially_closed (lib : Lib) (recs : List Json) :
    (∀ k ∈ (run lib recs).g.tweet_hashtags_set,
      k.1 ∈ (run lib recs).g.tweets_set ∧
      k.2 ∈ (run lib recs).g.hashtags_map.map Prod.snd) ∧
    (∀ k ∈ (run lib recs).g.urls_set, k.1 ∈ (run lib recs).g.tweets_set) ∧
    (∀ k ∈ (run lib recs).g.media_set, k.1 ∈ (run lib recs).g.tweets_set) ∧
    (∀ k ∈ (run lib recs).g.user_mentions_set,
      k.2 ∈ (run lib recs).g.tweets_set ∧ k.1 ∈ (run lib recs).g.users_set) := by
  have h : refs_closed (run lib recs).g := by
    unfold run
    rw [process_records_eq_fold]
    refine fold_body_inv lib (fun s => refs_closed s.g)
      (fun t s hs => parse_body_refs lib t s hs) _ _ ?_
    exact ⟨fun k hk => absurd hk (List.not_mem_nil k), fun k hk => absurd hk (List.not_mem_nil k),
      fun k hk => absurd hk (List.not_mem_nil k), fun k hk => absurd hk (List.not_mem_nil k)⟩
  exact h

/-! ## The stub ledger and the users rows (C24) -/

theorem push_if_check {α : Type} [DecidableEq α] (x : α) (set : List α) (rows : List Row)
    (row : Row) :
    push_if (check_insert x set).2 rows row = if x ∈ set then rows else rows ++ [row] := by
  unfold check_insert set_insert push_if
  by_cases hx : x ∈ set <;> simp [hx]

theorem rows_of_user_push_other (x y : Int) (rows : List Row) (row : Row)
    (hrow : carries_user y row) (hxy : x ≠ y) :
    rows_of_user x (rows ++ [row]) = rows_of_user x rows := by
  have hc : ¬ carries_user x row := fun hx => hxy (carries_user_unique x y row hx hrow)
  unfold rows_of_user
  simp [List.filter_append, List.filter_cons, hc]

theorem rows_of_user_push_new (x : Int) (rows : List Row) (set : List Int) (row : Row)
    (hagree : List.Forall₂ (fun r v => carries_user v r) rows set) (hx : x ∉ set)
    (hrow : carries_user x row) : rows_of_user x (rows ++ [row]) = [row] := by
  have hlen : (rows_of_user x rows).length = 0 := by
    rw [rows_of_user_length x rows set hagree]
    exact List.count_eq_zero_of_not_mem hx
  have hnil : rows_of_user x rows = [] := List.length_eq_zero.mp hlen
  unfold rows_of_user at hnil ⊢
  simp [List.filter_append, List.filter_cons, hrow, hnil]

theorem parse_users_ledger_stubs (lib : Lib) (pool : List Json) (t : Json) (s : State)
    (h : ledger_stubs lib pool s) : ledger_stubs lib pool (parse_users lib t s) := by
  obtain ⟨hag, hl⟩ := h
  refine ⟨check_insert_rows (fun r u => carries_user u r) _ _ _ _ (Or.inl rfl) hag, ?_⟩
  intro x hx
  obtain ⟨hxu, um, hum, hid, hrows⟩ := hl x (set_erase_subset _ _ _ hx)
  refine ⟨check_insert_mono _ _ _ hxu, um, hum, hid, ?_⟩
  show rows_of_user x (push_if (check_insert (iget_ll (tweet_user t) "id") s.g.users_set).2
    s.tb.users (user_row lib (tweet_user t) (iget_ll (tweet_user t) "id"))) = _
  rw [push_if_check]
  by_cases hin : iget_ll (tweet_user t) "id" ∈ s.g.users_set
  · rw [if_pos hin]; exact hrows
  · rw [if_neg hin, rows_of_user_push_other x (iget_ll (tweet_user t) "id") s.tb.users
      (user_row lib (tweet_user t) (iget_ll (tweet_user t) "id")) (Or.inl rfl)
      (fun e => hin (e ▸ hxu))]
    exact hrows

theorem mention_step_ledger_stubs (lib : Lib) (pool : List Json) (p : Int) (s : State)
    (um : Json) (hpool : um ∈ pool) (h : ledger_stubs lib pool s) :
    ledger_stubs lib pool (mention_step lib p s um) := by
  obtain ⟨hag, hl⟩ := h
  refine ⟨check_insert_rows (fun r u => carries_user u r) _ _ _ _ (Or.inr rfl) hag, ?_⟩
  intro x hx
  have hx' : x ∈ (if decide (iget_ll um "id" ∉ s.g.users_set) = true then
      (set_insert (iget_ll um "id") s.g.missing_mentioned_users_set).1
    else s.g.missing_mentioned_users_set) := hx
  show x ∈ (check_insert (iget_ll um "id") s.g.users_set).1 ∧
    ∃ um' ∈ pool, iget_ll um' "id" = x ∧
      rows_of_user x (push_if (check_insert (iget_ll um "id") s.g.users_set).2 s.tb.users
        (stub_user_row lib um (iget_ll um "id"))) = [stub_user_row lib um' x]
  rw [push_if_check]
  by_cases hin : iget_ll um "id" ∈ s.g.users_set
  · simp only [hin, not_true_eq_false, decide_False, Bool.false_eq_true, if_false] at hx'
    obtain ⟨hxu, um', hum', hid, hrows⟩ := hl x hx'
    rw [if_pos hin]
    exact ⟨check_insert_mono _ _ _ hxu, um', hum', hid, hrows⟩
  · simp only [hin, not_false_eq_true, decide_True, if_true] at hx'
    rw [if_neg hin]
    by_cases hxe : x = iget_ll um "id"
    · subst hxe
      exact ⟨check_insert_mem _ _, um, hpool, rfl,
        rows_of_user_push_new _ _ _ _ hag.1 hin (Or.inr rfl)⟩
    · rcases (set_insert_mem_iff _ _ _).mp hx' with e | e
      · exact absurd e hxe
      · obtain ⟨hxu, um', hum', hid, hrows⟩ := hl x e
        refine ⟨check_insert_mono _ _ _ hxu, um', hum', hid, ?_⟩
        rw [rows_of_user_push_other x (iget_ll um "id") s.tb.users
          (stub_user_row lib um (iget_ll um "id")) (Or.inr rfl) hxe]
        exact hrows

theorem parse_body_ledger_stubs (lib : Lib) (pool : List Json) (t : Json)
    (hpool : ∀ um ∈ entity_items (tweet_entities t) "user_mentions", um ∈ pool) (s : State)
    (h : ledger_stubs lib pool s) : ledger_stubs lib pool (parse_body lib t s) := by
  rw [parse_body_eq, for_entities_eq]
  refine foldl_inv_mem (mention_step lib (post_id t)) (ledger_stubs lib pool) _
    (fun um hum s' hs' => mention_step_ledger_stubs lib pool _ s' um (hpool um hum) hs') _ ?_
  refine for_entities_inv (ledger_stubs lib pool) _ _ (media_step lib (post_id t))
    (fun s y hs => hs) _ ?_
  refine for_entities_inv (ledger_stubs lib pool) _ _ (url_step lib (post_id t))
    (fun s y hs => hs) _ ?_
  refine for_entities_inv (ledger_stubs lib pool) _ _ (hashtag_step lib (post_id t))
    (fun s y hs => hs) _ ?_
  have h1 := parse_users_ledger_stubs lib pool t s h
  have h2 : ledger_stubs lib pool (parse_place lib t (parse_users lib t s)) := by
    unfold parse_place
    split <;> exact h1
  exact h2

theorem run_ledger_stubs (lib : Lib) (recs : List Json) :
    ledger_stubs lib (seen_mentions recs) (run lib recs) := by
  unfold run
  rw [process_records_eq_fold]
  refine foldl_inv_mem (fun acc r => parse_body lib r acc)
    (ledger_stubs lib (seen_mentions recs)) _ ?_ _ ?_
  · intro t ht s hs
    refine parse_body_ledger_stubs lib _ t ?_ s hs
    intro um hum
    unfold seen_mentions
    exact List.mem_flatMap.mpr ⟨t, ht, hum⟩
  · exact ⟨⟨List.Forall₂.nil, List.nodup_nil⟩, fun x hx => absurd hx (List.not_mem_nil x)⟩

/-- C24. After any sequence of records processed one after another from empty
registries: every id of the stub ledger is in the users registry; its one users
row is the stub row (`id`, screen name and name of the mention, three empty
cells, three counts `0`, three empty cells) of a mention item met in the
sequence that carries this id; and no record the sequence made `parse_tweet`
run on has this id as its author, so no complete author row was ever built for
it. -/
theorem stub_ledger_rows_are_stubs (lib : Lib) (recs : List Json) :
    ∀ x ∈ (run lib recs).g.missing_mentioned_users_set,
      x ∈ (run lib recs).g.users_set ∧
      (∃ um ∈ seen_mentions recs, iget_ll um "id" = x ∧
        rows_of_user x (run lib recs).tb.users =
          [[id_cell x, sget lib um "screen_name", sget lib um "name",
            "", "", "", "0", "0", "0", "", "", ""]]) ∧
      x ∉ (visited_all recs).map author_id := by
  intro x hx
  obtain ⟨hxu, um, hum, hid, hrows⟩ := (run_ledger_stubs lib recs).2 x hx
  refine ⟨hxu, ⟨um, hum, hid, hrows⟩, ?_⟩
  intro hmem
  obtain ⟨r, hr, hrx⟩ := List.mem_map.mp hmem
  have hnot : author_id r ∉ (run lib recs).g.missing_mentioned_users_set := by
    unfold run
    rw [process_records_eq_fold]
    exact (fold_body_reach lib
      (fun t s => author_id t ∈ s.g.users_set ∧ author_id t ∉ s.g.missing_mentioned_users_set)
      (parse_body_author lib)
      (fun t t' s h => parse_body_keeps_author lib (author_id t) t' s h)
      (visited_all recs) State.init r hr).2
  exact hnot (hrx ▸ hx)

/-- Witness for C24: after the record `sample_mention` alone, user 9 is in the
ledger. -/
theorem stub_ledger_rows_are_stubs_witness :
    (9 : Int) ∈ (run Lib.sample [sample_mention]).g.missing_mentioned_users_set ∧
    ((9 : Int) ∈ (run Lib.sample [sample_mention]).g.users_set ∧
      (∃ um ∈ seen_mentions [sample_mention], iget_ll um "id" = 9 ∧
        rows_of_user 9 (run Lib.sample [sample_mention]).tb.users =
          [[id_cell 9, sget Lib.sample um "screen_name", sget Lib.sample um "name",
            "", "", "", "0", "0", "0", "", "", ""]]) ∧
      (9 : Int) ∉ (visited_all [sample_mention]).map author_id) :=
  ⟨by decide, stub_ledger_rows_are_stubs Lib.sample [sample_mention] 9 (by decide)⟩

/-! ## A second run of `parse_tweet` changes nothing (C22) -/

theorem check_insert_of_mem {α : Type} [DecidableEq α] (x : α) (set : List α) (h : x ∈ set) :
    check_insert x set = (set, false) := by
  unfold check_insert
  rw [if_pos h]

theorem set_erase_of_not_mem {α : Type} [DecidableEq α] (x : α) (s : List α) (h : x ∉ s) :
    set_erase x s = s := by
  unfold set_erase
  rw [List.filter_eq_self]
  intro y hy
  exact decide_eq_true (fun e => h (e ▸ hy))

theorem parse_users_fix (lib : Lib) (t : Json) (s : State)
    (h : author_id t ∈ s.g.users_set ∧ author_id t ∉ s.g.missing_mentioned_users_set) :
    parse_users lib t s = s := by
  have e1 : check_insert (iget_ll (tweet_user t) "id") s.g.users_set = (s.g.users_set, false) :=
    check_insert_of_mem _ _ h.1
  have e2 : set_erase (iget_ll (tweet_user t) "id") s.g.missing_mentioned_users_set =
      s.g.missing_mentioned_users_set := set_erase_of_not_mem _ _ h.2
  unfold parse_users
  simp only [e1, e2, push_if]
  rfl

theorem parse_place_fix (lib : Lib) (t : Json) (s : State)
    (h : ∀ plc, t.get? "place" = some plc → plc.is_null = false →
      sget lib plc "id" ∈ s.g.places_set) :
    parse_place lib t s = s := by
  unfold parse_place
  cases hp : t.get? "place" with
  | none => rfl
  | some plc =>
    cases plc with
    | null => rfl
    | _ =>
      simp only [check_insert_of_mem _ _ (h _ hp rfl), push_if]
      rfl

theorem parse_tweets_fix (lib : Lib) (t : Json) (u p : Int) (s : State)
    (h : p ∈ s.g.tweets_set) : parse_tweets lib t u p s = s := by
  unfold parse_tweets
  simp only [check_insert_of_mem _ _ h, push_if]
  rfl

theorem hashtag_step_fix (lib : Lib) (p : Int) (s : State) (x : Json)
    (h : linked p (sget lib x "text") s) : hashtag_step lib p s x = s := by
  obtain ⟨hid, h1, h2⟩ := h
  unfold hashtag_step
  simp only [h1, Option.getD_some, Option.isNone_some, Bool.false_eq_true, if_false,
    check_insert_of_mem _ _ h2, push_if]

theorem url_step_fix (lib : Lib) (p : Int) (s : State) (x : Json)
    (h : (p, sget lib x "url") ∈ s.g.urls_set) : url_step lib p s x = s := by
  unfold url_step
  simp only [check_insert_of_mem _ _ h, push_if]
  rfl

theorem media_step_fix (lib : Lib) (p : Int) (s : State) (x : Json)
    (h : (p, iget_ll x "id") ∈ s.g.media_set) : media_step lib p s x = s := by
  unfold media_step
  simp only [check_insert_of_mem _ _ h, push_if]
  rfl

theorem mention_step_fix (lib : Lib) (p : Int) (s : State) (x : Json)
    (h : (iget_ll x "id", p) ∈ s.g.user_mentions_set ∧ iget_ll x "id" ∈ s.g.users_set) :
    mention_step lib p s x = s := by
  unfold mention_step
  simp only [check_insert_of_mem _ _ h.1, check_insert_of_mem _ _ h.2, push_if, h.2,
    not_true_eq_false, decide_False, Bool.false_eq_true, if_false]

theorem foldl_fix {σ ι : Type} (step : σ → ι → σ) (s : σ) :
    ∀ (xs : List ι), (∀ x ∈ xs, step s x = s) → xs.foldl step s = s := by
  intro xs
  induction xs with
  | nil => intro _; rfl
  | cons x rest ih =>
    intro h
    rw [List.foldl_cons, h x (List.mem_cons_self _ _)]
    exact ih (fun y hy => h y (List.mem_cons_of_mem _ hy))

theorem parse_body_fix (lib : Lib) (t : Json) (s : State) (h : absorbed lib t s) :
    parse_body lib t s = s := by
  obtain ⟨ha, hp, ht, hh, hu, hm, hn⟩ := h
  rw [parse_body_eq, parse_users_fix lib t s ha, parse_place_fix lib t s hp,
    parse_tweets_fix lib t _ _ s ht, for_entities_eq, for_entities_eq, for_entities_eq,
    for_entities_eq]
  rw [foldl_fix (hashtag_step lib (post_id t)) s _
    (fun x hx => hashtag_step_fix lib _ s x (hh _ (List.mem_map.mpr ⟨x, hx, rfl⟩)))]
  rw [foldl_fix (url_step lib (post_id t)) s _ (fun x hx => url_step_fix lib _ s x (hu x hx))]
  rw [foldl_fix (media_step lib (post_id t)) s _ (fun x hx => media_step_fix lib _ s x (hm x hx))]
  exact foldl_fix (mention_step lib (post_id t)) s _
    (fun x hx => mention_step_fix lib _ s x (hn x hx))

theorem parse_body_grows (lib : Lib) (t : Json) (s0 s : State)
    (h : (∀ x ∈ s0.g.users_set, x ∈ s.g.users_set) ∧
      (∀ x ∈ s0.g.places_set, x ∈ s.g.places_set) ∧
      (∀ x ∈ s0.g.urls_set, x ∈ s.g.urls_set) ∧
      (∀ x ∈ s0.g.media_set, x ∈ s.g.media_set) ∧
      (∀ x ∈ s0.g.user_mentions_set, x ∈ s.g.user_mentions_set)) :
    (∀ x ∈ s0.g.users_set, x ∈ (parse_body lib t s).g.users_set) ∧
      (∀ x ∈ s0.g.places_set, x ∈ (parse_body lib t s).g.places_set) ∧
      (∀ x ∈ s0.g.urls_set, x ∈ (parse_body lib t s).g.urls_set) ∧
      (∀ x ∈ s0.g.media_set, x ∈ (parse_body lib t s).g.media_set) ∧
      (∀ x ∈ s0.g.user_mentions_set, x ∈ (parse_body lib t s).g.user_mentions_set) := by
  refine parse_body_stages lib t
    (fun s => (∀ x ∈ s0.g.users_set, x ∈ s.g.users_set) ∧
      (∀ x ∈ s0.g.places_set, x ∈ s.g.places_set) ∧
      (∀ x ∈ s0.g.urls_set, x ∈ s.g.urls_set) ∧
      (∀ x ∈ s0.g.media_set, x ∈ s.g.media_set) ∧
      (∀ x ∈ s0.g.user_mentions_set, x ∈ s.g.user_mentions_set))
    (fun s => (∀ x ∈ s0.g.users_set, x ∈ s.g.users_set) ∧
      (∀ x ∈ s0.g.places_set, x ∈ s.g.places_set) ∧
      (∀ x ∈ s0.g.urls_set, x ∈ s.g.urls_set) ∧
      (∀ x ∈ s0.g.media_set, x ∈ s.g.media_set) ∧
      (∀ x ∈ s0.g.user_mentions_set, x ∈ s.g.user_mentions_set))
    (fun s => (∀ x ∈ s0.g.users_set, x ∈ s.g.users_set) ∧
      (∀ x ∈ s0.g.places_set, x ∈ s.g.places_set) ∧
      (∀ x ∈ s0.g.urls_set, x ∈ s.g.urls_set) ∧
      (∀ x ∈ s0.g.media_set, x ∈ s.g.media_set) ∧
      (∀ x ∈ s0.g.user_mentions_set, x ∈ s.g.user_mentions_set))
    (fun s => (∀ x ∈ s0.g.users_set, x ∈ s.g.users_set) ∧
      (∀ x ∈ s0.g.places_set, x ∈ s.g.places_set) ∧
      (∀ x ∈ s0.g.urls_set, x ∈ s.g.urls_set) ∧
      (∀ x ∈ s0.g.media_set, x ∈ s.g.media_set) ∧
      (∀ x ∈ s0.g.user_mentions_set, x ∈ s.g.user_mentions_set))
    ?_ ?_ ?_ ?_ ?_ ?_ ?_ s h
  · intro s h
    obtain ⟨h1, h2, h3, h4, h5⟩ := h
    exact ⟨fun x hx => check_insert_mono _ _ _ (h1 x hx), h2, h3, h4, h5⟩
  · intro s h
    obtain ⟨h1, h2, h3, h4, h5⟩ := h
    unfold parse_place
    split
    · exact ⟨h1, h2, h3, h4, h5⟩
    · exact ⟨h1, h2, h3, h4, h5⟩
    · exact ⟨h1, fun x hx => check_insert_mono _ _ _ (h2 x hx), h3, h4, h5⟩
  · intro s h; exact h
  · intro s x h; exact h
  · intro s x h
    obtain ⟨h1, h2, h3, h4, h5⟩ := h
    exact ⟨h1, h2, fun y hy => check_insert_mono _ _ _ (h3 y hy), h4, h5⟩
  · intro s x h
    obtain ⟨h1, h2, h3, h4, h5⟩ := h
    exact ⟨h1, h2, h3, fun y hy => check_insert_mono _ _ _ (h4 y hy), h5⟩
  · intro s x h
    obtain ⟨h1, h2, h3, h4, h5⟩ := h
    exact ⟨fun y hy => check_insert_mono _ _ _ (h1 y hy), h2, h3, h4,
      fun y hy => check_insert_mono _ _ _ (h5 y hy)⟩

theorem parse_body_mono (lib : Lib) (t : Json) (s : State) :
    (∀ x ∈ s.g.users_set, x ∈ (parse_body lib t s).g.users_set) ∧
      (∀ x ∈ s.g.places_set, x ∈ (parse_body lib t s).g.places_set) ∧
      (∀ x ∈ s.g.urls_set, x ∈ (parse_body lib t s).g.urls_set) ∧
      (∀ x ∈ s.g.media_set, x ∈ (parse_body lib t s).g.media_set) ∧
      (∀ x ∈ s.g.user_mentions_set, x ∈ (parse_body lib t s).g.user_mentions_set) :=
  parse_body_grows lib t s s
    ⟨fun _ h => h, fun _ h => h, fun _ h => h, fun _ h => h, fun _ h => h⟩

theorem absorbed_mono (lib : Lib) (t t' : Json) (s : State) (h : absorbed lib t s) :
    absorbed lib t (parse_body lib t' s) := by
  obtain ⟨ha, hp, ht, hh, hu, hm, hn⟩ := h
  obtain ⟨g1, g2, g3, g4, g5⟩ := parse_body_mono lib t' s
  exact ⟨parse_body_keeps_author lib _ t' s ha,
    fun plc h1 h2 => g2 _ (hp plc h1 h2),
    parse_body_keeps_post lib _ t' s ht,
    fun x hx => parse_body_keeps_linked lib _ x t' s (hh x hx),
    fun u hx => g3 _ (hu u hx),
    fun m hx => g4 _ (hm m hx),
    fun um hx => ⟨g5 _ (hn um hx).1, g1 _ (hn um hx).2⟩⟩

theorem parse_body_place (lib : Lib) (t : Json) (s : State) (plc : Json)
    (hget : t.get? "place" = some plc) (hnn : plc.is_null = false) :
    sget lib plc "id" ∈ (parse_body lib t s).g.places_set := by
  refine parse_body_stages lib t (fun _ => True) (fun _ => True)
    (fun s => sget lib plc "id" ∈ s.g.places_set) (fun s => sget lib plc "id" ∈ s.g.places_set)
    ?_ ?_ ?_ ?_ ?_ ?_ ?_ s trivial
  · intro s _; trivial
  · intro s _
    unfold parse_place
    rw [hget]
    cases plc with
    | null => exact absurd hnn (by decide)
    | _ => exact check_insert_mem _ _
  · intro s h; exact h
  · intro s x h; exact h
  · intro s x h; exact h
  · intro s x h; exact h
  · intro s x h; exact h

theorem parse_body_urls (lib : Lib) (t : Json) (s : State) :
    ∀ u ∈ entity_items (tweet_entities t) "urls",
      (post_id t, sget lib u "url") ∈ (parse_body lib t s).g.urls_set := by
  intro u hu
  rw [parse_body_eq]
  refine for_entities_inv (fun s => (post_id t, sget lib u "url") ∈ s.g.urls_set) _ _
    (mention_step lib (post_id t)) (fun s y hs => hs) _ ?_
  refine for_entities_inv (fun s => (post_id t, sget lib u "url") ∈ s.g.urls_set) _ _
    (media_step lib (post_id t)) (fun s y hs => hs) _ ?_
  rw [for_entities_eq]
  exact foldl_reach (url_step lib (post_id t))
    (fun u s => (post_id t, sget lib u "url") ∈ s.g.urls_set)
    (fun y s => check_insert_mem _ _)
    (fun y z s hs => check_insert_mono _ _ _ hs) _ _ u hu

theorem parse_body_media (lib : Lib) (t : Json) (s : State) :
    ∀ m ∈ entity_items (tweet_entities t) "media",
      (post_id t, iget_ll m "id") ∈ (parse_body lib t s).g.media_set := by
  intro m hm
  rw [parse_body_eq]
  refine for_entities_inv (fun s => (post_id t, iget_ll m "id") ∈ s.g.media_set) _ _
    (mention_step lib (post_id t)) (fun s y hs => hs) _ ?_
  rw [for_entities_eq]
  exact foldl_reach (media_step lib (post_id t))
    (fun m s => (post_id t, iget_ll m "id") ∈ s.g.media_set)
    (fun y s => check_insert_mem _ _)
    (fun y z s hs => check_insert_mono _ _ _ hs) _ _ m hm

theorem parse_body_mentions (lib : Lib) (t : Json) (s : State) :
    ∀ um ∈ entity_items (tweet_entities t) "user_mentions",
      (iget_ll um "id", post_id t) ∈ (parse_body lib t s).g.user_mentions_set ∧
        iget_ll um "id" ∈ (parse_body lib t s).g.users_set := by
  intro um hum
  rw [parse_body_eq, for_entities_eq]
  exact foldl_reach (mention_step lib (post_id t))
    (fun um s => (iget_ll um "id", post_id t) ∈ s.g.user_mentions_set ∧
      iget_ll um "id" ∈ s.g.users_set)
    (fun y s => ⟨check_insert_mem _ _, check_insert_mem _ _⟩)
    (fun y z s hs => ⟨check_insert_mono _ _ _ hs.1, check_insert_mono _ _ _ hs.2⟩) _ _ um hum

theorem absorbed_body (lib : Lib) (t : Json) (s : State) :
    absorbed lib t (parse_body lib t s) :=
  ⟨parse_body_author lib t s, fun plc h1 h2 => parse_body_place lib t s plc h1 h2,
    parse_body_post lib t s, parse_body_links lib t s, parse_body_urls lib t s,
    parse_body_media lib t s, parse_body_mentions lib t s⟩

theorem foldl_absorbed_fix (lib : Lib) : ∀ (rs : List Json) (s : State),
    (∀ r ∈ rs, absorbed lib r s) → rs.foldl (fun acc r => parse_body lib r acc) s = s := by
  intro rs
  induction rs with
  | nil => intro s _; rfl
  | cons r rest ih =>
    intro s h
    rw [List.foldl_cons, parse_body_fix lib r s (h r (List.mem_cons_self _ _))]
    exact ih s (fun y hy => h y (List.mem_cons_of_mem _ hy))

/-- C22. A second run changes nothing.  For every record `t` and every state `s`
(a state holds the registries, the hashtag dictionary with its counter, the stub
ledger and the table buffers), running `parse_tweet` on `t` again from the state
the first run left gives that same state: no buffer gets a row and no registry,
dictionary entry, counter or ledger entry changes. -/
theorem parse_tweet_idempotent (lib : Lib) (t : Json) (s : State) :
    parse_tweet lib t (parse_tweet lib t s) = parse_tweet lib t s := by
  rw [parse_tweet_eq_fold lib t (parse_tweet lib t s)]
  apply foldl_absorbed_fix
  intro r hr
  rw [parse_tweet_eq_fold]
  exact fold_body_reach lib (absorbed lib) (absorbed_body lib)
    (fun t0 t' s' hs' => absorbed_mono lib t0 t' s' hs') (visited t) s r hr

/-! ## `parse_tweet` raises nothing (C21) -/

theorem index_of_get (j : Json) (key : String) (v : Json) (h : j.get? key = some v) :
    j.index key = .ok v := by
  cases j with
  | obj kvs =>
    have h' : Json.lookup key kvs = some v := h
    simp only [Json.index, h']
  | _ => simp [Json.get?] at h

theorem sget_exn_ok (lib : Lib) (j : Json) (key : String) :
    sget_exn lib j key = .ok (sget lib j key) := by
  unfold sget_exn sget Json.contains
  cases h : j.get? key with
  | none => rfl
  | some v =>
    rw [index_of_get j key v h]
    cases v <;> rfl

theorem iget_ll_exn_ok (j : Json) (key : String) :
    iget_ll_exn j key = .ok (iget_ll j key) := by
  unfold iget_ll_exn iget_ll Json.contains
  cases h : j.get? key with
  | none => rfl
  | some v =>
    rw [index_of_get j key v h]
    cases v with
    | str x =>
      show catch_all (stoll_exn x) 0 = .ok ((stoll x).getD 0)
      unfold catch_all stoll_exn
      cases stoll x <;> rfl
    | _ => rfl

theorem bget_exn_ok (j : Json) (key : String) (dflt : Bool) :
    bget_exn j key dflt = .ok (bget j key dflt) := by
  unfold bget_exn bget Json.contains
  cases h : j.get? key with
  | none => rfl
  | some v =>
    rw [index_of_get j key v h]
    cases v <;> rfl

theorem ivec_loop_ok : ∀ (xs : List Json) (v : List Int),
    ivec_loop xs v = .ok (v ++ xs.filterMap (fun e => match e with
      | .num_int n => some (to_int n)
      | _ => none)) := by
  intro xs
  induction xs with
  | nil => intro v; simp [ivec_loop, pure, Except.pure]
  | cons e rest ih =>
    intro v
    cases e with
    | num_int n =>
      have e1 : ivec_loop (.num_int n :: rest) v = ivec_loop rest (v ++ [to_int n]) := rfl
      rw [e1, ih]
      simp [List.filterMap_cons]
    | _ =>
      simp only [ivec_loop, Json.is_int, Bool.false_eq_true, if_false, ih, List.filterMap_cons]

theorem ivec_exn_ok (j : Json) (key : String) : ivec_exn j key = .ok (ivec j key) := by
  unfold ivec_exn ivec Json.contains
  cases h : j.get? key with
  | none => rfl
  | some v =>
    rw [index_of_get j key v h]
    cases v with
    | arr xs =>
      show ivec_loop xs [] = _
      rw [ivec_loop_ok]
      simp
    | _ => rfl

theorem bool_cell_exn_ok (j : Json) (key : String) :
    bool_cell_exn j key = .ok (bool_cell j key) := by
  unfold bool_cell_exn bool_cell
  rw [bget_exn_ok]
  cases j.contains key <;> rfl

theorem count_cell_exn_ok (j : Json) (key : String) :
    count_cell_exn j key = .ok (count_cell j key) := by
  unfold count_cell_exn count_cell
  rw [iget_ll_exn_ok]
  cases j.contains key <;> rfl

theorem user_row_exn_ok (lib : Lib) (user : Json) (user_id : Int) :
    user_row_exn lib user user_id = .ok (user_row lib user user_id) := by
  unfold user_row_exn
  simp only [sget_exn_ok, bool_cell_exn_ok, count_cell_exn_ok]
  rfl

theorem stub_user_row_exn_ok (lib : Lib) (um : Json) (mid : Int) :
    stub_user_row_exn lib um mid = .ok (stub_user_row lib um mid) := by
  unfold stub_user_row_exn
  simp only [sget_exn_ok]
  rfl

theorem place_row_exn_ok (lib : Lib) (plc : Json) (pid : String) :
    place_row_exn lib plc pid = .ok (place_row lib plc pid) := by
  unfold place_row_exn
  simp only [sget_exn_ok]
  rfl

theorem retweeted_cell_exn_ok (t : Json) :
    retweeted_cell_exn t = .ok (match t.get? "retweeted_status" with
      | some rt => if rt.contains "id" then to_string (iget_ll rt "id") else ""
      | none => "") := by
  unfold retweeted_cell_exn Json.contains
  cases h : t.get? "retweeted_status" with
  | none => rfl
  | some rt =>
    rw [index_of_get t _ rt h]
    cases hc : (rt.get? "id").isSome <;>
      simp only [iget_ll_exn_ok, hc, Option.isSome_some, if_true, Bool.false_eq_true, if_false,
        bind, Except.bind, pure, Except.pure]

theorem place_cell_exn_ok (lib : Lib) (t : Json) :
    place_cell_exn lib t = .ok (match t.get? "place" with
      | some plc => sget lib plc "id"
      | none => "") := by
  unfold place_cell_exn Json.contains
  cases h : t.get? "place" with
  | none => rfl
  | some plc =>
    rw [index_of_get t _ plc h]
    simp only [sget_exn_ok]
    rfl

theorem tweet_row_exn_ok (lib : Lib) (t : Json) (user_id tid : Int) :
    tweet_row_exn lib t user_id tid = .ok (tweet_row lib t user_id tid) := by
  unfold tweet_row_exn
  simp only [ivec_exn_ok, sget_exn_ok, iget_ll_exn_ok, retweeted_cell_exn_ok,
    place_cell_exn_ok, count_cell_exn_ok, bool_cell_exn_ok]
  rfl

theorem tweet_user_exn_ok (t : Json) : tweet_user_exn t = .ok (tweet_user t) := by
  unfold tweet_user_exn tweet_user Json.contains
  cases h : t.get? "user" with
  | none => rfl
  | some v =>
    rw [index_of_get t _ v h]
    rfl

theorem tweet_entities_exn_ok (t : Json) : tweet_entities_exn t = .ok (tweet_entities t) := by
  unfold tweet_entities_exn tweet_entities Json.contains
  cases h : t.get? "entities" with
  | none => rfl
  | some v =>
    rw [index_of_get t _ v h]
    rfl

theorem parse_users_exn_ok (lib : Lib) (t : Json) (s : State) :
    parse_users_exn lib (tweet_user t) (iget_ll (tweet_user t) "id") s =
      .ok (parse_users lib t s) := by
  unfold parse_users_exn parse_users push_if
  rw [user_row_exn_ok]
  cases hc : (check_insert (iget_ll (tweet_user t) "id") s.g.users_set).2 <;>
    simp only [hc, if_true, Bool.false_eq_true, if_false, bind, Except.bind, pure,
      Except.pure]

theorem parse_place_exn_ok (lib : Lib) (t : Json) (s : State) :
    parse_place_exn lib t s = .ok (parse_place lib t s) := by
  unfold parse_place_exn parse_place Json.contains push_if
  cases h : t.get? "place" with
  | none => rfl
  | some plc =>
    rw [index_of_get t _ plc h]
    simp only [sget_exn_ok, place_row_exn_ok]
    cases hc : (check_insert (sget lib plc "id") s.g.places_set).2 <;>
      cases plc <;>
      simp only [hc, Option.isSome_some, if_true, bind, Except.bind, pure, Except.pure,
        Json.is_null, Bool.false_eq_true, if_false]

theorem parse_tweets_exn_ok (lib : Lib) (t : Json) (user_id tid : Int) (s : State) :
    parse_tweets_exn lib t user_id tid s = .ok (parse_tweets lib t user_id tid s) := by
  unfold parse_tweets_exn parse_tweets push_if
  rw [tweet_row_exn_ok]
  cases hc : (check_insert tid s.g.tweets_set).2 <;>
    simp only [hc, if_true, Bool.false_eq_true, if_false, bind, Except.bind, pure,
      Except.pure]

theorem hashtag_step_exn_ok (lib : Lib) (tid : Int) (s : State) (h : Json) :
    hashtag_step_exn lib tid s h = .ok (hashtag_step lib tid s h) := by
  unfold hashtag_step_exn
  rw [sget_exn_ok]
  rfl

theorem url_step_exn_ok (lib : Lib) (tid : Int) (s : State) (u : Json) :
    url_step_exn lib tid s u = .ok (url_step lib tid s u) := by
  unfold url_step_exn url_step push_if
  cases hc : (check_insert (tid, sget lib u "url") s.g.urls_set).2 <;>
    simp only [sget_exn_ok, hc, if_true, Bool.false_eq_true, if_false, bind, Except.bind, pure,
      Except.pure]

theorem media_step_exn_ok (lib : Lib) (tid : Int) (s : State) (m : Json) :
    media_step_exn lib tid s m = .ok (media_step lib tid s m) := by
  unfold media_step_exn media_step push_if
  cases hc : (check_insert (tid, iget_ll m "id") s.g.media_set).2 <;>
    simp only [sget_exn_ok, iget_ll_exn_ok, hc, if_true, Bool.false_eq_true, if_false, bind,
      Except.bind, pure, Except.pure]

theorem mention_step_exn_ok (lib : Lib) (tid : Int) (s : State) (um : Json) :
    mention_step_exn lib tid s um = .ok (mention_step lib tid s um) := by
  have e1 : mention_rows_exn lib tid (iget_ll um "id") s um =
      .ok (push_if (check_insert (iget_ll um "id", tid) s.g.user_mentions_set).2
        s.tb.user_mentions
        [to_string tid, id_cell (iget_ll um "id"), sget lib um "screen_name",
          sget lib um "name"]) := by
    unfold mention_rows_exn push_if
    cases hc : (check_insert (iget_ll um "id", tid) s.g.user_mentions_set).2 <;>
      simp only [sget_exn_ok, hc, if_true, Bool.false_eq_true, if_false, bind, Except.bind,
        pure, Except.pure]
  have e2 : stub_rows_exn lib (iget_ll um "id") s um =
      .ok (push_if (check_insert (iget_ll um "id") s.g.users_set).2 s.tb.users
        (stub_user_row lib um (iget_ll um "id"))) := by
    unfold stub_rows_exn push_if
    cases hc : (check_insert (iget_ll um "id") s.g.users_set).2 <;>
      simp only [stub_user_row_exn_ok, hc, if_true, Bool.false_eq_true, if_false, bind,
        Except.bind, pure, Except.pure]
  unfold mention_step_exn
  simp only [iget_ll_exn_ok, bind, Except.bind, e1, e2]
  rfl

theorem loop_exn_ok (step_exn : State → Json → Except Thrown State) (step : State → Json → State)
    (h : ∀ s x, step_exn s x = .ok (step s x)) :
    ∀ (xs : List Json) (s : State), loop_exn step_exn xs s = .ok (xs.foldl step s) := by
  intro xs
  induction xs with
  | nil => intro s; rfl
  | cons x rest ih =>
    intro s
    have e : loop_exn step_exn (x :: rest) s = loop_exn step_exn rest (step s x) := by
      simp only [loop_exn, h, bind, Except.bind]
    rw [e, ih]
    rfl

theorem for_entities_exn_ok (entities : Json) (key : String)
    (step_exn : State → Json → Except Thrown State) (step : State → Json → State)
    (h : ∀ s x, step_exn s x = .ok (step s x)) (s : State) :
    for_entities_exn entities key step_exn s = .ok (for_entities entities key step s) := by
  unfold for_entities_exn for_entities Json.contains
  cases hg : entities.get? key with
  | none => rfl
  | some v =>
    rw [index_of_get entities key v hg]
    cases v with
    | arr xs => exact loop_exn_ok step_exn step h xs s
    | _ => rfl

theorem parse_body_exn_ok (lib : Lib) (t : Json) (s : State) :
    parse_body_exn lib t s = .ok (parse_body lib t s) := by
  unfold parse_body_exn
  simp only [tweet_user_exn_ok, iget_ll_exn_ok, parse_users_exn_ok, parse_place_exn_ok,
    parse_tweets_exn_ok, tweet_entities_exn_ok, bind, Except.bind,
    for_entities_exn_ok _ _ _ _ (hashtag_step_exn_ok lib _),
    for_entities_exn_ok _ _ _ _ (url_step_exn_ok lib _),
    for_entities_exn_ok _ _ _ _ (media_step_exn_ok lib _),
    for_entities_exn_ok _ _ _ _ (mention_step_exn_ok lib _)]
  rfl

theorem parse_tweet_nested_exn_ok (lib : Lib) :
    (∀ (t : Json) (s : State), parse_tweet_exn lib t s = .ok (parse_tweet lib t s)) ∧
    (∀ (key : String) (kvs : List (String × Json)) (s : State),
      parse_nested_exn lib key kvs s = .ok (parse_nested lib key kvs s)) := by
  apply visited.mutual_induct
    (fun t => ∀ s, parse_tweet_exn lib t s = .ok (parse_tweet lib t s))
    (fun key kvs => ∀ s, parse_nested_exn lib key kvs s = .ok (parse_nested lib key kvs s))
  · intro kvs h1 h2 s
    simp only [parse_tweet_exn, parse_tweet, parse_body_exn_ok, h1, h2]
  · intro t ht s
    cases t with
    | obj kvs => exact absurd rfl (ht kvs)
    | _ => simp only [parse_tweet_exn, parse_tweet, parse_body_exn_ok]
  · intro key s
    simp [parse_nested_exn, parse_nested]
  · intro k rest kvs h s
    simp only [parse_nested_exn, parse_nested, if_true]
    exact h s
  · intro k v rest hv s
    cases v with
    | obj kvs => exact absurd rfl (hv kvs)
    | _ => simp [parse_nested_exn, parse_nested]
  · intro key k v rest hk h s
    have e1 : parse_nested_exn lib key ((k, v) :: rest) s = parse_nested_exn lib key rest s := by
      cases v <;> simp only [parse_nested_exn, hk, if_false]
    have e2 : parse_nested lib key ((k, v) :: rest) s = parse_nested lib key rest s := by
      cases v <;> simp only [parse_nested, hk, if_false]
    rw [e1, e2]
    exact h s

theorem nodes_lookup (key : String) : ∀ (kvs : List (String × Json)) (v : Json),
    Json.lookup key kvs = some v → Json.nodes v ≤ Json.nodes_members kvs := by
  intro kvs
  induction kvs with
  | nil => intro v h; simp [Json.lookup] at h
  | cons p rest ih =>
    intro v h
    obtain ⟨k, w⟩ := p
    by_cases hk : k = key
    · simp only [Json.lookup, hk, if_true, Option.some.injEq] at h
      subst h
      simp only [Json.nodes_members]
      omega
    · simp only [Json.lookup, hk, if_false] at h
      have := ih v h
      simp only [Json.nodes_members]
      omega

theorem nodes_member (t : Json) (key : String) (v : Json) (h : t.get? key = some v) :
    Json.nodes v < Json.nodes t := by
  cases t with
  | obj kvs =>
    have h' : Json.lookup key kvs = some v := h
    have := nodes_lookup key kvs v h'
    simp only [Json.nodes]
    omega
  | _ => simp [Json.get?] at h

/-- The exceptions of the model are reachable by the library calls themselves; it is
the guards of the source that keep `parse_tweet` away from them: `j[key]` on a
number throws, `get<std::string>()` on a boolean throws, and `iget_ll` on a
boolean member catches that exception and gives 0. -/
theorem thrown_branches_live :
    (Json.num_int 1).index "id" = .error .type_error_305 ∧
    (Json.bool true).get_string = .error .type_error_302 ∧
    stoll_exn "x" = .error .stoll_failed ∧
    iget_ll_exn (.obj [("id", .bool true)]) "id" = .ok 0 :=
  ⟨rfl, rfl, rfl, rfl⟩

/-- C21. The function `parse_tweet` is total and raises nothing.  For every JSON value
`t` (object or not, members of any type, records nested to any depth) and every
state, the run of `parse_tweet` in which every library call that can throw is
followed (`j[key]`, `get<T>()`, `std::stoll`) ends without exception, in the state
computed by `parse_tweet`.  The recursion goes into `quoted_status` and
`retweeted_status` only, and each member of an object is a strictly smaller
value than the object. -/
theorem parse_tweet_total (lib : Lib) (t : Json) (s : State) :
    parse_tweet_exn lib t s = .ok (parse_tweet lib t s) ∧
    (∀ q, t.get? "quoted_status" = some q → Json.nodes q < Json.nodes t) ∧
    (∀ q, t.get? "retweeted_status" = some q → Json.nodes q < Json.nodes t) :=
  ⟨(parse_tweet_nested_exn_ok lib).1 t s, fun q h => nodes_member t _ q h,
    fun q h => nodes_member t _ q h⟩

end PDT
